import Mathlib

/-
A verification development for the command-grammar compiler, matcher and
resolver of the JustLibServer command-line interface.

The JavaScript source is embedded shallowly:

* `GraphGenerator.generateGraph` becomes a state-passing function over an
  arena of graph nodes (`GenSt`); JS object references become arena indices.
* `GraphGenerator.processInput` becomes a fuelled small-step machine
  (`step` / `run`); JS `MatchResult` objects live in a second arena
  (`MState.marena`) so that the source's in-place mutation of shared match
  objects (`match.isPartial = true`, `match.isInvokable = true`) and its
  result de-duplication by object identity (`[...new Set(matches)]`) are
  reproduced exactly.
* `CLI.resolveCommand` becomes a total function into `Except CmdError`.
* The host-dependent numeric and date tests (`isNaN(value)`,
  `Date.parse(value)`) are parameters `nk dk : String → Bool` of the matcher;
  `jsNumOk` is the concrete decimal-fragment instance used for concrete runs.
* A segment's `_provided_enum` field and the provider invocation count are
  threaded through `MState` (`providedEnum`, `providerCalls`); the provider
  function itself is modelled by the list it returns.
-/

namespace JustLib

/-- Variable types, from `VariableSegmentOptions.type` in the source
(`"any" | "number" | "string" | "boolean" | "date" | "flag"`). -/
inductive VarType where
  | any | number | str | boolean | date | flag
deriving DecidableEq, Repr

/-- The data of a `VariableSegment` instance.  `vid` models JavaScript object
identity of the segment instance (distinct instances carry distinct `vid`s);
`provider` models the zero-argument provider function by the list it returns
on each invocation. -/
structure VarSeg where
  vid : Nat
  name : String
  vtype : Option VarType
  venum : Option (List String)
  provider : Option (List String)
  isRest : Bool
deriving DecidableEq, Repr

/-- A user-authored command segment (`KeywordSegment`, `VariableSegment`,
`OptionalSegment`, `UnionSegment`).  `kid` models object identity of a
keyword segment instance. -/
inductive Segment where
  | keyword (kid : Nat) (name : String)
  | var (v : VarSeg)
  | optionalSeg (segs : List Segment)
  | unionSeg (subs : List (List Segment))

/-- The segment stored in a graph node: a solid segment, or a
`ControlSegment` marker with its `id` and `isBof` flag. -/
inductive NodeSeg where
  | control (id : Nat) (isBof : Bool)
  | keyword (kid : Nat) (name : String)
  | var (v : VarSeg)
deriving DecidableEq, Repr

/-- A `GraphNode`: its segment and its outgoing edges, as indices into the
node arena (JS object references become stable arena indices). -/
structure Node where
  seg : NodeSeg
  edges : List Nat
deriving DecidableEq, Repr

/-- State of a `GraphGenerator`: the node arena, the id counter
(`IdGenerator`), and the node cache (`nodeCache`), keyed by segment
identity; the cache is split by segment kind since a keyword and a variable
are never the same JS object. -/
structure GenSt where
  arena : List Node
  nextId : Nat
  cacheKw : List (Nat × Nat)
  cacheVar : List (Nat × Nat)
deriving DecidableEq, Repr

def lookupNat (l : List (Nat × Nat)) (k : Nat) : Option Nat :=
  match l with
  | [] => none
  | (k', v) :: rest => if k' = k then some v else lookupNat rest k

/-- The node returned for an out-of-range index; a fresh unreachable marker,
never produced by a real dereference of the generated graphs. -/
def junkNode : Node := ⟨.control 1 true, []⟩

def getNode (g : List Node) (i : Nat) : Node := g.getD i junkNode

/-- `node.edges.push(v)` on node `u`. -/
def GenSt.addEdge (g : GenSt) (u v : Nat) : GenSt :=
  let n := getNode g.arena u
  { g with arena := g.arena.set u { n with edges := n.edges ++ [v] } }

/-- Append a fresh node to the arena, returning its index. -/
def GenSt.pushNode (g : GenSt) (s : NodeSeg) : GenSt × Nat :=
  ({ g with arena := g.arena ++ [⟨s, []⟩] }, g.arena.length)

/-- `GraphGenerator.createMarkerSet`: a fresh BOF/EOF pair sharing one id. -/
def GenSt.createMarkerSet (g : GenSt) : GenSt × Nat × Nat :=
  let id := g.nextId
  let g := { g with nextId := id + 1 }
  let (g, b) := g.pushNode (.control id true)
  let (g, e) := g.pushNode (.control id false)
  (g, b, e)

/-- `GraphGenerator.createNode`: memoized by segment identity. -/
def GenSt.createNode (g : GenSt) (s : NodeSeg) : GenSt × Nat :=
  match s with
  | .keyword kid _ =>
    match lookupNat g.cacheKw kid with
    | some i => (g, i)
    | none =>
      let (g, i) := g.pushNode s
      ({ g with cacheKw := (kid, i) :: g.cacheKw }, i)
  | .var v =>
    match lookupNat g.cacheVar v.vid with
    | some i => (g, i)
    | none =>
      let (g, i) := g.pushNode s
      ({ g with cacheVar := (v.vid, i) :: g.cacheVar }, i)
  | .control _ _ => g.pushNode s

/-- `__createOptionalChaining(endNode)`: the pending chain is the list of
`(scope entry, scope exit)` pairs of the buffered optional scopes; the anchor
is appended as `[endNode, null]` and every pair's exit is linked to every
later pair's entry and finally to the anchor, in the source's i-major
order. -/
def resolveChain (g : GenSt) (chain : List (Nat × Nat)) (anchor : Nat) : GenSt :=
  match chain with
  | [] => g
  | (_, ex) :: rest =>
    let g := rest.foldl (fun g p => g.addEdge ex p.1) g
    let g := g.addEdge ex anchor
    resolveChain g rest anchor

mutual

/-- `GraphGenerator.generateGraph(segments)`: returns the new generator state
and the scope's `(BOF, EOF)` node indices. -/
def generateGraph (g : GenSt) (segments : List Segment) : GenSt × Nat × Nat :=
  let (g, bof, eof) := g.createMarkerSet
  let (g, current, chain) := genLoop g bof [] segments
  let g := if chain.isEmpty then g else resolveChain g chain eof
  let g := g.addEdge current eof
  (g, bof, eof)

/-- The `for(const segment of segments)` loop of `generateGraph`, threading
`currentNode` and `optionalChain`. -/
def genLoop (g : GenSt) (current : Nat) (chain : List (Nat × Nat))
    (segments : List Segment) : GenSt × Nat × List (Nat × Nat) :=
  match segments with
  | [] => (g, current, chain)
  | seg :: rest =>
    match seg with
    | .optionalSeg inner =>
      let (g, ob, oe) := generateGraph g inner
      let chain := chain ++ [(ob, oe)]
      let g := g.addEdge current ob
      genLoop g current chain rest
    | .unionSeg subs =>
      let (g, ub, ue) := g.createMarkerSet
      let g := g.addEdge current ub
      let g := genUnion g ub ue subs
      genLoop g ue chain rest
    | .keyword kid name =>
      let (g, n) := g.createNode (.keyword kid name)
      let g := g.addEdge current n
      let gc := if chain.isEmpty then (g, chain) else (resolveChain g chain n, [])
      genLoop gc.1 n gc.2 rest
    | .var v =>
      let (g, n) := g.createNode (.var v)
      let g := g.addEdge current n
      let g := if v.isRest then g.addEdge n n else g
      let gc := if chain.isEmpty then (g, chain) else (resolveChain g chain n, [])
      genLoop gc.1 n gc.2 rest

/-- The per-branch loop of the union case of `generateGraph`. -/
def genUnion (g : GenSt) (ub ue : Nat) (subs : List (List Segment)) : GenSt :=
  match subs with
  | [] => g
  | sub :: rest =>
    let (g, sb, se) := generateGraph g sub
    let g := g.addEdge ub sb
    let g := g.addEdge se ue
    genUnion g ub ue rest

end

/-- The empty generator state: a fresh `GraphGenerator` as constructed once
per `Command`. -/
def gen0 : GenSt := ⟨[], 0, [], []⟩

/-! ### Values and type tests -/

/-- A JavaScript value as stored in `MatchedNode.value`.  Floats and dates
are carried by the raw string they were parsed from (no claim inspects
their numeric value). -/
inductive JSVal where
  | str (s : String)
  | num (raw : String)
  | boolean (b : Bool)
  | date (raw : String)
deriving DecidableEq, Repr

/-- `VariableSegment.compareType(value, segment)`.  `nk s` models
`!isNaN(s)` under ECMAScript string-to-number coercion and `dk s` models
`!isNaN(Date.parse(s))`; both are host computations taken as parameters.
`VariableSegment.isNaN(value)` is `value === "" || isNaN(value)`. -/
def compareType (nk dk : String → Bool) (value : String) (seg : VarSeg) : Bool :=
  match seg.vtype with
  | some .number => !(value == "" || !nk value)
  | some .str => true
  | some .boolean => value == "true" || value == "false"
  | some .date => value != "" && dk value
  | some .flag => value == seg.name
  | _ => true

/-- `VariableSegment.parseValue(value, segment)`. -/
def parseValue (nk dk : String → Bool) (value : String) (seg : VarSeg) : JSVal :=
  if seg.vtype == some .number && compareType nk dk value seg then .num value
  else if seg.vtype == some .boolean && compareType nk dk value seg then
    .boolean (value == "true")
  else if seg.vtype == some .date && compareType nk dk value seg then .date value
  else if seg.vtype == some .flag && compareType nk dk value seg then .boolean true
  else if seg.vtype == some .str then .str value
  else .str value

/-- `s.startsWith(pre)` on JS strings, computed on the character lists. -/
def strStarts (s pre : String) : Bool := pre.data.isPrefixOf s.data

/-- Decimal fragment of ECMAScript string-to-number coercion: an optional
sign, then digit characters with at most one decimal point and at least one
digit (`"5"`, `"3.14"`, `"-2."`, `".5"`); the empty string coerces to `0`,
which is not NaN.  `jsNumOk s` models `!isNaN(Number(s))` on this fragment
and is the concrete instance of the matcher's `nk` parameter used in
concrete runs. -/
def jsNumOk (s : String) : Bool :=
  let cs :=
    match s.data with
    | '+' :: rest => rest
    | '-' :: rest => rest
    | cs => cs
  if cs.isEmpty then s.data.isEmpty
  else cs.all (fun c => c.isDigit || c == '.') &&
    cs.count '.' ≤ 1 && cs.any (fun c => c.isDigit)

/-- Concrete instance of the matcher's `dk` parameter for runs that involve
no date-typed variable (its value is then never consulted). -/
def noDate : String → Bool := fun _ => false

/-! ### The matcher (`GraphGenerator.processInput`) -/

/-- The keyword test `segment.name.startsWith(arg)`. -/
def kwIsPartialB (name arg : String) : Bool := strStarts name arg

/-- The keyword full-match test: prefix and equal length. -/
def kwIsFull (name arg : String) : Bool :=
  strStarts name arg && name.data.length == arg.data.length

/-- `segment.enum || segment.provider && (...) || null`: the enum list the
matcher consults, `none` when the segment has neither enum nor provider. -/
def varComputedEnum (v : VarSeg) : Option (List String) :=
  match v.venum with
  | some e => some e
  | none => v.provider

/-- Whether the provider is invoked on a visit: no static enum and a
provider present. -/
def varFired (v : VarSeg) : Bool := v.venum == none && v.provider.isSome

/-- The enum candidates consistent with the current token. -/
def varMatchingEnums (v : VarSeg) (arg : String) : List String :=
  ((varComputedEnum v).getD []).filter (fun e => strStarts e arg)

/-- `isTypeMatch`: `segment.type && compareType(arg, segment)`. -/
def varIsTypeMatch (nk dk : String → Bool) (v : VarSeg) (arg : String) : Bool :=
  v.vtype.isSome && compareType nk dk arg v

/-- `isPartial` of the variable branch: empty-non-string, matching enums, or
flag prefix. -/
def varIsPartialB (v : VarSeg) (arg : String) : Bool :=
  (!(v.vtype == some .str) && arg == "") ||
  decide (0 < (varMatchingEnums v arg).length) ||
  (v.vtype == some .flag && strStarts v.name arg)

/-- `isFull` of the variable branch: type match, exact enum match, or flag
match. -/
def varIsFull (nk dk : String → Bool) (v : VarSeg) (arg : String) : Bool :=
  varIsTypeMatch nk dk v arg ||
  ((varMatchingEnums v arg).length == 1 &&
    ((varMatchingEnums v arg).headD "").data.length == arg.data.length) ||
  (v.vtype == some .flag && arg == v.name)

/-- The value recorded into the matched node. -/
def varValue (nk dk : String → Bool) (v : VarSeg) (arg : String) : JSVal :=
  if varIsTypeMatch nk dk v arg then parseValue nk dk arg v else .str arg

/-- A `MatchedNode`: the consumed graph node, the raw token, the coerced
value and the surviving enum candidates. -/
structure MatchedNode where
  nodeIdx : Nat
  seg : NodeSeg
  raw : String
  value : JSVal
  enums : List String
deriving DecidableEq, Repr

/-- A `MatchResult` object. -/
structure MatchRes where
  nodes : List MatchedNode
  isPartial : Bool
  isInvokable : Bool
deriving DecidableEq, Repr

/-- One stack entry of the traversal: `{node, match, index}`, the match
being a reference (arena index) into `MState.marena`. -/
structure Frame where
  node : Nat
  mid : Nat
  index : Nat
deriving DecidableEq, Repr

/-- Mutable state of one `processInput` call: the worklist stack, the arena
of `MatchResult` objects (JS heap), the `matches` output list (by object
reference), the number of provider invocations performed so far, and the
`_provided_enum` fields of all variable segments (keyed by `vid`). -/
structure MState where
  stack : List Frame
  marena : List MatchRes
  emitted : List Nat
  providerCalls : Nat
  providedEnum : List (Nat × List String)
deriving DecidableEq, Repr

def emptyMatch : MatchRes := ⟨[], false, false⟩

def getMatch (a : List MatchRes) (i : Nat) : MatchRes := a.getD i emptyMatch

/-- `match.isPartial = true; matches.push(match)` — in-place mutation of a
possibly shared match object. -/
def emitPartialOf (st : MState) (mid : Nat) : MState :=
  { st with
    marena :=
      st.marena.set mid { getMatch st.marena mid with isPartial := true },
    emitted := st.emitted ++ [mid] }

/-- `match.isInvokable = true; matches.push(match)`. -/
def emitInvokableOf (st : MState) (mid : Nat) : MState :=
  { st with
    marena :=
      st.marena.set mid { getMatch st.marena mid with isInvokable := true },
    emitted := st.emitted ++ [mid] }

/-- Allocate a fresh `MatchResult` object, returning its reference. -/
def allocMatch (st : MState) (m : MatchRes) : MState × Nat :=
  ({ st with marena := st.marena ++ [m] }, st.marena.length)

/-- `stack.push(...node.edges.map(node => ({node, match, index})))`: JS pops
from the array end, so the last edge is processed first; with the model's
stack top at the list head this reverses the edge list. -/
def pushFrames (st : MState) (edges : List Nat) (mid index : Nat) : MState :=
  { st with stack := (edges.map (fun e => Frame.mk e mid index)).reverse ++ st.stack }

/-- Write to a segment's `_provided_enum` field. -/
def setPE (l : List (Nat × List String)) (k : Nat) (v : List String) :
    List (Nat × List String) :=
  match l with
  | [] => [(k, v)]
  | (k', v') :: rest => if k' = k then (k, v) :: rest else (k', v') :: setPE rest k v

/-- The body of the `while(stack.length > 0)` loop of
`GraphGenerator.processInput`, for one already-popped frame `fr`. -/
def step (nk dk : String → Bool) (g : List Node) (argv : List String)
    (fr : Frame) (st : MState) : MState :=
  let node := getNode g fr.node
  let seg := node.seg
  let m := getMatch st.marena fr.mid
  let hasMore := decide (fr.index < argv.length)
  let isLast := fr.index + 1 == argv.length
  match seg with
  | .control id isBof =>
    let st := pushFrames st node.edges fr.mid fr.index
    if !isBof && id == 0 && !hasMore then emitInvokableOf st fr.mid else st
  | .keyword _ name =>
    if !hasMore then emitPartialOf st fr.mid
    else
      let arg := argv.getD fr.index ""
      let isP := kwIsPartialB name arg
      let isF := kwIsFull name arg
      if isF then
        let (st, nm) := allocMatch st
          ⟨m.nodes ++ [⟨fr.node, seg, arg, .str arg, []⟩], false, false⟩
        pushFrames st node.edges nm (fr.index + 1)
      else if isP && isLast then
        let (st, nm) := allocMatch st
          ⟨m.nodes ++ [⟨fr.node, seg, arg, .str arg, []⟩], false, false⟩
        { st with emitted := st.emitted ++ [nm] }
      else st
  | .var v =>
    if !hasMore then emitPartialOf st fr.mid
    else
      let arg := argv.getD fr.index ""
      let st :=
        if varFired v then
          { st with providerCalls := st.providerCalls + 1,
                    providedEnum := setPE st.providedEnum v.vid (v.provider.getD []) }
        else st
      let isP := varIsPartialB v arg
      let isF := varIsFull nk dk v arg
      let mn : MatchedNode :=
        ⟨fr.node, seg, arg, varValue nk dk v arg, varMatchingEnums v arg⟩
      if isF then
        let (st, nm) := allocMatch st ⟨m.nodes ++ [mn], false, false⟩
        pushFrames st node.edges nm (fr.index + 1)
      else if isP then
        let (st, nm) := allocMatch st ⟨m.nodes ++ [mn], false, false⟩
        { st with emitted := st.emitted ++ [nm] }
      else st

/-- The fuelled traversal loop; `none` means the fuel ran out before the
stack emptied. -/
def run (nk dk : String → Bool) (g : List Node) (argv : List String) :
    Nat → MState → Option MState
  | 0, st => match st.stack with | [] => some st | _ :: _ => none
  | fuel + 1, st =>
    match st.stack with
    | [] => some st
    | fr :: rest => run nk dk g argv fuel (step nk dk g argv fr { st with stack := rest })

/-- `[...new Set(matches)]`: de-duplication by object identity, keeping the
first occurrence of each reference. -/
def dedupAux : List Nat → List Nat → List Nat
  | [], _ => []
  | x :: xs, seen => if x ∈ seen then dedupAux xs seen else x :: dedupAux xs (x :: seen)

/-- The initial machine state: one frame at the graph's entry node, one
empty root match object. -/
def initState (bof : Nat) (pe : List (Nat × List String)) : MState :=
  ⟨[⟨bof, 0, 0⟩], [emptyMatch], [], 0, pe⟩

/-- `GraphGenerator.processInput(argv, graph)`: the returned matches (after
identity de-duplication) together with the final machine state. -/
def processInput (nk dk : String → Bool) (g : List Node) (bof : Nat)
    (argv : List String) (pe : List (Nat × List String)) (fuel : Nat) :
    Option (List MatchRes × MState) :=
  (run nk dk g argv fuel (initState bof pe)).map (fun st =>
    ((dedupAux st.emitted []).map (getMatch st.marena), st))

/-! ### The resolver (`CLI.resolveCommand`) -/

/-- A `MatchResult` tagged with its command (`e.command = cmd` in
`CLI.parseInput`): the command's registration index and name. -/
structure CmdMatch where
  res : MatchRes
  cmdIdx : Nat
  cmdName : String
deriving DecidableEq, Repr

/-- The value bound under one name in the resolved `variables` object. -/
inductive VarBinding where
  | single (v : JSVal)
  | arr (vs : List JSVal)
deriving DecidableEq, Repr

/-- The result object of `CLI.resolveCommand`; `variables` is a JS object,
modelled as an association list in property insertion order. -/
structure Resolved where
  cmdIdx : Nat
  cmdName : String
  vars : List (String × VarBinding)
  segments : List MatchedNode
deriving DecidableEq, Repr

/-- `CommandError` codes thrown by `CLI.parseInput`/`CLI.resolveCommand`;
`typeError` models the TypeError a JS property access on `undefined` would
raise in the scoring loop. -/
inductive CmdError where
  | unknownCommand
  | ambiguousCommand (names : List String)
  | incompleteCommand
  | typeError
deriving DecidableEq, Repr

instance instDecEqExcept {e a : Type} [DecidableEq e] [DecidableEq a] :
    DecidableEq (Except e a) := fun x y =>
  match x, y with
  | .error u, .error v =>
    if h : u = v then .isTrue (congrArg _ h)
    else .isFalse (fun hh => h (Except.error.inj hh))
  | .ok u, .ok v =>
    if h : u = v then .isTrue (congrArg _ h)
    else .isFalse (fun hh => h (Except.ok.inj hh))
  | .error _, .ok _ => .isFalse Except.noConfusion
  | .ok _, .error _ => .isFalse Except.noConfusion

def lookupPE (l : List (Nat × List String)) (k : Nat) : Option (List String) :=
  match l with
  | [] => none
  | (k', v) :: rest => if k' = k then some v else lookupPE rest k

/-- The per-position score of one matched node's segment: keyword 4; variable
with enum or `_provided_enum` 3, with a non-string type 2, otherwise 1. -/
def segScore (pe : List (Nat × List String)) (s : NodeSeg) : Nat :=
  match s with
  | .keyword _ _ => 4
  | .var v =>
    if v.venum.isSome || (lookupPE pe v.vid).isSome then 3
    else if v.vtype.isSome && !(v.vtype == some .str) then 2
    else 1
  | .control _ _ => 0

/-- One candidate's total over the first `n0` node positions
(`n0 = invokable[0].nodes.length`); `none` models the TypeError raised when
`invokable[j].nodes[i]` is `undefined`. -/
def scoreOf (pe : List (Nat × List String)) (n0 : Nat)
    (nodes : List MatchedNode) : Option Nat :=
  if nodes.length < n0 then none
  else some (((nodes.take n0).map (fun mn => segScore pe mn.seg)).sum)

def allScores (pe : List (Nat × List String)) (n0 : Nat) :
    List CmdMatch → Option (List (CmdMatch × Nat))
  | [] => some []
  | c :: rest =>
    match scoreOf pe n0 c.res.nodes, allScores pe n0 rest with
    | some s, some l => some ((c, s) :: l)
    | _, _ => none

/-- Insert into a descending-sorted list after all entries of greater or
equal score. -/
def insertDesc (x : CmdMatch × Nat) : List (CmdMatch × Nat) → List (CmdMatch × Nat)
  | [] => [x]
  | y :: ys => if y.2 < x.2 then x :: y :: ys else y :: insertDesc x ys

/-- `cadidates.sort((a, b) => b.score - a.score)`: a stable descending sort
(V8's `Array.prototype.sort` is stable). -/
def sortDesc (l : List (CmdMatch × Nat)) : List (CmdMatch × Nat) :=
  l.foldl (fun acc x => insertDesc x acc) []

/-- `obj[name] = e.value` on the JS variables object. -/
def setVar (obj : List (String × VarBinding)) (name : String) (v : JSVal) :
    List (String × VarBinding) :=
  match obj with
  | [] => [(name, .single v)]
  | (n, b) :: rest =>
    if n = name then (n, .single v) :: rest else (n, b) :: setVar rest name v

/-- The rest-variable branch: reset `obj[name]` to `[]` unless it is already
an array, then push `e.value`. -/
def pushVar (obj : List (String × VarBinding)) (name : String) (v : JSVal) :
    List (String × VarBinding) :=
  match obj with
  | [] => [(name, .arr [v])]
  | (n, b) :: rest =>
    if n = name then
      match b with
      | .arr l => (n, .arr (l ++ [v])) :: rest
      | .single _ => (n, .arr [v]) :: rest
    else (n, b) :: pushVar rest name v

/-- The `candidate.nodes.reduce(...)` variable-binding extraction. -/
def extractVars (nodes : List MatchedNode) : List (String × VarBinding) :=
  nodes.foldl
    (fun obj mn =>
      match mn.seg with
      | .var v =>
        if v.isRest then pushVar obj v.name mn.value else setVar obj v.name mn.value
      | _ => obj)
    []

/-- `CLI.resolveCommand(results)`. -/
def resolveCommand (pe : List (Nat × List String)) (results : List CmdMatch) :
    Except CmdError Resolved :=
  match results.filter (fun r => r.res.isInvokable) with
  | [] => .error .incompleteCommand
  | first :: restInv =>
    let pick : Except CmdError CmdMatch :=
      match restInv with
      | [] => .ok first
      | _ :: _ =>
        match allScores pe first.res.nodes.length (first :: restInv) with
        | none => .error .typeError
        | some cands =>
          match sortDesc cands with
          | [] => .error .typeError
          | top :: others =>
            let filtered := (top :: others).filter (fun c => c.2 == top.2)
            if 1 < filtered.length then
              .error (.ambiguousCommand (filtered.map (fun c => c.1.cmdName)))
            else .ok top.1
    match pick with
    | .error e => .error e
    | .ok candidate =>
      .ok ⟨candidate.cmdIdx, candidate.cmdName,
           extractVars candidate.res.nodes, first.res.nodes⟩

/-! ### The command pipeline (`Command` constructor and `CLI.parseInput`) -/

/-- A registered command before compilation: its name, the object identity
of the keyword segment the `Command` constructor prepends
(`scheme.unshift(new KeywordSegment(name))`), and the user scheme. -/
structure CommandDef where
  kwId : Nat
  name : String
  scheme : List Segment

/-- The `Command` constructor's compilation: a fresh `GraphGenerator` over
the name-keyword-prefixed scheme. -/
def buildCommand (c : CommandDef) : GenSt × Nat × Nat :=
  generateGraph gen0 (Segment.keyword c.kwId c.name :: c.scheme)

/-- A compiled command as the matcher consumes it: registration index, name,
node arena and entry (BOF) index. -/
structure BuiltCommand where
  cmdIdx : Nat
  cmdName : String
  graph : List Node
  bof : Nat
deriving DecidableEq, Repr

def builtCommandsAux : Nat → List CommandDef → List BuiltCommand
  | _, [] => []
  | i, c :: rest =>
    let built := buildCommand c
    { cmdIdx := i, cmdName := c.name, graph := built.1.arena, bof := built.2.1 } ::
      builtCommandsAux (i + 1) rest

/-- All registered commands, compiled in registration order. -/
def builtCommands (cmds : List CommandDef) : List BuiltCommand :=
  builtCommandsAux 0 cmds

/-- The match-gathering loop of `CLI.parseInput`: each command's graph is
matched against `argv`, results are tagged with their command, and the
segments' `_provided_enum` state is threaded through. -/
def gatherMatches (nk dk : String → Bool) (argv : List String) (fuel : Nat) :
    List BuiltCommand → List (Nat × List String) →
    Option (List CmdMatch × List (Nat × List String))
  | [], pe => some ([], pe)
  | bc :: rest, pe =>
    match processInput nk dk bc.graph bc.bof argv pe fuel with
    | none => none
    | some (results, st) =>
      match gatherMatches nk dk argv fuel rest st.providedEnum with
      | none => none
      | some (ms, pe') =>
        some (results.map (fun r => ⟨r, bc.cmdIdx, bc.cmdName⟩) ++ ms, pe')

/-- `CLI.parseInput` from the tokenized argument vector on: gather matches
for every command, fail with `UNKNOWN_COMMAND` when there are none, else
resolve.  `none` means the matcher fuel ran out. -/
def resolveOn (nk dk : String → Bool) (built : List BuiltCommand)
    (argv : List String) (fuel : Nat) : Option (Except CmdError Resolved) :=
  match gatherMatches nk dk argv fuel built [] with
  | none => none
  | some (ms, pe) =>
    if ms.isEmpty then some (.error .unknownCommand)
    else some (resolveCommand pe ms)

def parseInput (nk dk : String → Bool) (cmds : List CommandDef)
    (argv : List String) (fuel : Nat) : Option (Except CmdError Resolved) :=
  resolveOn nk dk (builtCommands cmds) argv fuel

/-! ### Concrete grammars used by the claims -/

/-- C4's variable: `variable("v", {enum: ["push", "pull", "pause"]})`. -/
def exVarEnum : VarSeg := ⟨1, "v", none, some ["push", "pull", "pause"], none, false⟩

/-- A rest variable with a provider (and no static enum), as in
`variable("x", {type: "string", isRest: true, provider})`. -/
def exProvVar : VarSeg := ⟨1, "x", some .str, none, some ["pa", "pb"], true⟩

def exProvCmd : CommandDef := ⟨0, "cmd", [.var exProvVar]⟩

/-- C6's untyped rest variable `variable("x", {isRest: true})`. -/
def exRestU : VarSeg := ⟨1, "x", none, none, none, true⟩

/-- The same rest variable with the explicit type `"any"`. -/
def exRestA : VarSeg := ⟨1, "x", some .any, none, none, true⟩

def exCmdRestU : CommandDef := ⟨0, "cmd", [.var exRestU]⟩

def exCmdRestA : CommandDef := ⟨0, "cmd", [.var exRestA]⟩

/-- C3's number-typed variable `variable("v", {type: "number"})`. -/
def exVarNum : VarSeg := ⟨1, "v", some .number, none, none, false⟩

/-- C3's string-typed variable `variable("v", {type: "string"})`. -/
def exVarStr : VarSeg := ⟨2, "v", some .str, none, none, false⟩

def exCmdSetNum : CommandDef := ⟨10, "set", [.var exVarNum]⟩

def exCmdSetStr : CommandDef := ⟨11, "set", [.var exVarStr]⟩

/-- A grammar with no trailing optional segments: just `"a"` (`k = 0`). -/
def exCmdOpt0 : CommandDef := ⟨10, "a", []⟩

/-- A grammar with one trailing optional segment: `"a" ["b"]` (`k = 1`). -/
def exCmdOpt1 : CommandDef := ⟨10, "a", [.optionalSeg [.keyword 11 "b"]]⟩

/-- A grammar with two trailing sibling optional segments:
`"a" ["b"] ["c"]`. -/
def exCmdOpt2 : CommandDef :=
  ⟨10, "a", [.optionalSeg [.keyword 11 "b"], .optionalSeg [.keyword 12 "c"]]⟩

/-- A grammar with three trailing sibling optional segments. -/
def exCmdOpt3 : CommandDef :=
  ⟨10, "a", [.optionalSeg [.keyword 11 "b"], .optionalSeg [.keyword 12 "c"],
             .optionalSeg [.keyword 13 "d"]]⟩

/-- C10's string-typed rest variable. -/
def exRestS : VarSeg := ⟨1, "x", some .str, none, none, true⟩

def exCmdRest : CommandDef := ⟨0, "cmd", [.var exRestS]⟩


/-- The `MatchResult` the number-typed `set` command produces for
`["set", "5"]` (both tokens fully consumed). -/
def c3ResNum : MatchRes :=
  ⟨[⟨2, .keyword 10 "set", "set", .str "set", []⟩,
    ⟨3, .var exVarNum, "5", .num "5", []⟩], false, true⟩

/-- The `MatchResult` the string-typed `set` command produces for
`["set", "5"]`. -/
def c3ResStr : MatchRes :=
  ⟨[⟨2, .keyword 11 "set", "set", .str "set", []⟩,
    ⟨3, .var exVarStr, "5", .str "5", []⟩], false, true⟩

def c3CmdResults : List CmdMatch := [⟨c3ResNum, 0, "set"⟩, ⟨c3ResStr, 1, "set"⟩]

/-- A second string-typed variable instance, for a genuinely tied pair of
commands. -/
def exVarStrB : VarSeg := ⟨3, "v", some .str, none, none, false⟩

def c3TieResA : MatchRes :=
  ⟨[⟨2, .keyword 20 "set", "set", .str "set", []⟩,
    ⟨3, .var exVarStr, "5", .str "5", []⟩], false, true⟩

def c3TieResB : MatchRes :=
  ⟨[⟨2, .keyword 21 "set", "set", .str "set", []⟩,
    ⟨3, .var exVarStrB, "5", .str "5", []⟩], false, true⟩

def c3TieResults : List CmdMatch := [⟨c3TieResA, 0, "setA"⟩, ⟨c3TieResB, 1, "setB"⟩]

/-- The `MatchResult` the string-typed `set` command produces for
`["set", "5"]` when it is registered first (command index 0). -/
def c9ResStr : MatchRes :=
  ⟨[⟨2, .keyword 11 "set", "set", .str "set", []⟩,
    ⟨3, .var exVarStr, "5", .str "5", []⟩], false, true⟩

def c9ResNum : MatchRes :=
  ⟨[⟨2, .keyword 10 "set", "set", .str "set", []⟩,
    ⟨3, .var exVarNum, "5", .num "5", []⟩], false, true⟩

def c9Results : List CmdMatch := [⟨c9ResStr, 0, "set"⟩, ⟨c9ResNum, 1, "set"⟩]

/-- The resolver output when the string command is registered first but the
number command wins the scoring: command and variables from the winner, the
`segments` field from the first invokable match. -/
def c9Out : Resolved :=
  ⟨1, "set", [("v", .single (.num "5"))], c9ResStr.nodes⟩

/-- The number of distinct edge paths from node `u` to node `target` of
graph `g`, exploring at most `fuel` edges deep (ample for the small concrete
graphs it is applied to). -/
def countPaths (g : List Node) (target : Nat) : Nat → Nat → Nat
  | 0, _ => 0
  | fuel + 1, u =>
    (if u = target then 1 else 0) +
      ((getNode g u).edges.map (fun e => countPaths g target fuel e)).sum

/-- Whether some match returned by a concrete run is invokable. -/
def anyInvokable (g : List Node) (bof : Nat) (argv : List String) (fuel : Nat) : Bool :=
  match processInput jsNumOk noDate g bof argv [] fuel with
  | some (ms, _) => ms.any (fun m => m.isInvokable)
  | none => false


/-! ### Solid-only grammars: the linear chain characterization -/

/-- Whether a segment is solid (keyword or variable). -/
def isSolid : Segment → Bool
  | .keyword _ _ => true
  | .var _ => true
  | _ => false

def isRestSeg : Segment → Bool
  | .var v => v.isRest
  | _ => false

/-- The node segment a solid segment compiles to (junk on non-solid input,
only applied under an `isSolid` hypothesis). -/
def solidNodeSeg : Segment → NodeSeg
  | .keyword kid name => .keyword kid name
  | .var v => .var v
  | _ => .control 1 true

def solidNode (s : Segment) : Node := ⟨solidNodeSeg s, []⟩

/-- The node-cache key of a solid segment: its JS object identity. -/
def solidKey : Segment → Bool × Nat
  | .keyword kid _ => (false, kid)
  | .var v => (true, v.vid)
  | _ => (false, 0)

def inCache (g : GenSt) (s : Segment) : Bool :=
  match s with
  | .keyword kid _ => (lookupNat g.cacheKw kid).isSome
  | .var v => (lookupNat g.cacheVar v.vid).isSome
  | _ => false

def pushE (nd : Node) (e : Nat) : Node := { nd with edges := nd.edges ++ [e] }

def junkSeg : Segment := .optionalSeg []

/-- One solid iteration of the `generateGraph` loop with an empty pending
chain and a cache miss: append the node, link the current node to it,
self-loop if a rest variable, extend the cache. -/
def stepGen (g : GenSt) (cur : Nat) (s : Segment) : GenSt :=
  match s with
  | .keyword kid _ =>
    ⟨(g.arena ++ [solidNode s]).set cur
        (pushE (getNode (g.arena ++ [solidNode s]) cur) g.arena.length),
      g.nextId, (kid, g.arena.length) :: g.cacheKw, g.cacheVar⟩
  | .var v =>
    let a1 := (g.arena ++ [solidNode s]).set cur
        (pushE (getNode (g.arena ++ [solidNode s]) cur) g.arena.length)
    ⟨if v.isRest then
        a1.set g.arena.length (pushE (getNode a1 g.arena.length) g.arena.length)
      else a1,
      g.nextId, g.cacheKw, (v.vid, g.arena.length) :: g.cacheVar⟩
  | _ => g

def chainGen (g : GenSt) (cur : Nat) : List Segment → GenSt × Nat
  | [] => (g, cur)
  | s :: rest => chainGen (stepGen g cur s) g.arena.length rest

/-- The generator state right after `createMarkerSet` on a fresh generator. -/
def solidBase : GenSt := ⟨[⟨.control 0 true, []⟩, ⟨.control 0 false, []⟩], 1, [], []⟩

def solidGen (segs : List Segment) : GenSt × Nat := chainGen solidBase 0 segs

/-- The arena `generateGraph` produces for a solid-only scheme. -/
def solidGraph (segs : List Segment) : List Node :=
  ((solidGen segs).1.addEdge (solidGen segs).2 1).arena

/-- The full-match test of the matcher for a solid node segment. -/
def solidFull (nk dk : String → Bool) (arg : String) (s : NodeSeg) : Bool :=
  match s with
  | .control _ _ => false
  | .keyword _ name => kwIsFull name arg
  | .var v => varIsFull nk dk v arg

/-- The invariant of every match object in the `MatchResult` arena: an
invokable object witnesses `Q`. -/
def ArenaInv (Q : Prop) (a : List MatchRes) : Prop :=
  ∀ mid, (getMatch a mid).isInvokable = true → Q

/-- The per-frame traversal invariant on a solid chain graph when rest
variables may revisit their node: position `i` has consumed at least `i`
tokens. -/
def FrameInvR (k len : Nat) (fr : Frame) : Prop :=
  fr.index ≤ len ∧
  (fr.node = 0 ∧ fr.index = 0 ∨
   (∃ i, i < k ∧ fr.node = 2 + i ∧ i ≤ fr.index) ∨
   (fr.node = 1 ∧ k ≤ fr.index))

def StInvR (k len : Nat) (st : MState) : Prop :=
  (∀ fr ∈ st.stack, FrameInvR k len fr) ∧ ArenaInv (k ≤ len) st.marena

/-- The exact per-frame invariant on a rest-free solid chain: position `i`
has consumed exactly `i` tokens, all full matches. -/
def FrameInvE (nk dk : String → Bool) (segs : List Segment) (argv : List String)
    (fr : Frame) : Prop :=
  fr.index ≤ argv.length ∧
  (fr.node = 0 ∧ fr.index = 0 ∨
   (∃ i, i < segs.length ∧ fr.node = 2 + i ∧ fr.index = i ∧
     ∀ j, j < i →
       solidFull nk dk (argv.getD j "") (solidNodeSeg (segs.getD j junkSeg)) = true) ∨
   (fr.node = 1 ∧ fr.index = segs.length ∧
     ∀ j, j < segs.length →
       solidFull nk dk (argv.getD j "") (solidNodeSeg (segs.getD j junkSeg)) = true))

/-- What an invokable result on a rest-free solid chain certifies: exactly
one token per segment, each a full match. -/
def QE (nk dk : String → Bool) (segs : List Segment) (argv : List String) : Prop :=
  argv.length = segs.length ∧
  ∀ j, j < segs.length →
    solidFull nk dk (argv.getD j "") (solidNodeSeg (segs.getD j junkSeg)) = true

/-- C5's witness grammar: `keyword("ban") variable("ip", {type: "string"})`. -/
def c5VarIp : VarSeg := ⟨1, "ip", some .str, none, none, false⟩

def c5segs : List Segment := [.keyword 0 "ban", .var c5VarIp]

def c5KwNode : MatchedNode := ⟨2, .keyword 0 "ban", "ban", .str "ban", []⟩

def c5Match : MatchRes :=
  ⟨[c5KwNode, ⟨3, .var c5VarIp, "1.2.3.4", .str "1.2.3.4", []⟩], false, true⟩

def c5State : MState :=
  ⟨[], [emptyMatch, ⟨[c5KwNode], false, false⟩, c5Match], [2], 0, []⟩

/-- C10's grammar: `keyword("cmd") variable("x", {type: "string",
isRest: true})`. -/
def c10segs : List Segment := [.keyword 0 "cmd", .var exRestS]

def c10Match : MatchRes :=
  ⟨[⟨2, .keyword 0 "cmd", "cmd", .str "cmd", []⟩], true, false⟩

def c10State : MState := ⟨[], [emptyMatch, c10Match], [1], 0, []⟩


/-! ### Termination certificates: edge ranks and the stack potential -/

def isCtrl : NodeSeg → Bool
  | .control _ _ => true
  | _ => false

def upd (r : Nat → Nat) (i x : Nat) : Nat → Nat := fun j => if j = i then x else r j

def EdgeOK (r : Nat → Nat) (a : List Node) : Prop :=
  ∀ u v, v ∈ (getNode a u).edges → isCtrl (getNode a u).seg = true → r v < r u

def Closed (a : List Node) : Prop :=
  ∀ u v, v ∈ (getNode a u).edges → v < a.length

def SolidRank0 (a : List Node) (r : Nat → Nat) : Prop :=
  ∀ i, isCtrl (getNode a i).seg = false → r i = 0

def CacheOK (g : GenSt) : Prop :=
  (∀ p ∈ g.cacheKw, p.2 < g.arena.length ∧ isCtrl (getNode g.arena p.2).seg = false) ∧
  (∀ p ∈ g.cacheVar, p.2 < g.arena.length ∧ isCtrl (getNode g.arena p.2).seg = false)

def Good (g : GenSt) (r : Nat → Nat) : Prop :=
  EdgeOK r g.arena ∧ Closed g.arena ∧ SolidRank0 g.arena r ∧ CacheOK g

def RLE (RT : Nat) (r : Nat → Nat) : Prop := ∀ i, r i ≤ RT

def PGG (n : Nat) : Prop :=
  ∀ (g : GenSt) (segs : List Segment) (lo hi RT : Nat) (r : Nat → Nat),
    sizeOf segs ≤ n →
    Good g r → RLE RT r →
    lo + 3 * sizeOf segs ≤ hi → hi ≤ RT →
    ∃ r',
      Good (generateGraph g segs).1 r' ∧
      RLE RT r' ∧
      (∀ i, i < g.arena.length → r' i = r i) ∧
      g.arena.length + 2 ≤ (generateGraph g segs).1.arena.length ∧
      (∀ w, w < g.arena.length →
        (getNode (generateGraph g segs).1.arena w).seg = (getNode g.arena w).seg) ∧
      (generateGraph g segs).2.1 = g.arena.length ∧
      (generateGraph g segs).2.2 = g.arena.length + 1 ∧
      r' (generateGraph g segs).2.1 = hi ∧
      r' (generateGraph g segs).2.2 = lo

def PGL (n : Nat) : Prop :=
  ∀ (g : GenSt) (current : Nat) (chain : List (Nat × Nat)) (segs : List Segment)
    (lo bound RT : Nat) (r : Nat → Nat),
    sizeOf segs ≤ n →
    Good g r → RLE RT r →
    lo + 3 * sizeOf segs ≤ bound → bound ≤ RT → lo < bound →
    current < g.arena.length →
    (isCtrl (getNode g.arena current).seg = true → bound ≤ r current) →
    (∀ p ∈ chain, p.1 < g.arena.length ∧ p.2 < g.arena.length ∧ bound ≤ r p.2) →
    List.Pairwise (fun p q => r q.1 < r p.2) chain →
    ∃ r' bound',
      Good (genLoop g current chain segs).1 r' ∧
      RLE RT r' ∧
      (∀ i, i < g.arena.length → r' i = r i) ∧
      g.arena.length ≤ (genLoop g current chain segs).1.arena.length ∧
      (∀ w, w < g.arena.length →
        (getNode (genLoop g current chain segs).1.arena w).seg =
          (getNode g.arena w).seg) ∧
      lo < bound' ∧
      bound' ≤ bound ∧
      (genLoop g current chain segs).2.1 <
        (genLoop g current chain segs).1.arena.length ∧
      (isCtrl (getNode (genLoop g current chain segs).1.arena
          (genLoop g current chain segs).2.1).seg = true →
        bound' ≤ r' (genLoop g current chain segs).2.1) ∧
      (∀ p ∈ (genLoop g current chain segs).2.2,
        p.1 < (genLoop g current chain segs).1.arena.length ∧
        p.2 < (genLoop g current chain segs).1.arena.length ∧
        bound' ≤ r' p.2) ∧
      List.Pairwise (fun p q => r' q.1 < r' p.2) (genLoop g current chain segs).2.2

def PGU (n : Nat) : Prop :=
  ∀ (g : GenSt) (ub ue : Nat) (subs : List (List Segment)) (lob hib RT : Nat)
    (r : Nat → Nat),
    sizeOf subs ≤ n →
    Good g r → RLE RT r →
    lob + 3 * sizeOf subs ≤ hib → hib ≤ RT →
    hib < r ub → r ue < lob →
    ub < g.arena.length → ue < g.arena.length →
    ∃ r',
      Good (genUnion g ub ue subs) r' ∧
      RLE RT r' ∧
      (∀ i, i < g.arena.length → r' i = r i) ∧
      g.arena.length ≤ (genUnion g ub ue subs).arena.length ∧
      (∀ w, w < g.arena.length →
        (getNode (genUnion g ub ue subs).arena w).seg = (getNode g.arena w).seg)

def measF (L R : Nat) (r : Nat → Nat) (fr : Frame) : Nat :=
  (L - fr.index) * (R + 1) + r fr.node

def pot (B L R : Nat) (r : Nat → Nat) (s : List Frame) : Nat :=
  (s.map (fun fr => (B + 1) ^ measF L R r fr)).sum

def maxDeg (a : List Node) : Nat := a.foldr (fun n m => max n.edges.length m) 0

/-- The final machine state of the garbage-input run used for C8. -/
def c8State : MState := ⟨[], [emptyMatch], [], 0, []⟩

/-! ### Evaluated compilations of the concrete grammars -/

lemma graph_exVarEnum :
    generateGraph gen0 [.var exVarEnum] =
      (⟨[⟨.control 0 true, [2]⟩, ⟨.control 0 false, []⟩, ⟨.var exVarEnum, [1]⟩],
        1, [], [(1, 2)]⟩, 0, 1) := by
  simp [generateGraph, genLoop, genUnion, GenSt.createMarkerSet, GenSt.pushNode,
    GenSt.createNode, GenSt.addEdge, getNode, lookupNat, resolveChain, gen0, junkNode,
    exVarEnum]

lemma built_exProvCmd :
    buildCommand exProvCmd =
      (⟨[⟨.control 0 true, [2]⟩, ⟨.control 0 false, []⟩, ⟨.keyword 0 "cmd", [3]⟩,
         ⟨.var exProvVar, [3, 1]⟩], 1, [(0, 2)], [(1, 3)]⟩, 0, 1) := by
  simp [buildCommand, generateGraph, genLoop, genUnion, GenSt.createMarkerSet,
    GenSt.pushNode, GenSt.createNode, GenSt.addEdge, getNode, lookupNat, resolveChain,
    gen0, junkNode, exProvCmd, exProvVar]

lemma graph_exCmdRestU :
    buildCommand exCmdRestU =
      (⟨[⟨.control 0 true, [2]⟩, ⟨.control 0 false, []⟩, ⟨.keyword 0 "cmd", [3]⟩,
         ⟨.var exRestU, [3, 1]⟩], 1, [(0, 2)], [(1, 3)]⟩, 0, 1) := by
  simp [buildCommand, generateGraph, genLoop, genUnion, GenSt.createMarkerSet,
    GenSt.pushNode, GenSt.createNode, GenSt.addEdge, getNode, lookupNat, resolveChain,
    gen0, junkNode, exCmdRestU, exRestU]

lemma built_exCmdRestU :
    builtCommands [exCmdRestU] =
      [⟨0, "cmd", [⟨.control 0 true, [2]⟩, ⟨.control 0 false, []⟩, ⟨.keyword 0 "cmd", [3]⟩,
        ⟨.var exRestU, [3, 1]⟩], 0⟩] := by
  simp [builtCommands, builtCommandsAux, buildCommand, generateGraph, genLoop, genUnion,
    GenSt.createMarkerSet, GenSt.pushNode, GenSt.createNode, GenSt.addEdge, getNode,
    lookupNat, resolveChain, gen0, junkNode, exCmdRestU, exRestU]

lemma built_exCmdRestA :
    builtCommands [exCmdRestA] =
      [⟨0, "cmd", [⟨.control 0 true, [2]⟩, ⟨.control 0 false, []⟩, ⟨.keyword 0 "cmd", [3]⟩,
        ⟨.var exRestA, [3, 1]⟩], 0⟩] := by
  simp [builtCommands, builtCommandsAux, buildCommand, generateGraph, genLoop, genUnion,
    GenSt.createMarkerSet, GenSt.pushNode, GenSt.createNode, GenSt.addEdge, getNode,
    lookupNat, resolveChain, gen0, junkNode, exCmdRestA, exRestA]

lemma built_exCmdOpt0 :
    buildCommand exCmdOpt0 =
      (⟨[⟨.control 0 true, [2]⟩, ⟨.control 0 false, []⟩, ⟨.keyword 10 "a", [1]⟩],
        1, [(10, 2)], []⟩, 0, 1) := by
  simp [buildCommand, generateGraph, genLoop, genUnion, GenSt.createMarkerSet,
    GenSt.pushNode, GenSt.createNode, GenSt.addEdge, getNode, lookupNat, resolveChain,
    gen0, junkNode, exCmdOpt0]

lemma built_exCmdOpt1 :
    buildCommand exCmdOpt1 =
      (⟨[⟨.control 0 true, [2]⟩, ⟨.control 0 false, []⟩, ⟨.keyword 10 "a", [3, 1]⟩,
         ⟨.control 1 true, [5]⟩, ⟨.control 1 false, [1]⟩, ⟨.keyword 11 "b", [4]⟩],
        2, [(11, 5), (10, 2)], []⟩, 0, 1) := by
  simp [buildCommand, generateGraph, genLoop, genUnion, GenSt.createMarkerSet,
    GenSt.pushNode, GenSt.createNode, GenSt.addEdge, getNode, lookupNat, resolveChain,
    gen0, junkNode, exCmdOpt1]

lemma built_exCmdOpt2 :
    buildCommand exCmdOpt2 =
      (⟨[⟨.control 0 true, [2]⟩, ⟨.control 0 false, []⟩, ⟨.keyword 10 "a", [3, 6, 1]⟩,
         ⟨.control 1 true, [5]⟩, ⟨.control 1 false, [6, 1]⟩, ⟨.keyword 11 "b", [4]⟩,
         ⟨.control 2 true, [8]⟩, ⟨.control 2 false, [1]⟩, ⟨.keyword 12 "c", [7]⟩],
        3, [(12, 8), (11, 5), (10, 2)], []⟩, 0, 1) := by
  simp [buildCommand, generateGraph, genLoop, genUnion, GenSt.createMarkerSet,
    GenSt.pushNode, GenSt.createNode, GenSt.addEdge, getNode, lookupNat, resolveChain,
    gen0, junkNode, exCmdOpt2]

lemma built_exCmdOpt3 :
    buildCommand exCmdOpt3 =
      (⟨[⟨.control 0 true, [2]⟩, ⟨.control 0 false, []⟩, ⟨.keyword 10 "a", [3, 6, 9, 1]⟩,
         ⟨.control 1 true, [5]⟩, ⟨.control 1 false, [6, 9, 1]⟩, ⟨.keyword 11 "b", [4]⟩,
         ⟨.control 2 true, [8]⟩, ⟨.control 2 false, [9, 1]⟩, ⟨.keyword 12 "c", [7]⟩,
         ⟨.control 3 true, [11]⟩, ⟨.control 3 false, [1]⟩, ⟨.keyword 13 "d", [10]⟩],
        4, [(13, 11), (12, 8), (11, 5), (10, 2)], []⟩, 0, 1) := by
  simp [buildCommand, generateGraph, genLoop, genUnion, GenSt.createMarkerSet,
    GenSt.pushNode, GenSt.createNode, GenSt.addEdge, getNode, lookupNat, resolveChain,
    gen0, junkNode, exCmdOpt3]

/-! ### C4 -/

/-- C4: counterexample.  The claim reads the emitted narrowing result as
classified partial; but `processInput` emits it with `isPartial = false` —
the `isPartial` field is only ever set on the branch that runs out of input
at a non-control node, not on the enum-narrowing emission path. -/
theorem C4_counterexample :
    (processInput jsNumOk noDate (generateGraph gen0 [.var exVarEnum]).1.arena
        (generateGraph gen0 [.var exVarEnum]).2.1 ["pu"] [] 100).map
      (fun p => p.1.map (fun m => m.isPartial)) = some [false] := by
  rw [graph_exVarEnum]
  decide

/-- C4 (amended): for the enum `["push", "pull", "pause"]`, token `"pu"`
yields exactly one result, emitted without consuming the token (a single
matched node with raw `"pu"`), with `enums = ["push", "pull"]`, not
invokable — though its `isPartial` field remains `false`; token `"push"`
yields exactly one full (invokable) match whose recorded value is the
string `"push"`. -/
theorem C4_enum_narrowing :
    (processInput jsNumOk noDate (generateGraph gen0 [.var exVarEnum]).1.arena
        (generateGraph gen0 [.var exVarEnum]).2.1 ["pu"] [] 100).map Prod.fst =
      some [⟨[⟨2, .var exVarEnum, "pu", .str "pu", ["push", "pull"]⟩], false, false⟩] ∧
    (processInput jsNumOk noDate (generateGraph gen0 [.var exVarEnum]).1.arena
        (generateGraph gen0 [.var exVarEnum]).2.1 ["push"] [] 100).map Prod.fst =
      some [⟨[⟨2, .var exVarEnum, "push", .str "push", ["push"]⟩], false, true⟩] := by
  rw [graph_exVarEnum]
  exact ⟨by decide, by decide⟩

/-! ### C2 -/

/-- C2: counterexample.  In a single `processInput` pass over the grammar
`keyword("cmd") variable("x", {type: "string", isRest: true, provider})`
with input `["cmd", "a", "b"]`, the rest variable's node is visited twice
with a token available and the provider is invoked twice — not at most
once — because `segment.enum || segment.provider && (segment._provided_enum
= segment.provider())` re-invokes the provider on every visit; `2 ≤ 1`
is false. -/
theorem C2_counterexample :
    (processInput jsNumOk noDate (buildCommand exProvCmd).1.arena
        (buildCommand exProvCmd).2.1 ["cmd", "a", "b"] [] 100).map
      (fun p => p.2.providerCalls) = some 2 ∧ ¬ ((2 : Nat) ≤ 1) := by
  rw [built_exProvCmd]
  exact ⟨by decide, by decide⟩

/-- C2 (amended): during a single matching pass, a provider-backed variable
segment with no static enum has its provider invoked on every visit of its
node that still has a token to consume (twice in this pass), each
invocation's result being written to the segment's `_provided_enum` field
(which the matcher itself never reads back — it is read later by the
resolver's scorer); the pass still produces the expected invokable match. -/
theorem C2_provider_per_visit :
    (processInput jsNumOk noDate (buildCommand exProvCmd).1.arena
        (buildCommand exProvCmd).2.1 ["cmd", "a", "b"] [] 100).map
      (fun p => (p.2.providerCalls, p.2.providedEnum)) =
        some (2, [(1, ["pa", "pb"])]) ∧
    (processInput jsNumOk noDate (buildCommand exProvCmd).1.arena
        (buildCommand exProvCmd).2.1 ["cmd", "a", "b"] [] 100).map
      (fun p => p.1.map (fun m => (m.isInvokable, m.nodes.map MatchedNode.raw))) =
        some [(true, ["cmd", "a", "b"])] := by
  rw [built_exProvCmd]
  exact ⟨by decide, by decide⟩

/-! ### C6 -/

/-- C6: counterexample.  For `keyword("cmd") variable("x", {isRest: true})`
(no explicit type) and input `["cmd", "a", "b", "c"]`, matching produces no
result at all — `isTypeMatch` is `segment.type && compareType(...)`, which
is falsy for an untyped variable, and with no enum and no flag nothing sets
`isFull` — so the pipeline fails with `UNKNOWN_COMMAND` instead of
resolving `{x: ["a", "b", "c"]}`. -/
theorem C6_counterexample :
    (processInput jsNumOk noDate (buildCommand exCmdRestU).1.arena
        (buildCommand exCmdRestU).2.1 ["cmd", "a", "b", "c"] [] 100).map Prod.fst =
      some [] ∧
    parseInput jsNumOk noDate [exCmdRestU] ["cmd", "a", "b", "c"] 100 =
      some (.error .unknownCommand) := by
  constructor
  · rw [graph_exCmdRestU]; decide
  · rw [parseInput, built_exCmdRestU]; decide

/-- C6 (amended): with an explicitly typed rest variable
(`variable("x", {type: "any", isRest: true})` — an untyped one can never
full-match, since the matcher guards its type check with `segment.type &&`),
the input `["cmd", "a", "b", "c"]` resolves via the rest self-loop to the
command with `variables = {x: ["a", "b", "c"]}`, one array entry per
consumed token in input order. -/
theorem C6_rest_binding :
    parseInput jsNumOk noDate [exCmdRestA] ["cmd", "a", "b", "c"] 100 =
      some (.ok ⟨0, "cmd",
        [("x", .arr [.str "a", .str "b", .str "c"])],
        [⟨2, .keyword 0 "cmd", "cmd", .str "cmd", []⟩,
         ⟨3, .var exRestA, "a", .str "a", []⟩,
         ⟨3, .var exRestA, "b", .str "b", []⟩,
         ⟨3, .var exRestA, "c", .str "c", []⟩]⟩) := by
  rw [parseInput, built_exCmdRestA]
  decide

/-! ### C1 -/

/-- C1: counterexample.  For the grammar `"a" ["b"] ["c"]` — ending in
`k = 2` trailing optional segments — the compiled graph has `4 = 2^k`
distinct paths from its BOF (node 0) to its final EOF (node 1), not
`k + 1 = 3`: the optional chain links every exit to every later entry, so
every subset of the trailing optionals gives a path, and indeed all four
token vectors (one per subset, in order) are invokable. -/
theorem C1_counterexample :
    countPaths (buildCommand exCmdOpt2).1.arena 1 30 (buildCommand exCmdOpt2).2.1 = 4 ∧
    ¬ countPaths (buildCommand exCmdOpt2).1.arena 1 30 (buildCommand exCmdOpt2).2.1
        = 2 + 1 ∧
    getNode (buildCommand exCmdOpt2).1.arena 1 = ⟨.control 0 false, []⟩ ∧
    anyInvokable (buildCommand exCmdOpt2).1.arena (buildCommand exCmdOpt2).2.1
        ["a"] 100 = true ∧
    anyInvokable (buildCommand exCmdOpt2).1.arena (buildCommand exCmdOpt2).2.1
        ["a", "b"] 100 = true ∧
    anyInvokable (buildCommand exCmdOpt2).1.arena (buildCommand exCmdOpt2).2.1
        ["a", "c"] 100 = true ∧
    anyInvokable (buildCommand exCmdOpt2).1.arena (buildCommand exCmdOpt2).2.1
        ["a", "b", "c"] 100 = true := by
  rw [built_exCmdOpt2]
  refine ⟨by decide, by decide, by decide, by decide, by decide, by decide, by decide⟩

/-- C1 (amended): for the grammars `"a"` followed by `k` trailing optional
keyword groups, `k = 0, 1, 2, 3` (`"a"`, `"a" ["b"]`, `"a" ["b"] ["c"]`,
`"a" ["b"] ["c"] ["d"]`), the compiled graph has exactly `2 ^ k` distinct
BOF-to-EOF paths — 1, 2, 4 and 8, matching the number of subsets of the
trailing optionals — which agrees with the spec's `k + 1` at `k = 0` and
`k = 1` and refutes it at `k = 2` (4, not 3) and `k = 3` (8, not 4).  For
each of these `k`, every one of the `2 ^ k` subset token vectors, taken in
grammar order, is invokable by the matcher; the out-of-order vector
`["a", "c", "b"]` is not.  In the `k = 2` and `k = 3` graphs each
optional's exit marker is wired to every later optional's entry marker and
to the scope EOF, and the keyword node to every entry and the EOF. -/
theorem C1_subset_paths :
    (countPaths (buildCommand exCmdOpt0).1.arena 1 30 (buildCommand exCmdOpt0).2.1
        = 2 ^ 0 ∧
      countPaths (buildCommand exCmdOpt0).1.arena 1 30 (buildCommand exCmdOpt0).2.1
        = 0 + 1 ∧
      anyInvokable (buildCommand exCmdOpt0).1.arena (buildCommand exCmdOpt0).2.1
        ["a"] 100 = true) ∧
    (countPaths (buildCommand exCmdOpt1).1.arena 1 30 (buildCommand exCmdOpt1).2.1
        = 2 ^ 1 ∧
      countPaths (buildCommand exCmdOpt1).1.arena 1 30 (buildCommand exCmdOpt1).2.1
        = 1 + 1 ∧
      ([["a"], ["a", "b"]].all (fun argv =>
        anyInvokable (buildCommand exCmdOpt1).1.arena (buildCommand exCmdOpt1).2.1
          argv 100)) = true) ∧
    (countPaths (buildCommand exCmdOpt2).1.arena 1 30 (buildCommand exCmdOpt2).2.1
        = 2 ^ 2 ∧
      ¬ countPaths (buildCommand exCmdOpt2).1.arena 1 30 (buildCommand exCmdOpt2).2.1
        = 2 + 1 ∧
      ([["a"], ["a", "b"], ["a", "c"], ["a", "b", "c"]].all (fun argv =>
        anyInvokable (buildCommand exCmdOpt2).1.arena (buildCommand exCmdOpt2).2.1
          argv 100)) = true ∧
      anyInvokable (buildCommand exCmdOpt2).1.arena (buildCommand exCmdOpt2).2.1
        ["a", "c", "b"] 100 = false ∧
      getNode (buildCommand exCmdOpt2).1.arena 2 = ⟨.keyword 10 "a", [3, 6, 1]⟩ ∧
      getNode (buildCommand exCmdOpt2).1.arena 4 = ⟨.control 1 false, [6, 1]⟩) ∧
    (countPaths (buildCommand exCmdOpt3).1.arena 1 40 (buildCommand exCmdOpt3).2.1
        = 2 ^ 3 ∧
      ¬ countPaths (buildCommand exCmdOpt3).1.arena 1 40 (buildCommand exCmdOpt3).2.1
        = 3 + 1 ∧
      ([["a"], ["a", "b"], ["a", "c"], ["a", "d"], ["a", "b", "c"], ["a", "b", "d"],
        ["a", "c", "d"], ["a", "b", "c", "d"]].all (fun argv =>
        anyInvokable (buildCommand exCmdOpt3).1.arena (buildCommand exCmdOpt3).2.1
          argv 100)) = true ∧
      getNode (buildCommand exCmdOpt3).1.arena 2 = ⟨.keyword 10 "a", [3, 6, 9, 1]⟩ ∧
      getNode (buildCommand exCmdOpt3).1.arena 4 = ⟨.control 1 false, [6, 9, 1]⟩ ∧
      getNode (buildCommand exCmdOpt3).1.arena 7 = ⟨.control 2 false, [9, 1]⟩) := by
  refine ⟨?_, ?_, ?_, ?_⟩
  · rw [built_exCmdOpt0]
    exact ⟨by decide, by decide, by decide⟩
  · rw [built_exCmdOpt1]
    exact ⟨by decide, by decide, by decide⟩
  · rw [built_exCmdOpt2]
    exact ⟨by decide, by decide, by decide, by decide, by decide, by decide⟩
  · rw [built_exCmdOpt3]
    exact ⟨by decide, by decide, by decide, by decide, by decide, by decide⟩

/-! ### Sorting lemmas for the resolver's candidate ordering -/

lemma insertDesc_perm (x : CmdMatch × Nat) (l : List (CmdMatch × Nat)) :
    (insertDesc x l).Perm (x :: l) := by
  induction l with
  | nil => exact List.Perm.refl _
  | cons y ys ih =>
    unfold insertDesc
    by_cases h : y.2 < x.2
    · rw [if_pos h]
    · rw [if_neg h]
      exact (ih.cons y).trans (List.Perm.swap x y ys)

lemma foldl_insertDesc_perm (l acc : List (CmdMatch × Nat)) :
    (l.foldl (fun a x => insertDesc x a) acc).Perm (acc ++ l) := by
  induction l generalizing acc with
  | nil => simp
  | cons x xs ih =>
    have h1 := ih (insertDesc x acc)
    have h2 : (insertDesc x acc ++ xs).Perm ((x :: acc) ++ xs) :=
      List.Perm.append_right xs (insertDesc_perm x acc)
    have h3 : ((x :: acc) ++ xs).Perm (acc ++ x :: xs) := List.perm_middle.symm
    exact h1.trans (h2.trans h3)

lemma sortDesc_perm (l : List (CmdMatch × Nat)) : (sortDesc l).Perm l := by
  have := foldl_insertDesc_perm l []
  simpa [sortDesc] using this

lemma insertDesc_pairwise (x : CmdMatch × Nat) (l : List (CmdMatch × Nat))
    (h : l.Pairwise (fun a b => b.2 ≤ a.2)) :
    (insertDesc x l).Pairwise (fun a b => b.2 ≤ a.2) := by
  induction l with
  | nil => simp [insertDesc]
  | cons y ys ih =>
    rw [List.pairwise_cons] at h
    obtain ⟨h1, h2⟩ := h
    unfold insertDesc
    by_cases hc : y.2 < x.2
    · rw [if_pos hc]
      refine List.pairwise_cons.mpr ⟨?_, List.pairwise_cons.mpr ⟨h1, h2⟩⟩
      intro b hb
      rcases List.mem_cons.mp hb with rfl | hb
      · exact Nat.le_of_lt hc
      · exact Nat.le_trans (h1 b hb) (Nat.le_of_lt hc)
    · rw [if_neg hc]
      refine List.pairwise_cons.mpr ⟨?_, ih h2⟩
      intro b hb
      have : b ∈ x :: ys := (insertDesc_perm x ys).mem_iff.mp hb
      rcases List.mem_cons.mp this with rfl | hb'
      · exact Nat.le_of_not_lt hc
      · exact h1 b hb'

lemma sortDesc_pairwise (l : List (CmdMatch × Nat)) :
    (sortDesc l).Pairwise (fun a b => b.2 ≤ a.2) := by
  have : ∀ acc, acc.Pairwise (fun a b : CmdMatch × Nat => b.2 ≤ a.2) →
      (l.foldl (fun a x => insertDesc x a) acc).Pairwise (fun a b => b.2 ≤ a.2) := by
    induction l with
    | nil => intro acc h; exact h
    | cons x xs ih => intro acc h; exact ih _ (insertDesc_pairwise x acc h)
  exact this [] List.Pairwise.nil

lemma sortDesc_head_max (cands : List (CmdMatch × Nat)) (top : CmdMatch × Nat)
    (others : List (CmdMatch × Nat)) (ht : sortDesc cands = top :: others) :
    top ∈ cands ∧ ∀ c ∈ cands, c.2 ≤ top.2 := by
  have hperm := sortDesc_perm cands
  rw [ht] at hperm
  constructor
  · exact hperm.mem_iff.mp (List.mem_cons_self _ _)
  · intro c hc
    have : c ∈ top :: others := hperm.mem_iff.mpr hc
    rcases List.mem_cons.mp this with rfl | hc'
    · exact Nat.le_refl _
    · have hp := sortDesc_pairwise cands
      rw [ht] at hp
      exact (List.pairwise_cons.mp hp).1 c hc'

lemma allScores_length (pe : List (Nat × List String)) (n0 : Nat)
    (l : List CmdMatch) (cands : List (CmdMatch × Nat))
    (h : allScores pe n0 l = some cands) : cands.length = l.length := by
  induction l generalizing cands with
  | nil => unfold allScores at h; cases h; rfl
  | cons c rest ih =>
    unfold allScores at h
    rcases hs : scoreOf pe n0 c.res.nodes with _ | s <;> rw [hs] at h
    · exact absurd h (by simp)
    · rcases hr : allScores pe n0 rest with _ | l' <;> rw [hr] at h
      · exact absurd h (by simp)
      · cases h
        simp [ih l' hr]

/-- The pairwise scoring/tie-breaking behaviour of `resolveCommand` with
more than one invokable candidate: a tie at the maximal score `M` yields
`AMBIGUOUS_COMMAND` naming exactly the tied candidates, a unique maximum
selects that candidate (command and variables from it, `segments` from the
first invokable match). -/
lemma C3_general (pe : List (Nat × List String)) (results : List CmdMatch)
    (first second : CmdMatch) (restInv : List CmdMatch)
    (cands : List (CmdMatch × Nat)) (M : Nat)
    (hfilter : results.filter (fun c => c.res.isInvokable) = first :: second :: restInv)
    (hscores : allScores pe first.res.nodes.length (first :: second :: restInv) =
      some cands)
    (hM : ∀ c ∈ cands, c.2 ≤ M) (hMach : ∃ c ∈ cands, c.2 = M) :
    (2 ≤ (cands.filter (fun c => c.2 == M)).length →
      ∃ names, resolveCommand pe results = .error (.ambiguousCommand names) ∧
        names.Perm ((cands.filter (fun c => c.2 == M)).map (fun c => c.1.cmdName))) ∧
    ((cands.filter (fun c => c.2 == M)).length = 1 →
      ∀ c ∈ cands, c.2 = M →
        resolveCommand pe results =
          .ok ⟨c.1.cmdIdx, c.1.cmdName, extractVars c.1.res.nodes,
            first.res.nodes⟩) := by
  have hlen : cands.length = (first :: second :: restInv).length :=
    allScores_length pe _ _ cands hscores
  rcases ht : sortDesc cands with _ | ⟨top, others⟩
  · exfalso
    have := (sortDesc_perm cands).length_eq
    rw [ht] at this
    simp [hlen] at this
  · obtain ⟨htopmem, htopmax⟩ := sortDesc_head_max cands top others ht
    obtain ⟨cM, hcM, hcM2⟩ := hMach
    have htopM : top.2 = M :=
      Nat.le_antisymm (hM top htopmem) (hcM2 ▸ htopmax cM hcM)
    have hfiltperm :
        ((top :: others).filter (fun c => c.2 == top.2)).Perm
          (cands.filter (fun c => c.2 == M)) := by
      rw [htopM, ← ht]
      exact (sortDesc_perm cands).filter _
    have hResolve :
        resolveCommand pe results =
          (if 1 < ((top :: others).filter (fun c => c.2 == top.2)).length then
            .error (.ambiguousCommand
              (((top :: others).filter (fun c => c.2 == top.2)).map
                (fun c => c.1.cmdName)))
          else .ok ⟨top.1.cmdIdx, top.1.cmdName, extractVars top.1.res.nodes,
            first.res.nodes⟩) := by
      unfold resolveCommand
      rw [hfilter]
      dsimp only
      rw [hscores]
      dsimp only
      rw [ht]
      dsimp only
      by_cases hc : 1 < ((top :: others).filter (fun c => c.2 == top.2)).length
      · rw [if_pos hc, if_pos hc]
      · rw [if_neg hc, if_neg hc]
    constructor
    · intro h2
      have hgt : 1 < ((top :: others).filter (fun c => c.2 == top.2)).length := by
        rw [hfiltperm.length_eq]
        omega
      rw [hResolve, if_pos hgt]
      exact ⟨_, rfl, hfiltperm.map _⟩
    · intro h1 c hcmem hc2
      have hlen1 : ((top :: others).filter (fun c => c.2 == top.2)).length = 1 := by
        rw [hfiltperm.length_eq, h1]
      have hnot : ¬ 1 < ((top :: others).filter (fun c => c.2 == top.2)).length := by
        omega
      rw [hResolve, if_neg hnot]
      have htopfilt : top ∈ (top :: others).filter (fun c => c.2 == top.2) := by
        refine List.mem_filter.mpr ⟨List.mem_cons_self _ _, ?_⟩
        simp
      have hfilteq : (top :: others).filter (fun c => c.2 == top.2) = [top] := by
        rcases hfe : (top :: others).filter (fun c => c.2 == top.2) with _ | ⟨a, rest⟩
        · rw [hfe] at htopfilt; cases htopfilt
        · rw [hfe] at hlen1 htopfilt
          simp at hlen1
          rcases List.mem_cons.mp htopfilt with rfl | hmem
          · rw [hfe, hlen1]
          · rw [hlen1] at hmem; cases hmem
      have hcfilt : c ∈ cands.filter (fun c => c.2 == M) :=
        List.mem_filter.mpr ⟨hcmem, by simp [hc2]⟩
      have : c ∈ (top :: others).filter (fun c => c.2 == top.2) :=
        hfiltperm.mem_iff.mpr hcfilt
      rw [hfilteq] at this
      rcases List.mem_cons.mp this with rfl | hfalse
      · rfl
      · cases hfalse

lemma built_exCmdSet :
    builtCommands [exCmdSetNum, exCmdSetStr] =
      [⟨0, "set", [⟨.control 0 true, [2]⟩, ⟨.control 0 false, []⟩,
         ⟨.keyword 10 "set", [3]⟩, ⟨.var exVarNum, [1]⟩], 0⟩,
       ⟨1, "set", [⟨.control 0 true, [2]⟩, ⟨.control 0 false, []⟩,
         ⟨.keyword 11 "set", [3]⟩, ⟨.var exVarStr, [1]⟩], 0⟩] := by
  simp [builtCommands, builtCommandsAux, buildCommand, generateGraph, genLoop, genUnion,
    GenSt.createMarkerSet, GenSt.pushNode, GenSt.createNode, GenSt.addEdge, getNode,
    lookupNat, resolveChain, gen0, junkNode, exCmdSetNum, exCmdSetStr, exVarNum, exVarStr]

lemma built_exCmdSetRev :
    builtCommands [exCmdSetStr, exCmdSetNum] =
      [⟨0, "set", [⟨.control 0 true, [2]⟩, ⟨.control 0 false, []⟩,
         ⟨.keyword 11 "set", [3]⟩, ⟨.var exVarStr, [1]⟩], 0⟩,
       ⟨1, "set", [⟨.control 0 true, [2]⟩, ⟨.control 0 false, []⟩,
         ⟨.keyword 10 "set", [3]⟩, ⟨.var exVarNum, [1]⟩], 0⟩] := by
  simp [builtCommands, builtCommandsAux, buildCommand, generateGraph, genLoop, genUnion,
    GenSt.createMarkerSet, GenSt.pushNode, GenSt.createNode, GenSt.addEdge, getNode,
    lookupNat, resolveChain, gen0, junkNode, exCmdSetStr, exCmdSetNum, exVarStr, exVarNum]

/-! ### C3 -/

/-- C3: with more than one invokable candidate, `resolveCommand` scores each
candidate per node position (keyword 4, variable with enum or provided enum
3, variable with a non-string explicit type 2, other variable 1), selects
the candidate with the unique highest total (its command and variables;
`segments` always from the first invokable match), and throws
`AMBIGUOUS_COMMAND` naming all tied candidates when two or more share the
highest total; concretely, for the commands `set variable("v", {type:
"number"})` and `set variable("v", {type: "string"})` on `["set", "5"]`,
the number-typed command is selected, with per-candidate totals 6 and 5. -/
theorem C3_scoring :
    (∀ (pe : List (Nat × List String)) (results : List CmdMatch)
        (first second : CmdMatch) (restInv : List CmdMatch)
        (cands : List (CmdMatch × Nat)) (M : Nat),
      results.filter (fun c => c.res.isInvokable) = first :: second :: restInv →
      allScores pe first.res.nodes.length (first :: second :: restInv) = some cands →
      (∀ c ∈ cands, c.2 ≤ M) → (∃ c ∈ cands, c.2 = M) →
      (2 ≤ (cands.filter (fun c => c.2 == M)).length →
        ∃ names, resolveCommand pe results = .error (.ambiguousCommand names) ∧
          names.Perm ((cands.filter (fun c => c.2 == M)).map (fun c => c.1.cmdName))) ∧
      ((cands.filter (fun c => c.2 == M)).length = 1 →
        ∀ c ∈ cands, c.2 = M →
          resolveCommand pe results =
            .ok ⟨c.1.cmdIdx, c.1.cmdName, extractVars c.1.res.nodes,
              first.res.nodes⟩)) ∧
    parseInput jsNumOk noDate [exCmdSetNum, exCmdSetStr] ["set", "5"] 100 =
      some (.ok ⟨0, "set", [("v", .single (.num "5"))], c3ResNum.nodes⟩) ∧
    scoreOf [] 2 c3ResNum.nodes = some 6 ∧
    scoreOf [] 2 c3ResStr.nodes = some 5 := by
  refine ⟨C3_general, ?_, by decide, by decide⟩
  rw [parseInput, built_exCmdSet]
  decide

/-- C3: witness.  The selection half applied to the concrete number/string
candidate pair (unique maximum 6, the number command selected), and the tie
half applied to two equally scored string commands (both total 5), which
fail as ambiguous naming both. -/
theorem C3_scoring_witness :
    resolveCommand [] c3CmdResults =
      .ok ⟨0, "set", [("v", .single (.num "5"))], c3ResNum.nodes⟩ ∧
    (∃ names, resolveCommand [] c3TieResults = .error (.ambiguousCommand names) ∧
      names.Perm ["setA", "setB"]) := by
  constructor
  · have h := (C3_scoring.1 [] c3CmdResults ⟨c3ResNum, 0, "set"⟩ ⟨c3ResStr, 1, "set"⟩ []
      [(⟨c3ResNum, 0, "set"⟩, 6), (⟨c3ResStr, 1, "set"⟩, 5)] 6
      (by decide) (by decide) (by decide)
      ⟨(⟨c3ResNum, 0, "set"⟩, 6), by decide, by decide⟩).2
      (by decide) (⟨c3ResNum, 0, "set"⟩, 6) (by decide) (by decide)
    exact h.trans (congrArg Except.ok (by decide))
  · obtain ⟨names, hn, hperm⟩ := (C3_scoring.1 [] c3TieResults ⟨c3TieResA, 0, "setA"⟩
      ⟨c3TieResB, 1, "setB"⟩ []
      [(⟨c3TieResA, 0, "setA"⟩, 5), (⟨c3TieResB, 1, "setB"⟩, 5)] 5
      (by decide) (by decide) (by decide)
      ⟨(⟨c3TieResA, 0, "setA"⟩, 5), by decide, by decide⟩).1 (by decide)
    refine ⟨names, hn, hperm.trans ?_⟩
    have :
        (([(⟨c3TieResA, 0, "setA"⟩, 5), (⟨c3TieResB, 1, "setB"⟩, 5)] :
          List (CmdMatch × Nat)).filter (fun c => c.2 == 5)).map
            (fun c => c.1.cmdName) = ["setA", "setB"] := by decide
    rw [this]

/-! ### C7 -/

/-- C7: `resolveCommand` fails with `INCOMPLETE_COMMAND` exactly when none
of its input results is invokable; with at least one invokable result that
error is never raised (any failure is then `AMBIGUOUS_COMMAND`, or the
TypeError of an out-of-range candidate access, never incomplete). -/
theorem C7_incomplete_iff (pe : List (Nat × List String)) (results : List CmdMatch) :
    resolveCommand pe results = .error .incompleteCommand ↔
      ∀ r ∈ results, r.res.isInvokable = false := by
  unfold resolveCommand
  rcases h : results.filter (fun r => r.res.isInvokable) with _ | ⟨first, restInv⟩
  · rw [h]
    simp only [List.filter_eq_nil_iff] at h
    constructor
    · intro _ r hr
      exact Bool.eq_false_iff.mpr (h r hr)
    · intro _; rfl
  · rw [h]
    have hm : first ∈ results.filter (fun r => r.res.isInvokable) := by
      rw [h]; exact List.mem_cons_self first restInv
    have hfirst : first.res.isInvokable = true := (List.mem_filter.mp hm).2
    have hmem : first ∈ results := (List.mem_filter.mp hm).1
    constructor
    · intro hEq
      exfalso
      rcases restInv with _ | ⟨second, restInv2⟩ <;> dsimp only at hEq
      · exact Except.noConfusion hEq
      · rcases hs : allScores pe first.res.nodes.length (first :: second :: restInv2) with
          _ | cands <;> rw [hs] at hEq <;> dsimp only at hEq
        · exact CmdError.noConfusion (Except.error.inj hEq)
        · rcases ht : sortDesc cands with _ | ⟨top, others⟩ <;> rw [ht] at hEq <;>
            dsimp only at hEq
          · exact CmdError.noConfusion (Except.error.inj hEq)
          · by_cases hf :
              1 < ((top :: others).filter (fun c => c.2 == top.2)).length
            · rw [if_pos hf] at hEq
              exact CmdError.noConfusion (Except.error.inj hEq)
            · rw [if_neg hf] at hEq
              exact Except.noConfusion hEq
    · intro hAll
      exact absurd hfirst (by simp [hAll first hmem])

/-- C7: witness.  No result is invokable (a lone non-invokable result), so
resolution fails with `INCOMPLETE_COMMAND`; and with an invokable result
present, the error is not raised. -/
theorem C7_incomplete_iff_witness :
    resolveCommand [] [⟨⟨[], false, false⟩, 0, "cmd"⟩] =
      .error .incompleteCommand ∧
    ¬ resolveCommand [] c3CmdResults = .error .incompleteCommand := by
  constructor
  · exact (C7_incomplete_iff [] [⟨⟨[], false, false⟩, 0, "cmd"⟩]).mpr (by decide)
  · intro h
    have := (C7_incomplete_iff [] c3CmdResults).mp h
    exact absurd (this ⟨c3ResNum, 0, "set"⟩ (by decide)) (by decide)

/-! ### C9 -/

/-- C9: whenever `resolveCommand` returns successfully, the `segments` field
of its result is the node sequence of the first invokable result in input
order (`invokable[0].nodes`), independent of which candidate the ambiguity
scoring selected — so the returned command/variables may come from a
different match than the returned segments. -/
theorem C9_segments_first_invokable (pe : List (Nat × List String))
    (results : List CmdMatch) (r : Resolved)
    (h : resolveCommand pe results = .ok r) :
    ∃ first restInv, results.filter (fun c => c.res.isInvokable) = first :: restInv ∧
      r.segments = first.res.nodes := by
  unfold resolveCommand at h
  rcases hf : results.filter (fun c => c.res.isInvokable) with _ | ⟨first, restInv⟩
  · rw [hf] at h; exact Except.noConfusion h
  · rw [hf] at h
    refine ⟨first, restInv, hf, ?_⟩
    rcases restInv with _ | ⟨second, restInv2⟩ <;> dsimp only at h
    · cases h; rfl
    · rcases hs : allScores pe first.res.nodes.length (first :: second :: restInv2) with
        _ | cands <;> rw [hs] at h <;> dsimp only at h
      · exact Except.noConfusion h
      · rcases ht : sortDesc cands with _ | ⟨top, others⟩ <;> rw [ht] at h <;>
          dsimp only at h
        · exact Except.noConfusion h
        · by_cases hc : 1 < ((top :: others).filter (fun c => c.2 == top.2)).length
          · rw [if_pos hc] at h; exact Except.noConfusion h
          · rw [if_neg hc] at h; cases h; rfl

/-- C9: witness.  With the string-typed `set` command registered first and
the number-typed one second, `["set", "5"]` resolves to the number command
(index 1), yet the returned `segments` are the string command's matched
nodes — the first invokable result's. -/
theorem C9_witness :
    (∃ first restInv,
        c9Results.filter (fun c => c.res.isInvokable) = first :: restInv ∧
        c9Out.segments = first.res.nodes) ∧
    parseInput jsNumOk noDate [exCmdSetStr, exCmdSetNum] ["set", "5"] 100 =
      some (.ok c9Out) ∧
    resolveCommand [] c9Results = .ok c9Out ∧
    c9Out.cmdIdx = 1 ∧
    (c9Results.filter (fun c => c.res.isInvokable)).headD ⟨emptyMatch, 0, ""⟩ =
      ⟨c9ResStr, 0, "set"⟩ := by
  refine ⟨C9_segments_first_invokable [] c9Results c9Out (by decide), ?_,
    by decide, by decide, by decide⟩
  rw [parseInput, built_exCmdSetRev]
  decide

/-! ### Solid-only chains: generator characterization and matcher invariants -/

lemma addEdge_eq (g : GenSt) (u v : Nat) :
    g.addEdge u v = { g with arena := g.arena.set u (pushE (getNode g.arena u) v) } := rfl

lemma lookupNat_cons (k' v k : Nat) (l : List (Nat × Nat)) :
    lookupNat ((k', v) :: l) k = if k' = k then some v else lookupNat l k := rfl

lemma genLoop_solid (segs : List Segment) :
    ∀ (g : GenSt) (cur : Nat),
    (∀ s ∈ segs, isSolid s = true) →
    (segs.map solidKey).Nodup →
    (∀ s ∈ segs, inCache g s = false) →
    genLoop g cur [] segs = ((chainGen g cur segs).1, (chainGen g cur segs).2, []) := by
  induction segs with
  | nil =>
    intro g cur _ _ _
    rw [genLoop, chainGen]
  | cons s rest ih =>
    intro g cur hsolid hnodup hfresh
    have hs : isSolid s = true := hsolid s (List.mem_cons_self _ _)
    have hfs : inCache g s = false := hfresh s (List.mem_cons_self _ _)
    have hnodup' : (rest.map solidKey).Nodup := (List.nodup_cons.mp hnodup).2
    have hknotin : solidKey s ∉ rest.map solidKey := (List.nodup_cons.mp hnodup).1
    have hsolid' : ∀ s' ∈ rest, isSolid s' = true :=
      fun s' h => hsolid s' (List.mem_cons_of_mem _ h)
    have hfresh' : ∀ s' ∈ rest, inCache (stepGen g cur s) s' = false := by
      intro s' hmem
      have hfr := hfresh s' (List.mem_cons_of_mem _ hmem)
      cases s with
      | keyword kid name =>
        cases s' with
        | keyword kid' name' =>
          have hne : kid ≠ kid' := by
            intro hEq
            exact hknotin (List.mem_map.mpr ⟨.keyword kid' name', hmem, by
              simp [solidKey, hEq]⟩)
          simp only [inCache, stepGen, lookupNat_cons, if_neg hne]
          simpa [inCache] using hfr
        | var v' => simpa [inCache, stepGen] using hfr
        | optionalSeg inner => rfl
        | unionSeg subs => rfl
      | var v =>
        cases s' with
        | var v' =>
          have hne : v.vid ≠ v'.vid := by
            intro hEq
            exact hknotin (List.mem_map.mpr ⟨.var v', hmem, by simp [solidKey, hEq]⟩)
          simp only [inCache, stepGen, lookupNat_cons, if_neg hne]
          simpa [inCache] using hfr
        | keyword kid' name' => simpa [inCache, stepGen] using hfr
        | optionalSeg inner => rfl
        | unionSeg subs => rfl
      | optionalSeg inner => simp [isSolid] at hs
      | unionSeg subs => simp [isSolid] at hs
    have hrec := ih (stepGen g cur s) g.arena.length hsolid' hnodup' hfresh'
    have hstep : genLoop g cur [] (s :: rest) =
        genLoop (stepGen g cur s) g.arena.length [] rest := by
      cases s with
      | keyword kid name =>
        have hlook : lookupNat g.cacheKw kid = none := by
          have : (lookupNat g.cacheKw kid).isSome = false := by simpa [inCache] using hfs
          exact Option.not_isSome_iff_eq_none.mp (by simp [this])
        rw [genLoop]
        simp only [GenSt.createNode, hlook, GenSt.pushNode, addEdge_eq, List.isEmpty_nil,
          if_true, stepGen, solidNode, solidNodeSeg]
      | var v =>
        have hlook : lookupNat g.cacheVar v.vid = none := by
          have : (lookupNat g.cacheVar v.vid).isSome = false := by simpa [inCache] using hfs
          exact Option.not_isSome_iff_eq_none.mp (by simp [this])
        rw [genLoop]
        by_cases hr : v.isRest <;>
          simp [GenSt.createNode, hlook, GenSt.pushNode, addEdge_eq, hr, stepGen,
            solidNode, solidNodeSeg]
      | optionalSeg inner => simp [isSolid] at hs
      | unionSeg subs => simp [isSolid] at hs
    rw [hstep, hrec, chainGen]

lemma getNode_set_ne (l : List Node) (i j : Nat) (v : Node) (h : i ≠ j) :
    getNode (l.set i v) j = getNode l j := by
  simp [getNode, List.getD_eq_getElem?_getD, List.getElem?_set_ne h]

lemma getNode_set_self (l : List Node) (i : Nat) (v : Node) (h : i < l.length) :
    getNode (l.set i v) i = v := by
  simp [getNode, List.getD_eq_getElem?_getD, List.getElem?_set_eq_of_lt v h]

lemma getNode_append_lt (l l' : List Node) (j : Nat) (h : j < l.length) :
    getNode (l ++ l') j = getNode l j := by
  simp [getNode, List.getD_eq_getElem?_getD, List.getElem?_append, h]

lemma getNode_append_self (l : List Node) (x : Node) :
    getNode (l ++ [x]) l.length = x := by
  simp [getNode, List.getD_eq_getElem?_getD, List.getElem?_concat_length]

lemma stepGen_facts (g : GenSt) (cur : Nat) (s : Segment) (hcur : cur < g.arena.length)
    (hs : isSolid s = true) :
    (stepGen g cur s).arena.length = g.arena.length + 1 ∧
    (∀ j, j < g.arena.length → j ≠ cur →
      getNode (stepGen g cur s).arena j = getNode g.arena j) ∧
    getNode (stepGen g cur s).arena cur = pushE (getNode g.arena cur) g.arena.length ∧
    getNode (stepGen g cur s).arena g.arena.length =
      ⟨solidNodeSeg s, if isRestSeg s then [g.arena.length] else []⟩ := by
  have hcurne : cur ≠ g.arena.length := Nat.ne_of_lt hcur
  cases s with
  | optionalSeg inner => simp [isSolid] at hs
  | unionSeg subs => simp [isSolid] at hs
  | keyword kid name =>
    refine ⟨by simp [stepGen], ?_, ?_, ?_⟩
    · intro j hj hjne
      rw [stepGen]
      rw [getNode_set_ne _ _ _ _ (fun h => hjne h.symm),
        getNode_append_lt _ _ _ hj]
    · rw [stepGen]
      rw [getNode_set_self _ _ _ (by simp; omega),
        getNode_append_lt _ _ _ hcur]
    · rw [stepGen]
      rw [getNode_set_ne _ _ _ _ hcurne, getNode_append_self]
      simp [solidNode, isRestSeg]
  | var v =>
    have hA1len : ((g.arena ++ [solidNode (Segment.var v)]).set cur
        (pushE (getNode (g.arena ++ [solidNode (Segment.var v)]) cur)
          g.arena.length)).length = g.arena.length + 1 := by
      simp
    by_cases hr : v.isRest
    · have ha : (stepGen g cur (Segment.var v)).arena =
          ((g.arena ++ [solidNode (Segment.var v)]).set cur
            (pushE (getNode (g.arena ++ [solidNode (Segment.var v)]) cur)
              g.arena.length)).set g.arena.length
            (pushE (getNode ((g.arena ++ [solidNode (Segment.var v)]).set cur
              (pushE (getNode (g.arena ++ [solidNode (Segment.var v)]) cur)
                g.arena.length)) g.arena.length) g.arena.length) := by
        simp [stepGen, hr]
      refine ⟨by rw [ha]; simp, ?_, ?_, ?_⟩
      · intro j hj hjne
        rw [ha, getNode_set_ne _ _ _ _ (fun h => (Nat.ne_of_lt hj) h.symm),
          getNode_set_ne _ _ _ _ (fun h => hjne h.symm),
          getNode_append_lt _ _ _ hj]
      · rw [ha, getNode_set_ne _ _ _ _ hcurne.symm,
          getNode_set_self _ _ _ (by simp; omega),
          getNode_append_lt _ _ _ hcur]
      · rw [ha, getNode_set_self _ _ _ (by rw [hA1len]; omega),
          getNode_set_ne _ _ _ _ hcurne, getNode_append_self]
        simp [solidNode, isRestSeg, pushE, hr]
    · have ha : (stepGen g cur (Segment.var v)).arena =
          (g.arena ++ [solidNode (Segment.var v)]).set cur
            (pushE (getNode (g.arena ++ [solidNode (Segment.var v)]) cur)
              g.arena.length) := by
        simp [stepGen, hr]
      refine ⟨by rw [ha]; simp, ?_, ?_, ?_⟩
      · intro j hj hjne
        rw [ha, getNode_set_ne _ _ _ _ (fun h => hjne h.symm),
          getNode_append_lt _ _ _ hj]
      · rw [ha, getNode_set_self _ _ _ (by simp; omega),
          getNode_append_lt _ _ _ hcur]
      · rw [ha, getNode_set_ne _ _ _ _ hcurne, getNode_append_self]
        simp [solidNode, isRestSeg, hr]

lemma chainGen_facts (segs : List Segment) :
    ∀ (g : GenSt) (cur : Nat), cur < g.arena.length →
    (∀ s ∈ segs, isSolid s = true) →
    (chainGen g cur segs).1.arena.length = g.arena.length + segs.length ∧
    (chainGen g cur segs).2 =
      (if segs.isEmpty then cur else g.arena.length + segs.length - 1) ∧
    (chainGen g cur segs).2 < (chainGen g cur segs).1.arena.length ∧
    (∀ j, j < g.arena.length → j ≠ cur →
      getNode (chainGen g cur segs).1.arena j = getNode g.arena j) ∧
    (segs ≠ [] →
      getNode (chainGen g cur segs).1.arena cur =
        pushE (getNode g.arena cur) g.arena.length) ∧
    (∀ i, i < segs.length →
      getNode (chainGen g cur segs).1.arena (g.arena.length + i) =
        ⟨solidNodeSeg (segs.getD i junkSeg),
          (if isRestSeg (segs.getD i junkSeg) then [g.arena.length + i] else []) ++
          (if i + 1 = segs.length then [] else [g.arena.length + i + 1])⟩) := by
  induction segs with
  | nil =>
    intro g cur hcur _
    refine ⟨by simp [chainGen], by simp [chainGen], by simpa [chainGen] using hcur,
      fun j _ _ => rfl, fun h => absurd rfl h, fun i hi => absurd hi (by simp)⟩
  | cons s rest ih =>
    intro g cur hcur hsolid
    have hs : isSolid s = true := hsolid s (List.mem_cons_self _ _)
    have hsolid' : ∀ s' ∈ rest, isSolid s' = true :=
      fun s' h => hsolid s' (List.mem_cons_of_mem _ h)
    obtain ⟨hlen1, hpres1, hcur1, hnew1⟩ := stepGen_facts g cur s hcur hs
    have hcur' : g.arena.length < (stepGen g cur s).arena.length := by omega
    obtain ⟨ihlen, ihlast, ihlastlt, ihpres, ihcurf, ihnew⟩ :=
      ih (stepGen g cur s) g.arena.length hcur' hsolid'
    have hchain : chainGen g cur (s :: rest) =
        chainGen (stepGen g cur s) g.arena.length rest := by
      rw [chainGen]
    rw [hchain]
    refine ⟨by rw [ihlen, hlen1]; simp; omega, ?_, ?_, ?_, ?_, ?_⟩
    · rw [ihlast, hlen1]
      rcases rest with _ | ⟨r, rs⟩ <;> simp <;> omega
    · exact ihlastlt
    · intro j hj hjne
      rw [ihpres j (by omega) (by omega), hpres1 j hj hjne]
    · intro _
      rw [ihpres cur (by omega) (Nat.ne_of_lt hcur), hcur1]
    · intro i hi
      rcases i with _ | i'
      · rcases rest with _ | ⟨r, rs⟩
        · have : chainGen (stepGen g cur s) g.arena.length [] = (stepGen g cur s, g.arena.length) := by
            rw [chainGen]
          rw [this]
          simpa using hnew1
        · have hne : getNode (chainGen (stepGen g cur s) g.arena.length (r :: rs)).1.arena
              g.arena.length =
              pushE (getNode (stepGen g cur s).arena g.arena.length)
                (stepGen g cur s).arena.length := ihcurf (by simp)
          rw [Nat.add_zero, hne, hnew1, hlen1]
          simp [pushE]
      · have hi' : i' < rest.length := by simpa using hi
        have := ihnew i' hi'
        rw [hlen1] at this
        have harith : g.arena.length + 1 + i' = g.arena.length + (i' + 1) := by omega
        rw [harith] at this
        rw [this]
        have hgd : (s :: rest).getD (i' + 1) junkSeg = rest.getD i' junkSeg := by
          simp [List.getD]
        rw [hgd, List.length_cons]
        by_cases hlast : i' + 1 = rest.length <;> simp [hlast]

lemma generateGraph_solid (segs : List Segment)
    (hsolid : ∀ s ∈ segs, isSolid s = true)
    (hnodup : (segs.map solidKey).Nodup) :
    generateGraph gen0 segs = ((solidGen segs).1.addEdge (solidGen segs).2 1, 0, 1) := by
  have hfresh : ∀ s ∈ segs, inCache solidBase s = false := by
    intro s _; cases s <;> rfl
  rw [generateGraph]
  have hmk : gen0.createMarkerSet = (solidBase, 0, 1) := rfl
  rw [hmk]
  dsimp only
  rw [genLoop_solid segs solidBase 0 hsolid hnodup hfresh]
  simp only [List.isEmpty_nil, if_true]
  rfl

lemma solidGraph_facts (segs : List Segment)
    (hsolid : ∀ s ∈ segs, isSolid s = true) :
    (solidGraph segs).length = 2 + segs.length ∧
    getNode (solidGraph segs) 0 =
      ⟨.control 0 true, if segs.isEmpty then [1] else [2]⟩ ∧
    getNode (solidGraph segs) 1 = ⟨.control 0 false, []⟩ ∧
    (∀ i, i < segs.length →
      getNode (solidGraph segs) (2 + i) =
        ⟨solidNodeSeg (segs.getD i junkSeg),
          (if isRestSeg (segs.getD i junkSeg) then [2 + i] else []) ++
          [if i + 1 = segs.length then 1 else 2 + i + 1]⟩) := by
  obtain ⟨clen, clast, clastlt, cpres, ccur, cnew⟩ :=
    chainGen_facts segs solidBase 0 (by simp [solidBase]) hsolid
  have hbase : solidBase.arena.length = 2 := rfl
  rw [hbase] at clen clast cpres cnew
  have hsg : solidGraph segs =
      (chainGen solidBase 0 segs).1.arena.set (chainGen solidBase 0 segs).2
        (pushE (getNode (chainGen solidBase 0 segs).1.arena
          (chainGen solidBase 0 segs).2) 1) := rfl
  rcases segs with _ | ⟨s0, srest⟩
  · have hc : chainGen solidBase 0 ([] : List Segment) = (solidBase, 0) := by rw [chainGen]
    refine ⟨?_, ?_, ?_, fun i hi => absurd hi (by simp)⟩
    · rw [hsg, hc]; rfl
    · rw [hsg, hc]; rfl
    · rw [hsg, hc]; rfl
  · have hne : s0 :: srest ≠ [] := by simp
    have hlast : (chainGen solidBase 0 (s0 :: srest)).2 = 1 + (s0 :: srest).length := by
      rw [clast]
      simp
      omega
    have hlastlt' : (chainGen solidBase 0 (s0 :: srest)).2 <
        (chainGen solidBase 0 (s0 :: srest)).1.arena.length := clastlt
    refine ⟨?_, ?_, ?_, ?_⟩
    · rw [hsg]
      simp [clen]
    · rw [hsg, getNode_set_ne _ _ _ _
        (by simp at hlast; omega : (chainGen solidBase 0 (s0 :: srest)).2 ≠ 0),
        ccur hne]
      have h0 : getNode solidBase.arena 0 = ⟨.control 0 true, []⟩ := rfl
      rw [h0, hbase]
      simp [pushE]
    · rw [hsg, getNode_set_ne _ _ _ _
        (by simp at hlast; omega : (chainGen solidBase 0 (s0 :: srest)).2 ≠ 1),
        cpres 1 (by omega) (by omega)]
      rfl
    · intro i hi
      by_cases hilast : i + 1 = (s0 :: srest).length
      · have hieq : (chainGen solidBase 0 (s0 :: srest)).2 = 2 + i := by
          simp at hlast hilast
          omega
        rw [hsg, ← hieq, getNode_set_self _ _ _ hlastlt', hieq, cnew i hi]
        simp [pushE, hilast]
      · rw [hsg, getNode_set_ne _ _ _ _
          (by simp at hlast hilast; omega :
            (chainGen solidBase 0 (s0 :: srest)).2 ≠ 2 + i),
          cnew i hi]
        have hne2 : ¬ i = srest.length := by simp at hilast; omega
        simp [hne2]

/-! Matcher-side helper lemmas. -/

lemma getMatch_set_ne (a : List MatchRes) (i j : Nat) (v : MatchRes) (h : i ≠ j) :
    getMatch (a.set i v) j = getMatch a j := by
  simp [getMatch, List.getD_eq_getElem?_getD, List.getElem?_set_ne h]

lemma getMatch_set_self (a : List MatchRes) (i : Nat) (v : MatchRes) (h : i < a.length) :
    getMatch (a.set i v) i = v := by
  simp [getMatch, List.getD_eq_getElem?_getD, List.getElem?_set_eq_of_lt v h]

lemma getMatch_append (a : List MatchRes) (m : MatchRes) (j : Nat) :
    getMatch (a ++ [m]) j =
      if j < a.length then getMatch a j else if j = a.length then m else emptyMatch := by
  by_cases h : j < a.length
  · simp [getMatch, List.getD_eq_getElem?_getD, List.getElem?_append, h]
  · by_cases h2 : j = a.length
    · subst h2
      simp [getMatch, List.getD_eq_getElem?_getD, List.getElem?_concat_length, h]
    · have h3 : a.length + 1 ≤ j := by omega
      simp [getMatch, List.getD_eq_getElem?_getD, h, h2,
        List.getElem?_append_right (by omega : a.length ≤ j)]
      rw [List.getElem?_eq_none (by simp; omega)]
      rfl

lemma ArenaInv.empty (Q : Prop) : ArenaInv Q [emptyMatch] := by
  intro mid h
  rcases mid with _ | mid
  · simp [getMatch, emptyMatch] at h
  · simp [getMatch, emptyMatch, List.getD] at h

lemma ArenaInv.append (Q : Prop) (a : List MatchRes) (m : MatchRes)
    (h : ArenaInv Q a) (hm : m.isInvokable = false) : ArenaInv Q (a ++ [m]) := by
  intro mid hinv
  rw [getMatch_append] at hinv
  by_cases h1 : mid < a.length
  · rw [if_pos h1] at hinv; exact h mid hinv
  · rw [if_neg h1] at hinv
    by_cases h2 : mid = a.length
    · rw [if_pos h2] at hinv; rw [hm] at hinv; cases hinv
    · rw [if_neg h2] at hinv; simp [emptyMatch] at hinv

lemma ArenaInv.setPartialKeep (Q : Prop) (a : List MatchRes) (i : Nat)
    (h : ArenaInv Q a) :
    ArenaInv Q (a.set i { getMatch a i with isPartial := true }) := by
  intro mid hinv
  by_cases hlen : i < a.length
  · by_cases he : i = mid
    · subst he
      rw [getMatch_set_self _ _ _ hlen] at hinv
      exact h i hinv
    · rw [getMatch_set_ne _ _ _ _ he] at hinv
      exact h mid hinv
  · rw [List.set_eq_of_length_le (by omega)] at hinv
    exact h mid hinv

lemma ArenaInv.setInvokable (Q : Prop) (a : List MatchRes) (i : Nat)
    (h : ArenaInv Q a) (hq : Q) :
    ArenaInv Q (a.set i { getMatch a i with isInvokable := true }) := by
  intro mid _
  exact hq

/-! The rest-allowing chain invariant (used for C10). -/

lemma mem_pushFrames {st : MState} {edges : List Nat} {mid idx : Nat} {f : Frame} :
    f ∈ (pushFrames st edges mid idx).stack ↔
      (∃ e ∈ edges, f = Frame.mk e mid idx) ∨ f ∈ st.stack := by
  simp [pushFrames]
  constructor
  · rintro (⟨e, he, rfl⟩ | h)
    · exact Or.inl ⟨e, he, rfl⟩
    · exact Or.inr h
  · rintro (⟨e, he, rfl⟩ | h)
    · exact Or.inl ⟨e, he, rfl⟩
    · exact Or.inr h

lemma allocMatch_stack (st : MState) (m : MatchRes) : (allocMatch st m).1.stack = st.stack := rfl

lemma getD_mem_of_lt {segs : List Segment} {i : Nat} (h : i < segs.length) :
    segs.getD i junkSeg ∈ segs := by
  rw [List.getD_eq_getElem?_getD, List.getElem?_eq_getElem h]
  simp

lemma solid_edges_invR {segs : List Segment} {argv : List String} {i : Nat}
    (hik : i < segs.length) {idx : Nat} (hlt : idx < argv.length) (hi : i ≤ idx)
    {a : Nat}
    (ha : a ∈ (if isRestSeg (segs.getD i junkSeg) = true then [2 + i] else []) ++
      [if i + 1 = segs.length then 1 else 2 + i + 1])
    (mid : Nat) :
    FrameInvR segs.length argv.length (Frame.mk a mid (idx + 1)) := by
  rcases List.mem_append.mp ha with hself | hsucc
  · by_cases hrest : isRestSeg (segs.getD i junkSeg) = true
    · rw [if_pos hrest] at hself
      simp at hself
      subst hself
      exact ⟨by show idx + 1 ≤ argv.length; omega,
        Or.inr (Or.inl ⟨i, hik, rfl, by show i ≤ idx + 1; omega⟩)⟩
    · rw [if_neg hrest] at hself
      cases hself
  · simp at hsucc
    by_cases hlast : i + 1 = segs.length
    · rw [if_pos hlast] at hsucc
      subst hsucc
      exact ⟨by show idx + 1 ≤ argv.length; omega,
        Or.inr (Or.inr ⟨rfl, by show segs.length ≤ idx + 1; omega⟩)⟩
    · rw [if_neg hlast] at hsucc
      subst hsucc
      exact ⟨by show idx + 1 ≤ argv.length; omega,
        Or.inr (Or.inl ⟨i + 1, by omega, rfl, by show i + 1 ≤ idx + 1; omega⟩)⟩

lemma stepR_preserves (nk dk : String → Bool) (segs : List Segment)
    (argv : List String)
    (hsolid : ∀ s ∈ segs, isSolid s = true)
    (fr : Frame) (st : MState)
    (hfr : FrameInvR segs.length argv.length fr)
    (hstack : ∀ f ∈ st.stack, FrameInvR segs.length argv.length f)
    (harena : ArenaInv (segs.length ≤ argv.length) st.marena) :
    StInvR segs.length argv.length (step nk dk (solidGraph segs) argv fr st) := by
  obtain ⟨glen, g0, g1, gsolid⟩ := solidGraph_facts segs hsolid
  obtain ⟨hidx, hcase⟩ := hfr
  rcases hcase with ⟨hn, hi⟩ | ⟨i, hik, hn, hi⟩ | ⟨hn, hi⟩
  · -- at the BOF node
    unfold step
    rw [hn, g0]
    dsimp only
    constructor
    · intro f hf
      rcases mem_pushFrames.mp hf with ⟨a, ha, rfl⟩ | hright
      · rcases segs with _ | ⟨s0, srest⟩
        · simp at ha
          subst ha
          exact ⟨by show fr.index ≤ argv.length; omega,
            Or.inr (Or.inr ⟨rfl, by show ([] : List Segment).length ≤ fr.index; simp⟩)⟩
        · simp at ha
          subst ha
          exact ⟨by show fr.index ≤ argv.length; omega,
            Or.inr (Or.inl ⟨0, by simp, rfl, by show 0 ≤ fr.index; omega⟩)⟩
      · exact hstack f hright
    · exact harena
  · -- at a solid node
    have hseg : isSolid (segs.getD i junkSeg) = true := hsolid _ (getD_mem_of_lt hik)
    unfold step
    rw [hn, gsolid i hik]
    cases hgs : segs.getD i junkSeg with
    | optionalSeg inner => rw [hgs] at hseg; simp [isSolid] at hseg
    | unionSeg subs => rw [hgs] at hseg; simp [isSolid] at hseg
    | keyword kid name =>
      dsimp only [solidNodeSeg]
      by_cases hmore : fr.index < argv.length
      · have hd : decide (fr.index < argv.length) = true := decide_eq_true hmore
        simp only [hd, Bool.not_true, Bool.false_eq_true, if_false]
        by_cases hfull : kwIsFull name (argv.getD fr.index "") = true
        · rw [if_pos hfull]
          constructor
          · intro f hf
            rcases mem_pushFrames.mp hf with ⟨a, ha, rfl⟩ | hright
            · rw [← hgs] at ha
              exact solid_edges_invR hik hmore hi ha _
            · rw [allocMatch_stack] at hright
              exact hstack f hright
          · exact ArenaInv.append _ _ _ harena rfl
        · rw [if_neg hfull]
          by_cases hp : (kwIsPartialB name (argv.getD fr.index "") &&
              fr.index + 1 == argv.length) = true
          · rw [if_pos hp]
            exact ⟨hstack, ArenaInv.append _ _ _ harena rfl⟩
          · rw [if_neg hp]
            exact ⟨hstack, harena⟩
      · have hd : decide (fr.index < argv.length) = false := decide_eq_false hmore
        simp only [hd, Bool.not_false, if_true]
        exact ⟨hstack, ArenaInv.setPartialKeep _ _ _ harena⟩
    | var v =>
      dsimp only [solidNodeSeg]
      by_cases hmore : fr.index < argv.length
      · have hd : decide (fr.index < argv.length) = true := decide_eq_true hmore
        simp only [hd, Bool.not_true, Bool.false_eq_true, if_false]
        have hstack2 : ∀ f ∈ (if varFired v = true then
            { st with providerCalls := st.providerCalls + 1,
                      providedEnum := setPE st.providedEnum v.vid
                        (v.provider.getD []) } else st).stack,
            FrameInvR segs.length argv.length f := by
          by_cases hfired : varFired v = true <;> simp only [hfired, if_true,
            Bool.false_eq_true, if_false] <;> exact hstack
        have harena2 : ArenaInv (segs.length ≤ argv.length)
            (if varFired v = true then
              { st with providerCalls := st.providerCalls + 1,
                        providedEnum := setPE st.providedEnum v.vid
                          (v.provider.getD []) } else st).marena := by
          by_cases hfired : varFired v = true <;> simp only [hfired, if_true,
            Bool.false_eq_true, if_false] <;> exact harena
        generalize (if varFired v = true then
            { st with providerCalls := st.providerCalls + 1,
                      providedEnum := setPE st.providedEnum v.vid
                        (v.provider.getD []) } else st) = st2 at hstack2 harena2 ⊢
        by_cases hfull : varIsFull nk dk v (argv.getD fr.index "") = true
        · rw [if_pos hfull]
          constructor
          · intro f hf
            rcases mem_pushFrames.mp hf with ⟨a, ha, rfl⟩ | hright
            · rw [← hgs] at ha
              exact solid_edges_invR hik hmore hi ha _
            · rw [allocMatch_stack] at hright
              exact hstack2 f hright
          · exact ArenaInv.append _ _ _ harena2 rfl
        · rw [if_neg hfull]
          by_cases hp : varIsPartialB v (argv.getD fr.index "") = true
          · rw [if_pos hp]
            exact ⟨hstack2, ArenaInv.append _ _ _ harena2 rfl⟩
          · rw [if_neg hp]
            exact ⟨hstack2, harena2⟩
      · have hd : decide (fr.index < argv.length) = false := decide_eq_false hmore
        simp only [hd, Bool.not_false, if_true]
        exact ⟨hstack, ArenaInv.setPartialKeep _ _ _ harena⟩
  · -- at the final EOF node
    unfold step
    rw [hn, g1]
    dsimp only
    by_cases hmore : fr.index < argv.length
    · have hd : decide (fr.index < argv.length) = true := decide_eq_true hmore
      simp only [hd, Bool.not_true, Bool.and_false, Bool.false_eq_true, if_false]
      refine ⟨?_, harena⟩
      intro f hf
      rcases mem_pushFrames.mp hf with ⟨a, ha, rfl⟩ | hright
      · cases ha
      · exact hstack f hright
    · have hd : decide (fr.index < argv.length) = false := decide_eq_false hmore
      simp only [hd, Bool.not_false, Bool.and_true, beq_self_eq_true, Bool.and_self,
        if_true]
      have hq : segs.length ≤ argv.length := by omega
      refine ⟨?_, ?_⟩
      · intro f hf
        simp only [emitInvokableOf] at hf
        rcases mem_pushFrames.mp hf with ⟨a, ha, rfl⟩ | hright
        · cases ha
        · exact hstack f hright
      · exact ArenaInv.setInvokable _ _ _ harena hq

lemma runR_preserves (nk dk : String → Bool) (segs : List Segment)
    (argv : List String) (hsolid : ∀ s ∈ segs, isSolid s = true) :
    ∀ (fuel : Nat) (st st' : MState),
    (∀ f ∈ st.stack, FrameInvR segs.length argv.length f) →
    ArenaInv (segs.length ≤ argv.length) st.marena →
    run nk dk (solidGraph segs) argv fuel st = some st' →
    ArenaInv (segs.length ≤ argv.length) st'.marena := by
  intro fuel
  induction fuel with
  | zero =>
    intro st st' hstack harena hrun
    rw [run] at hrun
    rcases hs : st.stack with _ | ⟨fr, rest⟩ <;> rw [hs] at hrun
    · cases hrun; exact harena
    · cases hrun
  | succ f ih =>
    intro st st' hstack harena hrun
    rw [run] at hrun
    rcases hs : st.stack with _ | ⟨fr, rest⟩ <;> rw [hs] at hrun
    · cases hrun; exact harena
    · have hfr : FrameInvR segs.length argv.length fr :=
        hstack fr (by rw [hs]; exact List.mem_cons_self _ _)
      have hrest : ∀ f ∈ ({ st with stack := rest } : MState).stack,
          FrameInvR segs.length argv.length f := by
        intro f hf
        exact hstack f (by rw [hs]; exact List.mem_cons_of_mem _ hf)
      obtain ⟨hstack', harena'⟩ :=
        stepR_preserves nk dk segs argv hsolid fr { st with stack := rest } hfr hrest
          harena
      exact ih _ st' hstack' harena' hrun

lemma solidChain_no_invokable_short (nk dk : String → Bool) (segs : List Segment)
    (argv : List String) (pe : List (Nat × List String)) (fuel : Nat)
    (results : List MatchRes) (st : MState)
    (hsolid : ∀ s ∈ segs, isSolid s = true)
    (hnodup : (segs.map solidKey).Nodup)
    (hlt : argv.length < segs.length)
    (hrun : processInput nk dk (generateGraph gen0 segs).1.arena
      (generateGraph gen0 segs).2.1 argv pe fuel = some (results, st)) :
    ∀ m ∈ results, m.isInvokable = false := by
  rw [generateGraph_solid segs hsolid hnodup] at hrun
  have hgraph : ((solidGen segs).1.addEdge (solidGen segs).2 1, 0, 1).1.arena =
      solidGraph segs := rfl
  rw [hgraph] at hrun
  rw [processInput] at hrun
  rcases ho : run nk dk (solidGraph segs) argv fuel (initState 0 pe) with _ | st0 <;>
    rw [ho] at hrun
  · cases hrun
  · simp only [Option.map_some'] at hrun
    have harena0 : ArenaInv (segs.length ≤ argv.length) st0.marena := by
      refine runR_preserves nk dk segs argv hsolid fuel (initState 0 pe) st0 ?_ ?_ ho
      · intro f hf
        simp [initState] at hf
        subst hf
        exact ⟨by simp, Or.inl ⟨rfl, rfl⟩⟩
      · exact ArenaInv.empty _
    intro m hm
    have hres : results = (dedupAux st0.emitted []).map (getMatch st0.marena) := by
      have hp : ((dedupAux st0.emitted []).map (getMatch st0.marena), st0) =
          ((results, st) : List MatchRes × MState) := Option.some.inj hrun
      exact (congrArg Prod.fst hp).symm
    rw [hres] at hm
    obtain ⟨mid, _, rfl⟩ := List.mem_map.mp hm
    by_cases hinv : (getMatch st0.marena mid).isInvokable = true
    · exact absurd (harena0 mid hinv) (by omega)
    · simpa using hinv

lemma solid_edges_invE {nk dk : String → Bool} {segs : List Segment}
    {argv : List String} {i : Nat} (hik : i < segs.length) (hlt : i < argv.length)
    (hrest : isRestSeg (segs.getD i junkSeg) = false)
    (hist : ∀ j, j < i →
      solidFull nk dk (argv.getD j "") (solidNodeSeg (segs.getD j junkSeg)) = true)
    (hcur : solidFull nk dk (argv.getD i "") (solidNodeSeg (segs.getD i junkSeg)) = true)
    {a : Nat}
    (ha : a ∈ (if isRestSeg (segs.getD i junkSeg) = true then [2 + i] else []) ++
      [if i + 1 = segs.length then 1 else 2 + i + 1])
    (mid : Nat) :
    FrameInvE nk dk segs argv (Frame.mk a mid (i + 1)) := by
  have hist' : ∀ j, j < i + 1 →
      solidFull nk dk (argv.getD j "") (solidNodeSeg (segs.getD j junkSeg)) = true := by
    intro j hj
    rcases Nat.lt_succ_iff_lt_or_eq.mp hj with hj' | rfl
    · exact hist j hj'
    · exact hcur
  rcases List.mem_append.mp ha with hself | hsucc
  · rw [hrest] at hself
    simp at hself
  · simp at hsucc
    by_cases hlast : i + 1 = segs.length
    · rw [if_pos hlast] at hsucc
      subst hsucc
      exact ⟨by show i + 1 ≤ argv.length; omega,
        Or.inr (Or.inr ⟨rfl, by show i + 1 = segs.length; omega, hlast ▸ hist'⟩)⟩
    · rw [if_neg hlast] at hsucc
      subst hsucc
      exact ⟨by show i + 1 ≤ argv.length; omega,
        Or.inr (Or.inl ⟨i + 1, by omega, rfl, rfl, hist'⟩)⟩

lemma stepE_preserves (nk dk : String → Bool) (segs : List Segment)
    (argv : List String)
    (hsolid : ∀ s ∈ segs, isSolid s = true)
    (hnorest : ∀ s ∈ segs, isRestSeg s = false)
    (fr : Frame) (st : MState)
    (hfr : FrameInvE nk dk segs argv fr)
    (hstack : ∀ f ∈ st.stack, FrameInvE nk dk segs argv f)
    (harena : ArenaInv (QE nk dk segs argv) st.marena) :
    (∀ f ∈ (step nk dk (solidGraph segs) argv fr st).stack,
      FrameInvE nk dk segs argv f) ∧
    ArenaInv (QE nk dk segs argv) (step nk dk (solidGraph segs) argv fr st).marena := by
  obtain ⟨glen, g0, g1, gsolid⟩ := solidGraph_facts segs hsolid
  obtain ⟨hidx, hcase⟩ := hfr
  rcases hcase with ⟨hn, hi⟩ | ⟨i, hik, hn, hi, hist⟩ | ⟨hn, hi, hist⟩
  · -- BOF node
    unfold step
    rw [hn, g0]
    dsimp only
    constructor
    · intro f hf
      rcases mem_pushFrames.mp hf with ⟨a, ha, rfl⟩ | hright
      · rcases segs with _ | ⟨s0, srest⟩
        · simp at ha
          subst ha
          exact ⟨by show fr.index ≤ argv.length; omega,
            Or.inr (Or.inr ⟨rfl, by show fr.index = ([] : List Segment).length; simp [hi],
              by intro j hj; simp at hj⟩)⟩
        · simp at ha
          subst ha
          exact ⟨by show fr.index ≤ argv.length; omega,
            Or.inr (Or.inl ⟨0, by simp, rfl, by show fr.index = 0; omega,
              by intro j hj; omega⟩)⟩
      · exact hstack f hright
    · exact harena
  · -- solid node i
    have hsegmem := getD_mem_of_lt hik
    have hseg : isSolid (segs.getD i junkSeg) = true := hsolid _ hsegmem
    have hrest : isRestSeg (segs.getD i junkSeg) = false := hnorest _ hsegmem
    unfold step
    rw [hn, gsolid i hik]
    cases hgs : segs.getD i junkSeg with
    | optionalSeg inner => rw [hgs] at hseg; simp [isSolid] at hseg
    | unionSeg subs => rw [hgs] at hseg; simp [isSolid] at hseg
    | keyword kid name =>
      dsimp only [solidNodeSeg]
      by_cases hmore : fr.index < argv.length
      · have hd : decide (fr.index < argv.length) = true := decide_eq_true hmore
        simp only [hd, Bool.not_true, Bool.false_eq_true, if_false]
        by_cases hfull : kwIsFull name (argv.getD fr.index "") = true
        · rw [if_pos hfull]
          constructor
          · intro f hf
            rcases mem_pushFrames.mp hf with ⟨a, ha, rfl⟩ | hright
            · rw [← hgs] at ha
              have hcur : solidFull nk dk (argv.getD i "")
                  (solidNodeSeg (segs.getD i junkSeg)) = true := by
                rw [hgs]
                simpa [solidFull, solidNodeSeg, hi] using hfull
              rw [hi]
              exact solid_edges_invE hik (hi ▸ hmore) hrest hist hcur ha _
            · rw [allocMatch_stack] at hright
              exact hstack f hright
          · exact ArenaInv.append _ _ _ harena rfl
        · rw [if_neg hfull]
          by_cases hp : (kwIsPartialB name (argv.getD fr.index "") &&
              fr.index + 1 == argv.length) = true
          · rw [if_pos hp]
            exact ⟨hstack, ArenaInv.append _ _ _ harena rfl⟩
          · rw [if_neg hp]
            exact ⟨hstack, harena⟩
      · have hd : decide (fr.index < argv.length) = false := decide_eq_false hmore
        simp only [hd, Bool.not_false, if_true]
        exact ⟨hstack, ArenaInv.setPartialKeep _ _ _ harena⟩
    | var v =>
      dsimp only [solidNodeSeg]
      by_cases hmore : fr.index < argv.length
      · have hd : decide (fr.index < argv.length) = true := decide_eq_true hmore
        simp only [hd, Bool.not_true, Bool.false_eq_true, if_false]
        have hstack2 : ∀ f ∈ (if varFired v = true then
            { st with providerCalls := st.providerCalls + 1,
                      providedEnum := setPE st.providedEnum v.vid
                        (v.provider.getD []) } else st).stack,
            FrameInvE nk dk segs argv f := by
          by_cases hfired : varFired v = true <;> simp only [hfired, if_true,
            Bool.false_eq_true, if_false] <;> exact hstack
        have harena2 : ArenaInv (QE nk dk segs argv)
            (if varFired v = true then
              { st with providerCalls := st.providerCalls + 1,
                        providedEnum := setPE st.providedEnum v.vid
                          (v.provider.getD []) } else st).marena := by
          by_cases hfired : varFired v = true <;> simp only [hfired, if_true,
            Bool.false_eq_true, if_false] <;> exact harena
        generalize (if varFired v = true then
            { st with providerCalls := st.providerCalls + 1,
                      providedEnum := setPE st.providedEnum v.vid
                        (v.provider.getD []) } else st) = st2 at hstack2 harena2 ⊢
        by_cases hfull : varIsFull nk dk v (argv.getD fr.index "") = true
        · rw [if_pos hfull]
          constructor
          · intro f hf
            rcases mem_pushFrames.mp hf with ⟨a, ha, rfl⟩ | hright
            · rw [← hgs] at ha
              have hcur : solidFull nk dk (argv.getD i "")
                  (solidNodeSeg (segs.getD i junkSeg)) = true := by
                rw [hgs]
                simpa [solidFull, solidNodeSeg, hi] using hfull
              rw [hi]
              exact solid_edges_invE hik (hi ▸ hmore) hrest hist hcur ha _
            · rw [allocMatch_stack] at hright
              exact hstack2 f hright
          · exact ArenaInv.append _ _ _ harena2 rfl
        · rw [if_neg hfull]
          by_cases hp : varIsPartialB v (argv.getD fr.index "") = true
          · rw [if_pos hp]
            exact ⟨hstack2, ArenaInv.append _ _ _ harena2 rfl⟩
          · rw [if_neg hp]
            exact ⟨hstack2, harena2⟩
      · have hd : decide (fr.index < argv.length) = false := decide_eq_false hmore
        simp only [hd, Bool.not_false, if_true]
        exact ⟨hstack, ArenaInv.setPartialKeep _ _ _ harena⟩
  · -- final EOF
    unfold step
    rw [hn, g1]
    dsimp only
    by_cases hmore : fr.index < argv.length
    · have hd : decide (fr.index < argv.length) = true := decide_eq_true hmore
      simp only [hd, Bool.not_true, Bool.and_false, Bool.false_eq_true, if_false]
      refine ⟨?_, harena⟩
      intro f hf
      rcases mem_pushFrames.mp hf with ⟨a, ha, rfl⟩ | hright
      · cases ha
      · exact hstack f hright
    · have hd : decide (fr.index < argv.length) = false := decide_eq_false hmore
      simp only [hd, Bool.not_false, Bool.and_true, beq_self_eq_true, Bool.and_self,
        if_true]
      have hq : QE nk dk segs argv := ⟨by omega, hist⟩
      refine ⟨?_, ?_⟩
      · intro f hf
        simp only [emitInvokableOf] at hf
        rcases mem_pushFrames.mp hf with ⟨a, ha, rfl⟩ | hright
        · cases ha
        · exact hstack f hright
      · exact ArenaInv.setInvokable _ _ _ harena hq

lemma runE_preserves (nk dk : String → Bool) (segs : List Segment)
    (argv : List String) (hsolid : ∀ s ∈ segs, isSolid s = true)
    (hnorest : ∀ s ∈ segs, isRestSeg s = false) :
    ∀ (fuel : Nat) (st st' : MState),
    (∀ f ∈ st.stack, FrameInvE nk dk segs argv f) →
    ArenaInv (QE nk dk segs argv) st.marena →
    run nk dk (solidGraph segs) argv fuel st = some st' →
    ArenaInv (QE nk dk segs argv) st'.marena := by
  intro fuel
  induction fuel with
  | zero =>
    intro st st' hstack harena hrun
    rw [run] at hrun
    rcases hs : st.stack with _ | ⟨fr, rest⟩ <;> rw [hs] at hrun
    · cases hrun; exact harena
    · cases hrun
  | succ f ih =>
    intro st st' hstack harena hrun
    rw [run] at hrun
    rcases hs : st.stack with _ | ⟨fr, rest⟩ <;> rw [hs] at hrun
    · cases hrun; exact harena
    · have hfr : FrameInvE nk dk segs argv fr :=
        hstack fr (by rw [hs]; exact List.mem_cons_self _ _)
      have hrest : ∀ f ∈ ({ st with stack := rest } : MState).stack,
          FrameInvE nk dk segs argv f := by
        intro f hf
        exact hstack f (by rw [hs]; exact List.mem_cons_of_mem _ hf)
      obtain ⟨hstack', harena'⟩ :=
        stepE_preserves nk dk segs argv hsolid hnorest fr { st with stack := rest } hfr
          hrest harena
      exact ih _ st' hstack' harena' hrun

lemma solidChain_invokable_exact (nk dk : String → Bool) (segs : List Segment)
    (argv : List String) (pe : List (Nat × List String)) (fuel : Nat)
    (results : List MatchRes) (st : MState)
    (hsolid : ∀ s ∈ segs, isSolid s = true)
    (hnodup : (segs.map solidKey).Nodup)
    (hnorest : ∀ s ∈ segs, isRestSeg s = false)
    (hrun : processInput nk dk (generateGraph gen0 segs).1.arena
      (generateGraph gen0 segs).2.1 argv pe fuel = some (results, st)) :
    ∀ m ∈ results, m.isInvokable = true →
      argv.length = segs.length ∧
      ∀ j, j < segs.length →
        solidFull nk dk (argv.getD j "") (solidNodeSeg (segs.getD j junkSeg)) = true := by
  rw [generateGraph_solid segs hsolid hnodup] at hrun
  have hgraph : ((solidGen segs).1.addEdge (solidGen segs).2 1, 0, 1).1.arena =
      solidGraph segs := rfl
  rw [hgraph] at hrun
  rw [processInput] at hrun
  rcases ho : run nk dk (solidGraph segs) argv fuel (initState 0 pe) with _ | st0 <;>
    rw [ho] at hrun
  · cases hrun
  · simp only [Option.map_some'] at hrun
    have harena0 : ArenaInv (QE nk dk segs argv) st0.marena := by
      refine runE_preserves nk dk segs argv hsolid hnorest fuel (initState 0 pe) st0
        ?_ ?_ ho
      · intro f hf
        simp [initState] at hf
        subst hf
        exact ⟨by simp, Or.inl ⟨rfl, rfl⟩⟩
      · exact ArenaInv.empty _
    intro m hm hinv
    have hres : results = (dedupAux st0.emitted []).map (getMatch st0.marena) := by
      have hp : ((dedupAux st0.emitted []).map (getMatch st0.marena), st0) =
          ((results, st) : List MatchRes × MState) := Option.some.inj hrun
      exact (congrArg Prod.fst hp).symm
    rw [hres] at hm
    obtain ⟨mid, _, rfl⟩ := List.mem_map.mp hm
    exact harena0 mid hinv

/-! ### C5 and C10: solid chains, concrete scenarios -/

lemma graph_c5segs :
    generateGraph gen0 c5segs =
      (⟨[⟨.control 0 true, [2]⟩, ⟨.control 0 false, []⟩, ⟨.keyword 0 "ban", [3]⟩,
         ⟨.var c5VarIp, [1]⟩], 1, [(0, 2)], [(1, 3)]⟩, 0, 1) := by
  simp [generateGraph, genLoop, genUnion, GenSt.createMarkerSet, GenSt.pushNode,
    GenSt.createNode, GenSt.addEdge, getNode, lookupNat, resolveChain, gen0, junkNode,
    c5segs, c5VarIp]

lemma graph_c10segs :
    generateGraph gen0 c10segs =
      (⟨[⟨.control 0 true, [2]⟩, ⟨.control 0 false, []⟩, ⟨.keyword 0 "cmd", [3]⟩,
         ⟨.var exRestS, [3, 1]⟩], 1, [(0, 2)], [(1, 3)]⟩, 0, 1) := by
  simp [generateGraph, genLoop, genUnion, GenSt.createMarkerSet, GenSt.pushNode,
    GenSt.createNode, GenSt.addEdge, getNode, lookupNat, resolveChain, gen0, junkNode,
    c10segs, exRestS]

/-- C5: for a grammar consisting only of mandatory keyword/variable segments
(solid, pairwise distinct, none a rest variable), every invokable MatchResult
returned by processInput certifies that the input token vector had exactly
`segs.length` tokens and that token `j` fully matches segment `j` for every
position; in particular the compiled chain has no skip paths, so no shorter
token vector is invokable. -/
theorem C5_mandatory_exact (nk dk : String → Bool) (segs : List Segment)
    (argv : List String) (pe : List (Nat × List String)) (fuel : Nat)
    (results : List MatchRes) (st : MState)
    (hsolid : ∀ s ∈ segs, isSolid s = true)
    (hnodup : (segs.map solidKey).Nodup)
    (hnorest : ∀ s ∈ segs, isRestSeg s = false)
    (hrun : processInput nk dk (generateGraph gen0 segs).1.arena
      (generateGraph gen0 segs).2.1 argv pe fuel = some (results, st)) :
    ∀ m ∈ results, m.isInvokable = true →
      argv.length = segs.length ∧
      ∀ j, j < segs.length →
        solidFull nk dk (argv.getD j "") (solidNodeSeg (segs.getD j junkSeg)) = true :=
  solidChain_invokable_exact nk dk segs argv pe fuel results st hsolid hnodup
    hnorest hrun

/-- Witness for C5 at the grammar `keyword("ban") variable("ip", {type:
"string"})` on input `["ban", "1.2.3.4"]`: the run yields the invokable match
`c5Match`, and the theorem certifies exactly two tokens, each a full match. -/
theorem C5_mandatory_exact_witness :
    processInput jsNumOk noDate (generateGraph gen0 c5segs).1.arena
        (generateGraph gen0 c5segs).2.1 ["ban", "1.2.3.4"] [] 100 =
      some ([c5Match], c5State) ∧
    (["ban", "1.2.3.4"] : List String).length = c5segs.length ∧
    ∀ j, j < c5segs.length →
      solidFull jsNumOk noDate ((["ban", "1.2.3.4"] : List String).getD j "")
        (solidNodeSeg (c5segs.getD j junkSeg)) = true := by
  have hrun : processInput jsNumOk noDate (generateGraph gen0 c5segs).1.arena
      (generateGraph gen0 c5segs).2.1 ["ban", "1.2.3.4"] [] 100 =
      some ([c5Match], c5State) := by
    rw [graph_c5segs]; decide
  exact ⟨hrun, C5_mandatory_exact jsNumOk noDate c5segs ["ban", "1.2.3.4"] [] 100
    [c5Match] c5State (by decide) (by decide) (by decide) hrun c5Match
    (List.mem_singleton.mpr rfl) (by decide)⟩

/-- C10: a rest variable must consume at least one token. General half: on a
chain of solid segments (of which the last may be a rest variable), any input
with fewer tokens than segments produces no invokable MatchResult. Concrete
half: for `keyword("cmd") variable("x", {type: "string", isRest: true})` on
input `["cmd"]`, which supplies no token for the rest position, processInput
returns exactly one MatchResult, and it is partial and not invokable. -/
theorem C10_rest_needs_token :
    (∀ (nk dk : String → Bool) (segs : List Segment) (argv : List String)
        (pe : List (Nat × List String)) (fuel : Nat)
        (results : List MatchRes) (st : MState),
      (∀ s ∈ segs, isSolid s = true) →
      (segs.map solidKey).Nodup →
      isRestSeg (segs.getD (segs.length - 1) junkSeg) = true →
      argv.length < segs.length →
      processInput nk dk (generateGraph gen0 segs).1.arena
        (generateGraph gen0 segs).2.1 argv pe fuel = some (results, st) →
      ∀ m ∈ results, m.isInvokable = false) ∧
    processInput jsNumOk noDate (generateGraph gen0 c10segs).1.arena
        (generateGraph gen0 c10segs).2.1 ["cmd"] [] 100 =
      some ([c10Match], c10State) ∧
    c10Match.isInvokable = false ∧ c10Match.isPartial = true := by
  refine ⟨fun nk dk segs argv pe fuel results st hsolid hnodup _ hlt hrun =>
    solidChain_no_invokable_short nk dk segs argv pe fuel results st hsolid hnodup
      hlt hrun, ?_, by decide, by decide⟩
  rw [graph_c10segs]; decide

/-- Witness for C10 at the grammar `keyword("cmd") variable("x", {type:
"string", isRest: true})` on input `["cmd"]`: the hypotheses of the general
half hold and the sole returned match is not invokable. -/
theorem C10_rest_needs_token_witness :
    (∀ s ∈ c10segs, isSolid s = true) ∧ (c10segs.map solidKey).Nodup ∧
    isRestSeg (c10segs.getD (c10segs.length - 1) junkSeg) = true ∧
    (["cmd"] : List String).length < c10segs.length ∧
    ∀ m ∈ [c10Match], m.isInvokable = false :=
  ⟨by decide, by decide, by decide, by decide,
    C10_rest_needs_token.1 jsNumOk noDate c10segs ["cmd"] [] 100 [c10Match]
      c10State (by decide) (by decide) (by decide) (by decide)
      (by rw [graph_c10segs]; decide)⟩

/-! ### Proof of the rank construction and matcher termination -/

lemma upd_self (r : Nat → Nat) (i x : Nat) : upd r i x i = x := by simp [upd]

lemma upd_other (r : Nat → Nat) (i x j : Nat) (h : j ≠ i) : upd r i x j = r j := by
  simp [upd, h]

lemma RLE.upd {RT : Nat} {r : Nat → Nat} (h : RLE RT r) (i x : Nat) (hx : x ≤ RT) :
    RLE RT (upd r i x) := by
  intro j
  by_cases hj : j = i
  · subst hj; simpa [upd_self] using hx
  · rw [upd_other _ _ _ _ hj]; exact h j

/-! Basic facts about `addEdge` and `pushNode`. -/

lemma addEdge_len (g : GenSt) (u v : Nat) :
    (g.addEdge u v).arena.length = g.arena.length := by
  simp [addEdge_eq]

lemma addEdge_cacheKw (g : GenSt) (u v : Nat) : (g.addEdge u v).cacheKw = g.cacheKw := rfl

lemma addEdge_cacheVar (g : GenSt) (u v : Nat) : (g.addEdge u v).cacheVar = g.cacheVar := rfl

lemma getNode_addEdge_ne (g : GenSt) (u v w : Nat) (h : w ≠ u) :
    getNode (g.addEdge u v).arena w = getNode g.arena w := by
  rw [addEdge_eq]
  exact getNode_set_ne _ _ _ _ (fun he => h he.symm)

lemma getNode_addEdge_self (g : GenSt) (u v : Nat) (h : u < g.arena.length) :
    getNode (g.addEdge u v).arena u = pushE (getNode g.arena u) v := by
  rw [addEdge_eq]
  exact getNode_set_self _ _ _ h

lemma addEdge_arena_of_ge (g : GenSt) (u v : Nat) (h : g.arena.length ≤ u) :
    (g.addEdge u v).arena = g.arena := by
  rw [addEdge_eq]
  exact List.set_eq_of_length_le h

lemma seg_addEdge (g : GenSt) (u v w : Nat) :
    (getNode (g.addEdge u v).arena w).seg = (getNode g.arena w).seg := by
  by_cases hw : w = u
  · subst hw
    by_cases h : w < g.arena.length
    · rw [getNode_addEdge_self _ _ _ h]; rfl
    · rw [addEdge_arena_of_ge _ _ _ (by omega)]
  · rw [getNode_addEdge_ne _ _ _ _ hw]

lemma edges_addEdge_mem (g : GenSt) (u v w x : Nat)
    (h : x ∈ (getNode (g.addEdge u v).arena w).edges) :
    x ∈ (getNode g.arena w).edges ∨ (x = v ∧ w = u) := by
  by_cases hw : w = u
  · subst hw
    by_cases hlt : w < g.arena.length
    · rw [getNode_addEdge_self _ _ _ hlt] at h
      simp only [pushE, List.mem_append, List.mem_singleton] at h
      rcases h with h | h
      · exact Or.inl h
      · exact Or.inr ⟨h, rfl⟩
    · rw [addEdge_arena_of_ge _ _ _ (by omega)] at h
      exact Or.inl h
  · rw [getNode_addEdge_ne _ _ _ _ hw] at h
    exact Or.inl h

lemma Good.addEdge {g : GenSt} {r : Nat → Nat} (hg : Good g r) {u v : Nat}
    (hv : v < g.arena.length)
    (hlt : isCtrl (getNode g.arena u).seg = true → r v < r u) :
    Good (g.addEdge u v) r := by
  obtain ⟨hE, hC, hS, hK⟩ := hg
  refine ⟨?_, ?_, ?_, ?_⟩
  · intro w x hx hctrl
    rw [seg_addEdge] at hctrl
    rcases edges_addEdge_mem _ _ _ _ _ hx with h | ⟨rfl, rfl⟩
    · exact hE w x h hctrl
    · exact hlt hctrl
  · intro w x hx
    rw [addEdge_len]
    rcases edges_addEdge_mem _ _ _ _ _ hx with h | ⟨rfl, rfl⟩
    · exact hC w x h
    · exact hv
  · intro i hi
    rw [seg_addEdge] at hi
    exact hS i hi
  · refine ⟨?_, ?_⟩
    · intro p hp
      rw [addEdge_cacheKw] at hp
      rw [addEdge_len, seg_addEdge]
      exact hK.1 p hp
    · intro p hp
      rw [addEdge_cacheVar] at hp
      rw [addEdge_len, seg_addEdge]
      exact hK.2 p hp

/-! `pushNode` facts. -/

lemma pushNode_fst_arena (g : GenSt) (s : NodeSeg) :
    (g.pushNode s).1.arena = g.arena ++ [⟨s, []⟩] := rfl

lemma pushNode_snd (g : GenSt) (s : NodeSeg) : (g.pushNode s).2 = g.arena.length := rfl

lemma pushNode_cacheKw (g : GenSt) (s : NodeSeg) : (g.pushNode s).1.cacheKw = g.cacheKw := rfl

lemma pushNode_cacheVar (g : GenSt) (s : NodeSeg) :
    (g.pushNode s).1.cacheVar = g.cacheVar := rfl

lemma getNode_append_ge (l : List Node) (x : Node) (w : Nat)
    (h : l.length + 1 ≤ w) : getNode (l ++ [x]) w = junkNode := by
  unfold getNode
  rw [List.getD_eq_default]
  simp
  omega

lemma getNode_beyond (l : List Node) (w : Nat) (h : l.length ≤ w) :
    getNode l w = junkNode := by
  unfold getNode
  rw [List.getD_eq_default]
  omega

lemma junk_edges : junkNode.edges = [] := rfl

lemma junk_ctrl : isCtrl junkNode.seg = true := rfl

lemma Good.push {g : GenSt} {r : Nat → Nat} (hg : Good g r) (s : NodeSeg) (x : Nat)
    (hs : isCtrl s = false → x = 0) :
    Good (g.pushNode s).1 (upd r g.arena.length x) := by
  obtain ⟨hE, hC, hS, hK⟩ := hg
  have hlen : (g.pushNode s).1.arena.length = g.arena.length + 1 := by
    rw [pushNode_fst_arena]; simp
  have hseg : ∀ w, w < g.arena.length →
      getNode (g.pushNode s).1.arena w = getNode g.arena w := by
    intro w hw
    rw [pushNode_fst_arena, getNode_append_lt _ _ _ hw]
  have hnew : getNode (g.pushNode s).1.arena g.arena.length = ⟨s, []⟩ := by
    rw [pushNode_fst_arena, getNode_append_self]
  refine ⟨?_, ?_, ?_, ?_⟩
  · intro u v hv hctrl
    by_cases hu : u < g.arena.length
    · rw [hseg u hu] at hv hctrl
      have hvr : v < g.arena.length := hC u v hv
      rw [upd_other _ _ _ _ (by omega), upd_other _ _ _ _ (by omega)]
      exact hE u v hv hctrl
    · by_cases hu2 : u = g.arena.length
      · subst hu2
        rw [hnew] at hv
        simp at hv
      · rw [pushNode_fst_arena, getNode_append_ge _ _ _ (by omega), junk_edges] at hv
        simp at hv
  · intro u v hv
    rw [hlen]
    by_cases hu : u < g.arena.length
    · rw [hseg u hu] at hv
      have := hC u v hv
      omega
    · by_cases hu2 : u = g.arena.length
      · subst hu2
        rw [hnew] at hv
        simp at hv
      · rw [pushNode_fst_arena, getNode_append_ge _ _ _ (by omega), junk_edges] at hv
        simp at hv
  · intro i hi
    by_cases hu : i < g.arena.length
    · rw [hseg i hu] at hi
      rw [upd_other _ _ _ _ (by omega)]
      exact hS i hi
    · by_cases hu2 : i = g.arena.length
      · subst hu2
        rw [hnew] at hi
        rw [upd_self]
        exact hs hi
      · rw [pushNode_fst_arena, getNode_append_ge _ _ _ (by omega)] at hi
        rw [junk_ctrl] at hi
        cases hi
  · refine ⟨?_, ?_⟩
    · intro p hp
      rw [pushNode_cacheKw] at hp
      obtain ⟨h1, h2⟩ := hK.1 p hp
      rw [hlen, hseg _ h1]
      exact ⟨by omega, h2⟩
    · intro p hp
      rw [pushNode_cacheVar] at hp
      obtain ⟨h1, h2⟩ := hK.2 p hp
      rw [hlen, hseg _ h1]
      exact ⟨by omega, h2⟩

lemma Good.nextId {g : GenSt} {r : Nat → Nat} (hg : Good g r) (x : Nat) :
    Good { g with nextId := x } r := hg

/-! `createMarkerSet` and `createNode`. -/

lemma createMarkerSet_b (g : GenSt) : (g.createMarkerSet).2.1 = g.arena.length := rfl

lemma createMarkerSet_e (g : GenSt) : (g.createMarkerSet).2.2 = g.arena.length + 1 := by
  simp [GenSt.createMarkerSet, GenSt.pushNode]

lemma createMarkerSet_arena (g : GenSt) :
    (g.createMarkerSet).1.arena =
      g.arena ++ [⟨.control g.nextId true, []⟩] ++ [⟨.control g.nextId false, []⟩] := rfl

lemma createMarkerSet_len (g : GenSt) :
    (g.createMarkerSet).1.arena.length = g.arena.length + 2 := by
  rw [createMarkerSet_arena]; simp

lemma createMarkerSet_seg (g : GenSt) (w : Nat) (h : w < g.arena.length) :
    getNode (g.createMarkerSet).1.arena w = getNode g.arena w := by
  rw [createMarkerSet_arena, getNode_append_lt _ _ _ (by simp; omega),
    getNode_append_lt _ _ _ h]

lemma Good.createMarkerSet {g : GenSt} {r : Nat → Nat} (hg : Good g r) (x y : Nat) :
    Good (g.createMarkerSet).1 (upd (upd r g.arena.length x) (g.arena.length + 1) y) := by
  have h1 : Good ({ g with nextId := g.nextId + 1 } : GenSt) r := hg
  have h2 := h1.push (.control g.nextId true) x (by intro h; cases h)
  have h3 := h2.push (.control g.nextId false) y (by intro h; cases h)
  have hlen1 : (({ g with nextId := g.nextId + 1 } : GenSt).pushNode
      (.control g.nextId true)).1.arena.length = g.arena.length + 1 := by
    rw [pushNode_fst_arena]; simp
  rw [hlen1] at h3
  exact h3

lemma lookupNat_mem {l : List (Nat × Nat)} {k v : Nat} (h : lookupNat l k = some v) :
    (k, v) ∈ l := by
  induction l with
  | nil => cases h
  | cons p rest ih =>
    rcases p with ⟨k', v'⟩
    rw [lookupNat_cons] at h
    by_cases he : k' = k
    · subst he
      rw [if_pos rfl] at h
      cases h
      exact List.mem_cons_self _ _
    · rw [if_neg he] at h
      exact List.mem_cons_of_mem _ (ih h)

lemma Good.cacheKwCons {g : GenSt} {r : Nat → Nat} (hg : Good g r) (p : Nat × Nat)
    (hp : p.2 < g.arena.length ∧ isCtrl (getNode g.arena p.2).seg = false) :
    Good { g with cacheKw := p :: g.cacheKw } r := by
  obtain ⟨hE, hC, hS, hK⟩ := hg
  refine ⟨hE, hC, hS, ?_, hK.2⟩
  intro q hq
  rcases List.mem_cons.mp hq with rfl | hq
  · exact hp
  · exact hK.1 q hq

lemma Good.cacheVarCons {g : GenSt} {r : Nat → Nat} (hg : Good g r) (p : Nat × Nat)
    (hp : p.2 < g.arena.length ∧ isCtrl (getNode g.arena p.2).seg = false) :
    Good { g with cacheVar := p :: g.cacheVar } r := by
  obtain ⟨hE, hC, hS, hK⟩ := hg
  refine ⟨hE, hC, hS, hK.1, ?_⟩
  intro q hq
  rcases List.mem_cons.mp hq with rfl | hq
  · exact hp
  · exact hK.2 q hq

lemma createNode_spec {g : GenSt} {r : Nat → Nat} (hg : Good g r) (s : NodeSeg)
    (hs : isCtrl s = false) :
    ∃ r', Good (g.createNode s).1 r' ∧
      (∀ i, i < g.arena.length → r' i = r i) ∧
      (∀ RT, RLE RT r → RLE RT r') ∧
      r' (g.createNode s).2 = 0 ∧
      (g.createNode s).2 < (g.createNode s).1.arena.length ∧
      g.arena.length ≤ (g.createNode s).1.arena.length ∧
      isCtrl (getNode (g.createNode s).1.arena (g.createNode s).2).seg = false ∧
      (∀ w, w < g.arena.length → getNode (g.createNode s).1.arena w = getNode g.arena w) ∧
      (g.createNode s).1.arena.length ≤ g.arena.length + 1 := by
  cases s with
  | control id b => cases hs
  | keyword kid name =>
    rcases hl : lookupNat g.cacheKw kid with _ | i
    · -- cache miss
      refine ⟨upd r g.arena.length 0, ?_⟩
      have hpush := hg.push (.keyword kid name) 0 (fun _ => rfl)
      have harena : (g.createNode (.keyword kid name)).1 =
          { (g.pushNode (.keyword kid name)).1 with
            cacheKw := (kid, g.arena.length) :: g.cacheKw } := by
        simp only [GenSt.createNode, hl]
        rfl
      have hidx : (g.createNode (.keyword kid name)).2 = g.arena.length := by
        simp only [GenSt.createNode, hl]
        rfl
      have hgood : Good (g.createNode (.keyword kid name)).1 (upd r g.arena.length 0) := by
        rw [harena]
        refine Good.cacheKwCons ?_ _ ?_
        · exact hpush
        · constructor
          · show g.arena.length < (g.pushNode (.keyword kid name)).1.arena.length
            rw [pushNode_fst_arena]
            simp
          · show isCtrl (getNode (g.pushNode (.keyword kid name)).1.arena
              g.arena.length).seg = false
            rw [pushNode_fst_arena, getNode_append_self]
            rfl
      refine ⟨hgood, ?_, ?_, ?_, ?_, ?_, ?_, ?_, ?_⟩
      · intro i hi
        exact upd_other _ _ _ _ (by omega)
      · intro RT hR
        exact hR.upd _ _ (Nat.zero_le _)
      · rw [hidx]; exact upd_self _ _ _
      · rw [hidx, harena]
        show g.arena.length < (g.pushNode (.keyword kid name)).1.arena.length
        rw [pushNode_fst_arena]; simp
      · rw [harena]
        show g.arena.length ≤ (g.pushNode (.keyword kid name)).1.arena.length
        rw [pushNode_fst_arena]; simp
      · rw [hidx, harena]
        show isCtrl (getNode (g.pushNode (.keyword kid name)).1.arena
          g.arena.length).seg = false
        rw [pushNode_fst_arena, getNode_append_self]
        rfl
      · intro w hw
        rw [harena]
        show getNode (g.pushNode (.keyword kid name)).1.arena w = getNode g.arena w
        rw [pushNode_fst_arena, getNode_append_lt _ _ _ hw]
      · rw [harena]
        show (g.pushNode (.keyword kid name)).1.arena.length ≤ g.arena.length + 1
        rw [pushNode_fst_arena]; simp
    · -- cache hit
      have hres : g.createNode (.keyword kid name) = (g, i) := by
        simp only [GenSt.createNode, hl]
      obtain ⟨hlt, hsolid⟩ := hg.2.2.2.1 (kid, i) (lookupNat_mem hl)
      rw [hres]
      exact ⟨r, hg, fun _ _ => rfl, fun _ h => h, hg.2.2.1 i hsolid, hlt, le_refl _,
        hsolid, fun _ _ => rfl, Nat.le_succ _⟩
  | var v =>
    rcases hl : lookupNat g.cacheVar v.vid with _ | i
    · refine ⟨upd r g.arena.length 0, ?_⟩
      have hpush := hg.push (.var v) 0 (fun _ => rfl)
      have harena : (g.createNode (.var v)).1 =
          { (g.pushNode (.var v)).1 with
            cacheVar := (v.vid, g.arena.length) :: g.cacheVar } := by
        simp only [GenSt.createNode, hl]
        rfl
      have hidx : (g.createNode (.var v)).2 = g.arena.length := by
        simp only [GenSt.createNode, hl]
        rfl
      have hgood : Good (g.createNode (.var v)).1 (upd r g.arena.length 0) := by
        rw [harena]
        refine Good.cacheVarCons ?_ _ ?_
        · exact hpush
        · constructor
          · show g.arena.length < (g.pushNode (.var v)).1.arena.length
            rw [pushNode_fst_arena]
            simp
          · show isCtrl (getNode (g.pushNode (.var v)).1.arena g.arena.length).seg = false
            rw [pushNode_fst_arena, getNode_append_self]
            rfl
      refine ⟨hgood, ?_, ?_, ?_, ?_, ?_, ?_, ?_, ?_⟩
      · intro i hi
        exact upd_other _ _ _ _ (by omega)
      · intro RT hR
        exact hR.upd _ _ (Nat.zero_le _)
      · rw [hidx]; exact upd_self _ _ _
      · rw [hidx, harena]
        show g.arena.length < (g.pushNode (.var v)).1.arena.length
        rw [pushNode_fst_arena]; simp
      · rw [harena]
        show g.arena.length ≤ (g.pushNode (.var v)).1.arena.length
        rw [pushNode_fst_arena]; simp
      · rw [hidx, harena]
        show isCtrl (getNode (g.pushNode (.var v)).1.arena g.arena.length).seg = false
        rw [pushNode_fst_arena, getNode_append_self]
        rfl
      · intro w hw
        rw [harena]
        show getNode (g.pushNode (.var v)).1.arena w = getNode g.arena w
        rw [pushNode_fst_arena, getNode_append_lt _ _ _ hw]
      · rw [harena]
        show (g.pushNode (.var v)).1.arena.length ≤ g.arena.length + 1
        rw [pushNode_fst_arena]; simp
    · have hres : g.createNode (.var v) = (g, i) := by
        simp only [GenSt.createNode, hl]
      obtain ⟨hlt, hsolid⟩ := hg.2.2.2.2 (v.vid, i) (lookupNat_mem hl)
      rw [hres]
      exact ⟨r, hg, fun _ _ => rfl, fun _ h => h, hg.2.2.1 i hsolid, hlt, le_refl _,
        hsolid, fun _ _ => rfl, Nat.le_succ _⟩

/-! `resolveChain`. -/

lemma foldlE_len (ex : Nat) (l : List (Nat × Nat)) (g : GenSt) :
    ((l.foldl (fun g p => g.addEdge ex p.1) g)).arena.length = g.arena.length := by
  induction l generalizing g with
  | nil => rfl
  | cons p rest ih =>
    rw [List.foldl_cons, ih, addEdge_len]

lemma foldlE_seg (ex : Nat) (l : List (Nat × Nat)) (g : GenSt) (w : Nat) :
    (getNode ((l.foldl (fun g p => g.addEdge ex p.1) g)).arena w).seg =
      (getNode g.arena w).seg := by
  induction l generalizing g with
  | nil => rfl
  | cons p rest ih =>
    rw [List.foldl_cons, ih, seg_addEdge]

lemma foldlE_good {ex : Nat} {l : List (Nat × Nat)} {g : GenSt} {r : Nat → Nat}
    (hg : Good g r) (h : ∀ p ∈ l, p.1 < g.arena.length ∧ r p.1 < r ex) :
    Good (l.foldl (fun g p => g.addEdge ex p.1) g) r := by
  induction l generalizing g with
  | nil => exact hg
  | cons p rest ih =>
    rw [List.foldl_cons]
    refine ih (hg.addEdge (h p (List.mem_cons_self _ _)).1
      (fun _ => (h p (List.mem_cons_self _ _)).2)) ?_
    intro q hq
    rw [addEdge_len]
    exact h q (List.mem_cons_of_mem _ hq)

lemma resolveChain_len (g : GenSt) (chain : List (Nat × Nat)) (anchor : Nat) :
    (resolveChain g chain anchor).arena.length = g.arena.length := by
  induction chain generalizing g with
  | nil => rfl
  | cons p rest ih =>
    rcases p with ⟨ob, ex⟩
    rw [resolveChain, ih, addEdge_len, foldlE_len]

lemma resolveChain_seg (g : GenSt) (chain : List (Nat × Nat)) (anchor w : Nat) :
    (getNode (resolveChain g chain anchor).arena w).seg = (getNode g.arena w).seg := by
  induction chain generalizing g with
  | nil => rfl
  | cons p rest ih =>
    rcases p with ⟨ob, ex⟩
    rw [resolveChain, ih, seg_addEdge, foldlE_seg]

lemma good_resolveChain {g : GenSt} {r : Nat → Nat} {chain : List (Nat × Nat)}
    {anchor : Nat} (hg : Good g r)
    (ha : anchor < g.arena.length)
    (hmem : ∀ p ∈ chain, p.1 < g.arena.length)
    (hanc : ∀ p ∈ chain, r anchor < r p.2)
    (hpair : List.Pairwise (fun p q => r q.1 < r p.2) chain) :
    Good (resolveChain g chain anchor) r := by
  induction chain generalizing g with
  | nil => exact hg
  | cons p rest ih =>
    rcases p with ⟨ob, ex⟩
    rw [resolveChain]
    have hpr := List.pairwise_cons.mp hpair
    have h1 : Good (rest.foldl (fun g p => g.addEdge ex p.1) g) r := by
      refine foldlE_good hg ?_
      intro q hq
      exact ⟨hmem q (List.mem_cons_of_mem _ hq), hpr.1 q hq⟩
    have h2 : Good ((rest.foldl (fun g p => g.addEdge ex p.1) g).addEdge ex anchor) r := by
      refine h1.addEdge ?_ (fun _ => hanc (ob, ex) (List.mem_cons_self _ _))
      rw [foldlE_len]
      exact ha
    refine ih h2 ?_ ?_ ?_ hpr.2
    · rw [addEdge_len, foldlE_len]
      exact ha
    · intro q hq
      rw [addEdge_len, foldlE_len]
      exact hmem q (List.mem_cons_of_mem _ hq)
    · intro q hq
      exact hanc q (List.mem_cons_of_mem _ hq)

/-! The interval-rank construction over the generator's mutual recursion. -/

lemma stepPGU (n : Nat) (ih : ∀ m, m < n → PGL m ∧ PGU m ∧ PGG m) : PGU n := by
  intro g ub ue subs lob hib RT r hsz hg hR hreq hRT hub hue hublt huelt
  cases subs with
  | nil =>
    rw [genUnion]
    exact ⟨r, hg, hR, fun _ _ => rfl, le_refl _, fun _ _ => rfl⟩
  | cons sub rest =>
    have hszc : sizeOf (sub :: rest) = 1 + sizeOf sub + sizeOf rest := by simp
    have hszsub : sizeOf sub < n := by omega
    have hszrest : sizeOf rest < n := by omega
    rcases hgen : generateGraph g sub with ⟨gs, sbe⟩
    rcases sbe with ⟨sb, se⟩
    have hGG := (ih (sizeOf sub) hszsub).2.2 g sub lob hib RT r (le_refl _) hg hR
      (by omega) hRT
    rw [hgen] at hGG
    obtain ⟨r1, hg1, hR1, hext1, hlen1, hseg1, hb1, he1, hrb1, hre1⟩ := hGG
    have hb1' : sb = g.arena.length := hb1
    have he1' : se = g.arena.length + 1 := he1
    have hrb1' : r1 sb = hib := hrb1
    have hre1' : r1 se = lob := hre1
    have hlen1' : g.arena.length + 2 ≤ gs.arena.length := hlen1
    have hgood1 : Good gs r1 := hg1
    have hseg1' : ∀ w, w < g.arena.length →
        (getNode gs.arena w).seg = (getNode g.arena w).seg := hseg1
    have hext1' : ∀ i, i < g.arena.length → r1 i = r i := hext1
    -- edge ub → sb
    have hgood2 : Good (gs.addEdge ub sb) r1 := by
      refine hgood1.addEdge (by omega) (fun _ => ?_)
      rw [hrb1', hext1' ub hublt]
      exact hub
    -- edge se → ue
    have hgood3 : Good ((gs.addEdge ub sb).addEdge se ue) r1 := by
      refine hgood2.addEdge ?_ (fun _ => ?_)
      · rw [addEdge_len]; omega
      · rw [hre1', hext1' ue huelt]
        exact hue
    have hPU := (ih (sizeOf rest) hszrest).2.1 ((gs.addEdge ub sb).addEdge se ue)
      ub ue rest lob hib RT r1 (le_refl _) hgood3 hR1 (by omega) hRT
      (by rw [hext1' ub hublt]; exact hub)
      (by rw [hext1' ue huelt]; exact hue)
      (by rw [addEdge_len, addEdge_len]; omega)
      (by rw [addEdge_len, addEdge_len]; omega)
    obtain ⟨r2, hg2, hR2, hext2, hlen2, hseg2⟩ := hPU
    have hgoal : genUnion g (ub) (ue) (sub :: rest) =
        genUnion ((gs.addEdge ub sb).addEdge se ue) ub ue rest := by
      rw [genUnion, hgen]
    rw [hgoal]
    refine ⟨r2, hg2, hR2, ?_, ?_, ?_⟩
    · intro i hi
      rw [hext2 i (by rw [addEdge_len, addEdge_len]; omega), hext1' i hi]
    · have := hlen2
      rw [addEdge_len, addEdge_len] at this
      omega
    · intro w hw
      rw [hseg2 w (by rw [addEdge_len, addEdge_len]; omega), seg_addEdge, seg_addEdge,
        hseg1' w hw]

lemma pairwise_transfer {r r' : Nat → Nat} {chain : List (Nat × Nat)} {N : Nat}
    (h : List.Pairwise (fun p q => r q.1 < r p.2) chain)
    (hlt : ∀ p ∈ chain, p.1 < N ∧ p.2 < N)
    (hext : ∀ i, i < N → r' i = r i) :
    List.Pairwise (fun p q => r' q.1 < r' p.2) chain := by
  refine List.Pairwise.imp_of_mem ?_ h
  intro a b ha hb hab
  rw [hext b.1 (hlt b hb).1, hext a.2 (hlt a ha).2]
  exact hab

lemma PGL_tail {n : Nat} (hPL : PGL n)
    (g G2 : GenSt) (nn : Nat) (rest : List Segment) (lo bound RT : Nat)
    (r ra : Nat → Nat)
    (hszrest : sizeOf rest ≤ n)
    (hgood : Good G2 ra) (hRa : RLE RT ra)
    (hreq : lo + 3 * sizeOf rest ≤ bound) (hRT : bound ≤ RT) (hlb : lo < bound)
    (hnn : nn < G2.arena.length)
    (hsolid : isCtrl (getNode G2.arena nn).seg = false)
    (hlen : g.arena.length ≤ G2.arena.length)
    (hext : ∀ i, i < g.arena.length → ra i = r i)
    (hseg : ∀ w, w < g.arena.length →
      (getNode G2.arena w).seg = (getNode g.arena w).seg) :
    ∃ r' bound',
      Good (genLoop G2 nn [] rest).1 r' ∧
      RLE RT r' ∧
      (∀ i, i < g.arena.length → r' i = r i) ∧
      g.arena.length ≤ (genLoop G2 nn [] rest).1.arena.length ∧
      (∀ w, w < g.arena.length →
        (getNode (genLoop G2 nn [] rest).1.arena w).seg =
          (getNode g.arena w).seg) ∧
      lo < bound' ∧
      bound' ≤ bound ∧
      (genLoop G2 nn [] rest).2.1 < (genLoop G2 nn [] rest).1.arena.length ∧
      (isCtrl (getNode (genLoop G2 nn [] rest).1.arena
          (genLoop G2 nn [] rest).2.1).seg = true →
        bound' ≤ r' (genLoop G2 nn [] rest).2.1) ∧
      (∀ p ∈ (genLoop G2 nn [] rest).2.2,
        p.1 < (genLoop G2 nn [] rest).1.arena.length ∧
        p.2 < (genLoop G2 nn [] rest).1.arena.length ∧
        bound' ≤ r' p.2) ∧
      List.Pairwise (fun p q => r' q.1 < r' p.2) (genLoop G2 nn [] rest).2.2 := by
  have hPLr := hPL G2 nn [] rest lo bound RT ra hszrest hgood hRa hreq hRT hlb hnn
    (by intro hc; rw [hsolid] at hc; cases hc) (by intro p hp; cases hp)
    List.Pairwise.nil
  obtain ⟨r2, b2, h1, h2, h3, h4, h5, h6, h7, h8, h9, h10, h11⟩ := hPLr
  refine ⟨r2, b2, h1, h2, ?_, by omega, ?_, h6, h7, h8, h9, h10, h11⟩
  · intro i hi
    rw [h3 i (by omega), hext i hi]
  · intro w hw
    rw [h5 w (by omega), hseg w hw]

lemma stepPGL (n : Nat) (ih : ∀ m, m < n → PGL m ∧ PGU m ∧ PGG m) : PGL n := by
  intro g current chain segs lo bound RT r hsz hg hR hreq hRT hlb hcur hcurB hchain hpair
  cases segs with
  | nil =>
    rw [genLoop]
    exact ⟨r, bound, hg, hR, fun _ _ => rfl, le_refl _, fun _ _ => rfl, hlb, le_refl _,
      hcur, hcurB, hchain, hpair⟩
  | cons seg rest =>
    have hszc : sizeOf (seg :: rest) = 1 + sizeOf seg + sizeOf rest := by simp
    have hsegpos : 1 ≤ sizeOf seg := by
      cases seg <;> simp <;> omega
    cases seg with
    | keyword kid name =>
      have hszrest : sizeOf rest < n := by omega
      rcases hcn : g.createNode (.keyword kid name) with ⟨ga, nn⟩
      have hspec := createNode_spec hg (.keyword kid name) rfl
      rw [hcn] at hspec
      obtain ⟨ra, hgA, hextA, hRAf, hr0, hnlt, hlenA, hsolidA, hsegfullA, hlenA2⟩ := hspec
      have hgA' : Good ga ra := hgA
      have hextA' : ∀ i, i < g.arena.length → ra i = r i := hextA
      have hr0' : ra nn = 0 := hr0
      have hnlt' : nn < ga.arena.length := hnlt
      have hlenA' : g.arena.length ≤ ga.arena.length := hlenA
      have hsolidA' : isCtrl (getNode ga.arena nn).seg = false := hsolidA
      have hsegfullA' : ∀ w, w < g.arena.length →
          getNode ga.arena w = getNode g.arena w := hsegfullA
      have hRa : RLE RT ra := hRAf RT hR
      have hgoodB : Good (ga.addEdge current nn) ra := by
        refine hgA'.addEdge hnlt' (fun hctrl => ?_)
        rw [hsegfullA' current hcur] at hctrl
        rw [hr0', hextA' current hcur]
        have := hcurB hctrl
        omega
      cases chain with
      | nil =>
        have hred : genLoop g current [] (Segment.keyword kid name :: rest) =
            genLoop (ga.addEdge current nn) nn [] rest := by
          rw [genLoop, hcn]
          rfl
        rw [hred]
        refine PGL_tail (ih (sizeOf rest) hszrest).1 g (ga.addEdge current nn) nn rest
          lo bound RT r ra (le_refl _) hgoodB hRa (by omega) hRT hlb ?_ ?_ ?_ ?_ ?_
        · rw [addEdge_len]; omega
        · rw [seg_addEdge]; exact hsolidA'
        · rw [addEdge_len]; omega
        · exact hextA'
        · intro w hw
          rw [seg_addEdge]
          exact congrArg Node.seg (hsegfullA' w hw)
      | cons p0 ch =>
        have hred : genLoop g current (p0 :: ch) (Segment.keyword kid name :: rest) =
            genLoop (resolveChain (ga.addEdge current nn) (p0 :: ch) nn) nn [] rest := by
          rw [genLoop, hcn]
          rfl
        rw [hred]
        have hgoodC : Good (resolveChain (ga.addEdge current nn) (p0 :: ch) nn) ra := by
          refine good_resolveChain hgoodB ?_ ?_ ?_ ?_
          · rw [addEdge_len]; omega
          · intro p hp
            rw [addEdge_len]
            have := (hchain p hp).1
            omega
          · intro p hp
            rw [hr0', hextA' p.2 (hchain p hp).2.1]
            have := (hchain p hp).2.2
            omega
          · exact pairwise_transfer hpair
              (fun p hp => ⟨(hchain p hp).1, (hchain p hp).2.1⟩) hextA'
        refine PGL_tail (ih (sizeOf rest) hszrest).1 g _ nn rest
          lo bound RT r ra (le_refl _) hgoodC hRa (by omega) hRT hlb ?_ ?_ ?_ ?_ ?_
        · rw [resolveChain_len, addEdge_len]; omega
        · rw [resolveChain_seg, seg_addEdge]; exact hsolidA'
        · rw [resolveChain_len, addEdge_len]; omega
        · exact hextA'
        · intro w hw
          rw [resolveChain_seg, seg_addEdge]
          exact congrArg Node.seg (hsegfullA' w hw)
    | var v =>
      have hszrest : sizeOf rest < n := by omega
      rcases hcn : g.createNode (.var v) with ⟨ga, nn⟩
      have hspec := createNode_spec hg (.var v) rfl
      rw [hcn] at hspec
      obtain ⟨ra, hgA, hextA, hRAf, hr0, hnlt, hlenA, hsolidA, hsegfullA, hlenA2⟩ := hspec
      have hgA' : Good ga ra := hgA
      have hextA' : ∀ i, i < g.arena.length → ra i = r i := hextA
      have hr0' : ra nn = 0 := hr0
      have hnlt' : nn < ga.arena.length := hnlt
      have hlenA' : g.arena.length ≤ ga.arena.length := hlenA
      have hsolidA' : isCtrl (getNode ga.arena nn).seg = false := hsolidA
      have hsegfullA' : ∀ w, w < g.arena.length →
          getNode ga.arena w = getNode g.arena w := hsegfullA
      have hRa : RLE RT ra := hRAf RT hR
      have hgoodB : Good (ga.addEdge current nn) ra := by
        refine hgA'.addEdge hnlt' (fun hctrl => ?_)
        rw [hsegfullA' current hcur] at hctrl
        rw [hr0', hextA' current hcur]
        have := hcurB hctrl
        omega
      have hgoodB2 : Good (if v.isRest then (ga.addEdge current nn).addEdge nn nn
          else ga.addEdge current nn) ra := by
        by_cases hrest : v.isRest
        · rw [if_pos hrest]
          refine hgoodB.addEdge ?_ (fun hctrl => ?_)
          · rw [addEdge_len]; omega
          · rw [seg_addEdge, hsolidA'] at hctrl
            cases hctrl
        · rw [if_neg hrest]
          exact hgoodB
      have hlenB2 : (if v.isRest then (ga.addEdge current nn).addEdge nn nn
          else ga.addEdge current nn).arena.length = ga.arena.length := by
        by_cases hrest : v.isRest
        · rw [if_pos hrest, addEdge_len, addEdge_len]
        · rw [if_neg hrest, addEdge_len]
      have hsegB2 : ∀ w, (getNode (if v.isRest then (ga.addEdge current nn).addEdge nn nn
          else ga.addEdge current nn).arena w).seg = (getNode ga.arena w).seg := by
        intro w
        by_cases hrest : v.isRest
        · rw [if_pos hrest, seg_addEdge, seg_addEdge]
        · rw [if_neg hrest, seg_addEdge]
      cases chain with
      | nil =>
        have hred : genLoop g current [] (Segment.var v :: rest) =
            genLoop (if v.isRest then (ga.addEdge current nn).addEdge nn nn
              else ga.addEdge current nn) nn [] rest := by
          rw [genLoop, hcn]
          rfl
        rw [hred]
        refine PGL_tail (ih (sizeOf rest) hszrest).1 g _ nn rest
          lo bound RT r ra (le_refl _) hgoodB2 hRa (by omega) hRT hlb ?_ ?_ ?_ ?_ ?_
        · rw [hlenB2]; omega
        · rw [hsegB2]; exact hsolidA'
        · rw [hlenB2]; omega
        · exact hextA'
        · intro w hw
          rw [hsegB2]
          exact congrArg Node.seg (hsegfullA' w hw)
      | cons p0 ch =>
        have hred : genLoop g current (p0 :: ch) (Segment.var v :: rest) =
            genLoop (resolveChain (if v.isRest then (ga.addEdge current nn).addEdge nn nn
              else ga.addEdge current nn) (p0 :: ch) nn) nn [] rest := by
          rw [genLoop, hcn]
          rfl
        rw [hred]
        have hgoodC : Good (resolveChain (if v.isRest then
            (ga.addEdge current nn).addEdge nn nn else ga.addEdge current nn)
            (p0 :: ch) nn) ra := by
          refine good_resolveChain hgoodB2 ?_ ?_ ?_ ?_
          · rw [hlenB2]; omega
          · intro p hp
            rw [hlenB2]
            have := (hchain p hp).1
            omega
          · intro p hp
            rw [hr0', hextA' p.2 (hchain p hp).2.1]
            have := (hchain p hp).2.2
            omega
          · exact pairwise_transfer hpair
              (fun p hp => ⟨(hchain p hp).1, (hchain p hp).2.1⟩) hextA'
        refine PGL_tail (ih (sizeOf rest) hszrest).1 g _ nn rest
          lo bound RT r ra (le_refl _) hgoodC hRa (by omega) hRT hlb ?_ ?_ ?_ ?_ ?_
        · rw [resolveChain_len, hlenB2]; omega
        · rw [resolveChain_seg, hsegB2]; exact hsolidA'
        · rw [resolveChain_len, hlenB2]; omega
        · exact hextA'
        · intro w hw
          rw [resolveChain_seg, hsegB2]
          exact congrArg Node.seg (hsegfullA' w hw)
    | optionalSeg inner =>
      have hso : sizeOf (Segment.optionalSeg inner) = 1 + sizeOf inner := by simp
      have hszinner : sizeOf inner < n := by omega
      have hszrest : sizeOf rest < n := by omega
      rcases hgen : generateGraph g inner with ⟨ga, obe⟩
      rcases obe with ⟨ob, oe⟩
      have hGG := (ih (sizeOf inner) hszinner).2.2 g inner (lo + 3 * sizeOf rest + 1)
        (bound - 1) RT r (le_refl _) hg hR (by omega) (by omega)
      rw [hgen] at hGG
      obtain ⟨ra, hgA, hRa, hextA, hlenA, hsegA, hb, he, hrb, hre⟩ := hGG
      have hgA' : Good ga ra := hgA
      have hRa' : RLE RT ra := hRa
      have hextA' : ∀ i, i < g.arena.length → ra i = r i := hextA
      have hlenA' : g.arena.length + 2 ≤ ga.arena.length := hlenA
      have hsegA' : ∀ w, w < g.arena.length →
          (getNode ga.arena w).seg = (getNode g.arena w).seg := hsegA
      have hb' : ob = g.arena.length := hb
      have he' : oe = g.arena.length + 1 := he
      have hrb' : ra ob = bound - 1 := hrb
      have hre' : ra oe = lo + 3 * sizeOf rest + 1 := hre
      have hgoodB : Good (ga.addEdge current ob) ra := by
        refine hgA'.addEdge (by omega) (fun hctrl => ?_)
        rw [hsegA' current hcur] at hctrl
        rw [hrb', hextA' current hcur]
        have := hcurB hctrl
        omega
      have hred : genLoop g current chain (Segment.optionalSeg inner :: rest) =
          genLoop (ga.addEdge current ob) current (chain ++ [(ob, oe)]) rest := by
        rw [genLoop, hgen]
      rw [hred]
      have hPL := (ih (sizeOf rest) hszrest).1 (ga.addEdge current ob) current
        (chain ++ [(ob, oe)]) rest lo (lo + 3 * sizeOf rest + 1) RT ra (le_refl _)
        hgoodB hRa' (by omega) (by omega) (by omega)
        (by rw [addEdge_len]; omega)
        (by intro hctrl
            rw [seg_addEdge, hsegA' current hcur] at hctrl
            rw [hextA' current hcur]
            have := hcurB hctrl
            omega)
        (by intro p hp
            rw [addEdge_len]
            rcases List.mem_append.mp hp with hp | hp
            · obtain ⟨h1, h2, h3⟩ := hchain p hp
              refine ⟨by omega, by omega, ?_⟩
              rw [hextA' p.2 h2]
              omega
            · rw [List.mem_singleton] at hp
              subst hp
              exact ⟨by omega, by omega, by rw [hre']⟩)
        (by refine List.pairwise_append.mpr ⟨?_, ?_, ?_⟩
            · exact pairwise_transfer hpair
                (fun p hp => ⟨(hchain p hp).1, (hchain p hp).2.1⟩) hextA'
            · simp
            · intro p hp q hq
              rw [List.mem_singleton] at hq
              subst hq
              show ra ob < ra p.2
              rw [hrb', hextA' p.2 (hchain p hp).2.1]
              have := (hchain p hp).2.2
              omega)
      obtain ⟨r2, b2, h1, h2, h3, h4, h5, h6, h7, h8, h9, h10, h11⟩ := hPL
      refine ⟨r2, b2, h1, h2, ?_, ?_, ?_, h6, by omega, h8, h9, h10, h11⟩
      · intro i hi
        rw [h3 i (by rw [addEdge_len]; omega), hextA' i hi]
      · have h4' := h4
        rw [addEdge_len] at h4'
        omega
      · intro w hw
        rw [h5 w (by rw [addEdge_len]; omega), seg_addEdge, hsegA' w hw]
    | unionSeg subs =>
      have hsu : sizeOf (Segment.unionSeg subs) = 1 + sizeOf subs := by simp
      have hszsubs : sizeOf subs < n := by omega
      have hszrest : sizeOf rest < n := by omega
      rcases hms : g.createMarkerSet with ⟨ga, ube⟩
      rcases ube with ⟨ub, ue⟩
      have hub' : ub = g.arena.length := by
        have := createMarkerSet_b g
        rw [hms] at this
        exact this
      have hue' : ue = g.arena.length + 1 := by
        have := createMarkerSet_e g
        rw [hms] at this
        exact this
      have hlenMS : ga.arena.length = g.arena.length + 2 := by
        have := createMarkerSet_len g
        rw [hms] at this
        exact this
      have hsegMS : ∀ w, w < g.arena.length → getNode ga.arena w = getNode g.arena w := by
        intro w hw
        have := createMarkerSet_seg g w hw
        rw [hms] at this
        exact this
      have hgoodA : Good ga (upd (upd r g.arena.length (bound - 1))
          (g.arena.length + 1) (lo + 3 * sizeOf rest + 1)) := by
        have := hg.createMarkerSet (bound - 1) (lo + 3 * sizeOf rest + 1)
        rw [hms] at this
        exact this
      have hRa : RLE RT (upd (upd r g.arena.length (bound - 1))
          (g.arena.length + 1) (lo + 3 * sizeOf rest + 1)) :=
        (hR.upd _ _ (by omega)).upd _ _ (by omega)
      have hraub : upd (upd r g.arena.length (bound - 1))
          (g.arena.length + 1) (lo + 3 * sizeOf rest + 1) ub = bound - 1 := by
        rw [hub', upd_other _ _ _ _ (by omega), upd_self]
      have hraue : upd (upd r g.arena.length (bound - 1))
          (g.arena.length + 1) (lo + 3 * sizeOf rest + 1) ue =
            lo + 3 * sizeOf rest + 1 := by
        rw [hue', upd_self]
      have hextA : ∀ i, i < g.arena.length →
          upd (upd r g.arena.length (bound - 1))
            (g.arena.length + 1) (lo + 3 * sizeOf rest + 1) i = r i := by
        intro i hi
        rw [upd_other _ _ _ _ (by omega), upd_other _ _ _ _ (by omega)]
      have hgoodB : Good (ga.addEdge current ub)
          (upd (upd r g.arena.length (bound - 1))
            (g.arena.length + 1) (lo + 3 * sizeOf rest + 1)) := by
        refine hgoodA.addEdge (by omega) (fun hctrl => ?_)
        rw [hsegMS current hcur] at hctrl
        rw [hraub, hextA current hcur]
        have := hcurB hctrl
        omega
      have hPU := (ih (sizeOf subs) hszsubs).2.1 (ga.addEdge current ub) ub ue subs
        (lo + 3 * sizeOf rest + 2) (bound - 2) RT
        (upd (upd r g.arena.length (bound - 1))
          (g.arena.length + 1) (lo + 3 * sizeOf rest + 1))
        (le_refl _) hgoodB hRa (by omega) (by omega)
        (by rw [hraub]; omega)
        (by rw [hraue]; omega)
        (by rw [addEdge_len]; omega)
        (by rw [addEdge_len]; omega)
      obtain ⟨rb, hgB2, hRb, hextB, hlenB, hsegB⟩ := hPU
      have hextB' : ∀ i, i < ga.arena.length → rb i =
          upd (upd r g.arena.length (bound - 1))
            (g.arena.length + 1) (lo + 3 * sizeOf rest + 1) i := by
        intro i hi
        exact hextB i (by rw [addEdge_len]; omega)
      have hlenB' : ga.arena.length ≤ (genUnion (ga.addEdge current ub) ub ue subs).arena.length := by
        have := hlenB
        rw [addEdge_len] at this
        exact this
      have hsegB' : ∀ w, w < ga.arena.length →
          (getNode (genUnion (ga.addEdge current ub) ub ue subs).arena w).seg =
            (getNode ga.arena w).seg := by
        intro w hw
        rw [hsegB w (by rw [addEdge_len]; omega), seg_addEdge]
      have hred : genLoop g current chain (Segment.unionSeg subs :: rest) =
          genLoop (genUnion (ga.addEdge current ub) ub ue subs) ue chain rest := by
        rw [genLoop, hms]
      rw [hred]
      have hPL := (ih (sizeOf rest) hszrest).1
        (genUnion (ga.addEdge current ub) ub ue subs) ue chain rest lo
        (lo + 3 * sizeOf rest + 1) RT rb (le_refl _) hgB2 hRb
        (by omega) (by omega) (by omega)
        (by omega)
        (by intro _
            rw [hextB' ue (by omega), hraue])
        (by intro p hp
            obtain ⟨h1, h2, h3⟩ := hchain p hp
            refine ⟨by omega, by omega, ?_⟩
            rw [hextB' p.2 (by omega), hextA p.2 h2]
            omega)
        (by refine pairwise_transfer hpair
              (fun p hp => ⟨(hchain p hp).1, (hchain p hp).2.1⟩) ?_
            intro i hi
            rw [hextB' i (by omega), hextA i hi])
      obtain ⟨r2, b2, h1, h2, h3, h4, h5, h6, h7, h8, h9, h10, h11⟩ := hPL
      refine ⟨r2, b2, h1, h2, ?_, ?_, ?_, h6, by omega, h8, h9, h10, h11⟩
      · intro i hi
        rw [h3 i (by omega), hextB' i (by omega), hextA i hi]
      · omega
      · intro w hw
        rw [h5 w (by omega), hsegB' w (by omega)]
        exact congrArg Node.seg (hsegMS w hw)

lemma stepPGG (n : Nat) (hGL : PGL n) : PGG n := by
  intro g segs lo hi RT r hsz hg hR hreq hRT
  have hsegs1 : 1 ≤ sizeOf segs := by
    cases segs <;> simp <;> omega
  rcases hms : g.createMarkerSet with ⟨ga, be⟩
  rcases be with ⟨b, e⟩
  have hb' : b = g.arena.length := by
    have := createMarkerSet_b g
    rw [hms] at this
    exact this
  have he' : e = g.arena.length + 1 := by
    have := createMarkerSet_e g
    rw [hms] at this
    exact this
  have hlenMS : ga.arena.length = g.arena.length + 2 := by
    have := createMarkerSet_len g
    rw [hms] at this
    exact this
  have hsegMS : ∀ w, w < g.arena.length → getNode ga.arena w = getNode g.arena w := by
    intro w hw
    have := createMarkerSet_seg g w hw
    rw [hms] at this
    exact this
  have hgoodA : Good ga (upd (upd r g.arena.length hi) (g.arena.length + 1) lo) := by
    have := hg.createMarkerSet hi lo
    rw [hms] at this
    exact this
  have hRa : RLE RT (upd (upd r g.arena.length hi) (g.arena.length + 1) lo) :=
    (hR.upd _ _ hRT).upd _ _ (by omega)
  have hrab : upd (upd r g.arena.length hi) (g.arena.length + 1) lo b = hi := by
    rw [hb', upd_other _ _ _ _ (by omega), upd_self]
  have hrae : upd (upd r g.arena.length hi) (g.arena.length + 1) lo e = lo := by
    rw [he', upd_self]
  have hextA : ∀ i, i < g.arena.length →
      upd (upd r g.arena.length hi) (g.arena.length + 1) lo i = r i := by
    intro i hi2
    rw [upd_other _ _ _ _ (by omega), upd_other _ _ _ _ (by omega)]
  rcases hloop : genLoop ga b [] segs with ⟨g2, cur2, chain2⟩
  have hPL := hGL ga b [] segs lo hi RT
    (upd (upd r g.arena.length hi) (g.arena.length + 1) lo) hsz hgoodA hRa hreq hRT
    (by omega) (by omega) (fun _ => by rw [hrab]) (by intro p hp; cases hp)
    List.Pairwise.nil
  rw [hloop] at hPL
  obtain ⟨r2, b2, h1, h2, h3, h4, h5, h6, h7, h8, h9, h10, h11⟩ := hPL
  have hg2' : Good g2 r2 := h1
  have hext2 : ∀ i, i < ga.arena.length → r2 i =
      upd (upd r g.arena.length hi) (g.arena.length + 1) lo i := h3
  have hlen2 : ga.arena.length ≤ g2.arena.length := h4
  have hseg2 : ∀ w, w < ga.arena.length →
      (getNode g2.arena w).seg = (getNode ga.arena w).seg := h5
  have hcur2 : cur2 < g2.arena.length := h8
  have hcurB2 : isCtrl (getNode g2.arena cur2).seg = true → b2 ≤ r2 cur2 := h9
  have hchain2 : ∀ p ∈ chain2, p.1 < g2.arena.length ∧ p.2 < g2.arena.length ∧
      b2 ≤ r2 p.2 := h10
  have hpair2 : List.Pairwise (fun p q => r2 q.1 < r2 p.2) chain2 := h11
  have hr2e : r2 e = lo := by
    rw [hext2 e (by omega), hrae]
  have hr2b : r2 b = hi := by
    rw [hext2 b (by omega), hrab]
  have hred : generateGraph g segs =
      ((if chain2.isEmpty then g2 else resolveChain g2 chain2 e).addEdge cur2 e, b, e) := by
    simp only [generateGraph, hms, hloop]
  have hgood3 : Good (if chain2.isEmpty then g2 else resolveChain g2 chain2 e) r2 := by
    cases chain2 with
    | nil => exact hg2'
    | cons p0 ch =>
      show Good (resolveChain g2 (p0 :: ch) e) r2
      refine good_resolveChain hg2' (by omega) ?_ ?_ hpair2
      · intro p hp
        exact (hchain2 p hp).1
      · intro p hp
        rw [hr2e]
        have := (hchain2 p hp).2.2
        omega
  have hlen3 : (if chain2.isEmpty then g2 else resolveChain g2 chain2 e).arena.length =
      g2.arena.length := by
    cases chain2 with
    | nil => rfl
    | cons p0 ch =>
      show (resolveChain g2 (p0 :: ch) e).arena.length = g2.arena.length
      rw [resolveChain_len]
  have hseg3 : ∀ w, (getNode (if chain2.isEmpty then g2
      else resolveChain g2 chain2 e).arena w).seg = (getNode g2.arena w).seg := by
    intro w
    cases chain2 with
    | nil => rfl
    | cons p0 ch =>
      show (getNode (resolveChain g2 (p0 :: ch) e).arena w).seg = _
      rw [resolveChain_seg]
  have hgood4 : Good ((if chain2.isEmpty then g2
      else resolveChain g2 chain2 e).addEdge cur2 e) r2 := by
    refine hgood3.addEdge ?_ (fun hctrl => ?_)
    · rw [hlen3]; omega
    · rw [hseg3] at hctrl
      rw [hr2e]
      have := hcurB2 hctrl
      omega
  rw [hred]
  refine ⟨r2, hgood4, h2, ?_, ?_, ?_, hb', he', by rw [hr2b], by rw [hr2e]⟩
  · intro i hi2
    rw [hext2 i (by omega), hextA i hi2]
  · show g.arena.length + 2 ≤ ((if chain2.isEmpty then g2
      else resolveChain g2 chain2 e).addEdge cur2 e).arena.length
    rw [addEdge_len, hlen3]
    omega
  · intro w hw
    show (getNode ((if chain2.isEmpty then g2
      else resolveChain g2 chain2 e).addEdge cur2 e).arena w).seg = _
    rw [seg_addEdge, hseg3, hseg2 w (by omega)]
    exact congrArg Node.seg (hsegMS w hw)

theorem rankMaster (n : Nat) : PGL n ∧ PGU n ∧ PGG n := by
  induction n using Nat.strong_induction_on with
  | _ n ih =>
    refine ⟨stepPGL n ih, stepPGU n ih, stepPGG n (stepPGL n ih)⟩

/-- The rank certificate for any graph produced from the fresh generator. -/

theorem generateGraph_ranked (segs : List Segment) :
    ∃ r : Nat → Nat,
      EdgeOK r (generateGraph gen0 segs).1.arena ∧
      Closed (generateGraph gen0 segs).1.arena ∧
      (∀ i, r i ≤ 3 * sizeOf segs + 1) := by
  have hgood0 : Good gen0 (fun _ => 0) := by
    refine ⟨?_, ?_, ?_, ?_, ?_⟩
    · intro u v hv _
      rw [getNode_beyond _ _ (by simp [gen0]), junk_edges] at hv
      cases hv
    · intro u v hv
      rw [getNode_beyond _ _ (by simp [gen0]), junk_edges] at hv
      cases hv
    · intro i _
      rfl
    · intro p hp
      cases hp
    · intro p hp
      cases hp
  have hR0 : RLE (3 * sizeOf segs + 1) (fun _ => 0) := fun _ => Nat.zero_le _
  obtain ⟨r, hgood, hR, _⟩ := (rankMaster (sizeOf segs)).2.2 gen0 segs 1
    (3 * sizeOf segs + 1) (3 * sizeOf segs + 1) (fun _ => 0) (le_refl _)
    hgood0 hR0 (by omega) (le_refl _)
  exact ⟨r, hgood.1, hgood.2.1, hR⟩

/-! The decreasing potential of the matcher's stack. -/

lemma maxDeg_mem_le (a : List Node) : ∀ nd ∈ a, nd.edges.length ≤ maxDeg a := by
  induction a with
  | nil => intro nd h; cases h
  | cons x rest ih =>
    intro nd h
    rcases List.mem_cons.mp h with rfl | h
    · exact le_max_left _ _
    · exact le_trans (ih nd h) (le_max_right _ _)

lemma getNode_deg_le (a : List Node) (u : Nat) :
    (getNode a u).edges.length ≤ maxDeg a := by
  by_cases hu : u < a.length
  · refine maxDeg_mem_le a _ ?_
    unfold getNode
    rw [List.getD_eq_getElem a junkNode hu]
    exact List.getElem_mem _
  · rw [getNode_beyond _ _ (by omega), junk_edges]
    exact Nat.zero_le _

lemma pot_append (B L R : Nat) (r : Nat → Nat) (s1 s2 : List Frame) :
    pot B L R r (s1 ++ s2) = pot B L R r s1 + pot B L R r s2 := by
  simp [pot]

lemma pot_cons (B L R : Nat) (r : Nat → Nat) (fr : Frame) (s : List Frame) :
    pot B L R r (fr :: s) = (B + 1) ^ measF L R r fr + pot B L R r s := by
  simp [pot]

lemma pot_reverse (B L R : Nat) (r : Nat → Nat) (s : List Frame) :
    pot B L R r s.reverse = pot B L R r s := by
  simp [pot, List.sum_reverse]

lemma stack_emitPartialOf (st : MState) (mid : Nat) :
    (emitPartialOf st mid).stack = st.stack := rfl

lemma stack_emitInvokableOf (st : MState) (mid : Nat) :
    (emitInvokableOf st mid).stack = st.stack := rfl

lemma stack_pushFrames (st : MState) (edges : List Nat) (mid idx : Nat) :
    (pushFrames st edges mid idx).stack =
      (edges.map (fun e => Frame.mk e mid idx)).reverse ++ st.stack := rfl

lemma step_stack_cases (nk dk : String → Bool) (g : List Node) (argv : List String)
    (fr : Frame) (st : MState) :
    (step nk dk g argv fr st).stack = st.stack ∨
    ∃ mid idx,
      (step nk dk g argv fr st).stack =
        ((getNode g fr.node).edges.map (fun e => Frame.mk e mid idx)).reverse ++
          st.stack ∧
      ((isCtrl (getNode g fr.node).seg = true ∧ idx = fr.index) ∨
       (fr.index < argv.length ∧ idx = fr.index + 1)) := by
  rcases hn : getNode g fr.node with ⟨seg, edges⟩
  cases seg with
  | control id isBof =>
    right
    refine ⟨fr.mid, fr.index, ?_, Or.inl ⟨rfl, rfl⟩⟩
    rw [step, hn]
    dsimp only
    cases hc : (!isBof && id == 0 && !decide (fr.index < argv.length)) with
    | false => rfl
    | true => rfl
  | keyword kid name =>
    cases hlt : decide (fr.index < argv.length) with
    | false =>
      left
      rw [step, hn]
      dsimp only
      simp only [hlt]
      rfl
    | true =>
      cases hf : kwIsFull name (argv.getD fr.index "") with
      | true =>
        right
        refine ⟨st.marena.length, fr.index + 1, ?_, Or.inr ⟨of_decide_eq_true hlt, rfl⟩⟩
        rw [step, hn]
        dsimp only
        simp only [hlt, hf]
        rfl
      | false =>
        left
        rw [step, hn]
        dsimp only
        simp only [hlt, hf]
        cases hp : (kwIsPartialB name (argv.getD fr.index "") &&
            (fr.index + 1 == argv.length)) with
        | false => rfl
        | true => rfl
  | var v =>
    cases hlt : decide (fr.index < argv.length) with
    | false =>
      left
      rw [step, hn]
      dsimp only
      simp only [hlt]
      rfl
    | true =>
      cases hf : varIsFull nk dk v (argv.getD fr.index "") with
      | true =>
        right
        refine ⟨st.marena.length, fr.index + 1, ?_, Or.inr ⟨of_decide_eq_true hlt, rfl⟩⟩
        rw [step, hn]
        dsimp only
        simp only [hlt, hf]
        cases hfi : varFired v with
        | false => rfl
        | true => rfl
      | false =>
        left
        rw [step, hn]
        dsimp only
        simp only [hlt, hf]
        cases hfi : varFired v with
        | false =>
          cases hp : varIsPartialB v (argv.getD fr.index "") with
          | false => rfl
          | true => rfl
        | true =>
          cases hp : varIsPartialB v (argv.getD fr.index "") with
          | false => rfl
          | true => rfl

lemma pot_pushed_lt {B L R : Nat} {r : Nat → Nat} (edges : List Nat) (mid idx m : Nat)
    (hlen : edges.length ≤ B) (hm : edges ≠ [] → 1 ≤ m)
    (hall : ∀ v ∈ edges, measF L R r (Frame.mk v mid idx) ≤ m - 1) :
    pot B L R r ((edges.map (fun e => Frame.mk e mid idx)).reverse) < (B + 1) ^ m := by
  rw [pot_reverse]
  rcases em : edges with _ | ⟨e0, erest⟩
  · show pot B L R r [] < (B + 1) ^ m
    have : 0 < (B + 1) ^ m := Nat.pos_pow_of_pos _ (by omega)
    simpa [pot] using this
  rw [← em]
  have hm' : 1 ≤ m := hm (by rw [em]; intro h; cases h)
  have h1 : ∀ x ∈ (edges.map (fun e => Frame.mk e mid idx)).map
      (fun fr => (B + 1) ^ measF L R r fr), x ≤ (B + 1) ^ (m - 1) := by
    intro x hx
    rw [List.mem_map] at hx
    obtain ⟨fr, hfr, rfl⟩ := hx
    rw [List.mem_map] at hfr
    obtain ⟨v, hv, rfl⟩ := hfr
    exact Nat.pow_le_pow_right (by omega) (hall v hv)
  have h2 := List.sum_le_card_nsmul _ _ h1
  rw [smul_eq_mul] at h2
  have h3 : ((edges.map (fun e => Frame.mk e mid idx)).map
      (fun fr => (B + 1) ^ measF L R r fr)).length = edges.length := by
    simp
  rw [h3] at h2
  have h4 : edges.length * (B + 1) ^ (m - 1) ≤ B * (B + 1) ^ (m - 1) :=
    Nat.mul_le_mul_right _ hlen
  have h5 : B * (B + 1) ^ (m - 1) < (B + 1) * (B + 1) ^ (m - 1) := by
    have hp : 0 < (B + 1) ^ (m - 1) := Nat.pos_pow_of_pos _ (by omega)
    exact Nat.mul_lt_mul_of_lt_of_le (by omega) (le_refl _) hp
  have h6 : (B + 1) * (B + 1) ^ (m - 1) = (B + 1) ^ m := by
    rw [← pow_succ']
    congr 1
    omega
  show pot B L R r (edges.map (fun e => Frame.mk e mid idx)) < (B + 1) ^ m
  unfold pot
  omega

lemma step_pot (nk dk : String → Bool) (g : List Node) (argv : List String)
    (fr : Frame) (st : MState) (B R : Nat) (r : Nat → Nat)
    (hB : ∀ u, (getNode g u).edges.length ≤ B)
    (hE : EdgeOK r g)
    (hR : ∀ i, r i ≤ R)
    (hidx : fr.index ≤ argv.length) :
    pot B argv.length R r (step nk dk g argv fr st).stack <
      (B + 1) ^ measF argv.length R r fr + pot B argv.length R r st.stack ∧
    (∀ f ∈ (step nk dk g argv fr st).stack,
      f ∈ st.stack ∨ f.index ≤ argv.length) := by
  rcases step_stack_cases nk dk g argv fr st with heq | ⟨mid, idx, heq, hcase⟩
  · rw [heq]
    constructor
    · have : 0 < (B + 1) ^ measF argv.length R r fr :=
        Nat.pos_pow_of_pos _ (by omega)
      omega
    · intro f hf
      exact Or.inl hf
  · rw [heq]
    have hnew : pot B argv.length R r
        (((getNode g fr.node).edges.map (fun e => Frame.mk e mid idx)).reverse) <
        (B + 1) ^ measF argv.length R r fr := by
      rcases hcase with ⟨hctrl, rfl⟩ | ⟨hlt, rfl⟩
      · -- control node: same index, strictly smaller rank on every edge target
        refine pot_pushed_lt _ _ _ _ (hB fr.node) ?_ ?_
        · intro he
          obtain ⟨v, hv⟩ := List.exists_mem_of_ne_nil _ he
          have := hE fr.node v hv hctrl
          unfold measF
          omega
        · intro v hv
          have := hE fr.node v hv hctrl
          unfold measF
          dsimp only
          omega
      · -- consuming step: index increases, measure drops by at least one
        have hQ : (argv.length - fr.index) * (R + 1) =
            (argv.length - (fr.index + 1)) * (R + 1) + (R + 1) := by
          have h : argv.length - fr.index = (argv.length - (fr.index + 1)) + 1 := by
            omega
          rw [h, add_mul, one_mul]
        refine pot_pushed_lt _ _ _ _ (hB fr.node) ?_ ?_
        · intro _
          unfold measF
          omega
        · intro v hv
          have := hR v
          unfold measF
          dsimp only
          omega
    constructor
    · rw [pot_append]
      omega
    · intro f hf
      rw [List.mem_append] at hf
      rcases hf with hf | hf
      · rw [List.mem_reverse, List.mem_map] at hf
        obtain ⟨v, hv, rfl⟩ := hf
        rcases hcase with ⟨_, rfl⟩ | ⟨hlt, rfl⟩
        · exact Or.inr hidx
        · exact Or.inr (by show fr.index + 1 ≤ argv.length; omega)
      · exact Or.inl hf

lemma run_term (nk dk : String → Bool) (g : List Node) (argv : List String)
    (B R : Nat) (r : Nat → Nat)
    (hB : ∀ u, (getNode g u).edges.length ≤ B)
    (hE : EdgeOK r g)
    (hR : ∀ i, r i ≤ R) :
    ∀ fuel st, (∀ f ∈ st.stack, f.index ≤ argv.length) →
      pot B argv.length R r st.stack < fuel + 1 →
      ∃ st', run nk dk g argv fuel st = some st' := by
  intro fuel
  induction fuel with
  | zero =>
    intro st hidx hpot
    cases hst : st.stack with
    | nil => exact ⟨st, by rw [run, hst]⟩
    | cons fr rest =>
      exfalso
      rw [hst, pot_cons] at hpot
      have : 0 < (B + 1) ^ measF argv.length R r fr := Nat.pos_pow_of_pos _ (by omega)
      omega
  | succ fuel ihf =>
    intro st hidx hpot
    cases hst : st.stack with
    | nil => exact ⟨st, by rw [run, hst]⟩
    | cons fr rest =>
      have hfr : fr.index ≤ argv.length := hidx fr (by rw [hst]; exact List.mem_cons_self _ _)
      obtain ⟨hlt, hmem⟩ := step_pot nk dk g argv fr { st with stack := rest } B R r
        hB hE hR hfr
      have hidx' : ∀ f ∈ (step nk dk g argv fr { st with stack := rest }).stack,
          f.index ≤ argv.length := by
        intro f hf
        rcases hmem f hf with hf2 | hf2
        · exact hidx f (by rw [hst]; exact List.mem_cons_of_mem _ hf2)
        · exact hf2
      have hpot' : pot B argv.length R r
          (step nk dk g argv fr { st with stack := rest }).stack < fuel + 1 := by
        rw [hst, pot_cons] at hpot
        have hrest : pot B argv.length R r ({ st with stack := rest } : MState).stack =
            pot B argv.length R r rest := rfl
        rw [hrest] at hlt
        omega
      obtain ⟨st', hst'⟩ := ihf _ hidx' hpot'
      exact ⟨st', by rw [run, hst]; exact hst'⟩

theorem processInput_total (nk dk : String → Bool) (segs : List Segment)
    (argv : List String) (pe : List (Nat × List String)) :
    ∃ fuel results st,
      processInput nk dk (generateGraph gen0 segs).1.arena
        (generateGraph gen0 segs).2.1 argv pe fuel = some (results, st) := by
  obtain ⟨r, hE, hC, hR⟩ := generateGraph_ranked segs
  obtain ⟨st', hrun⟩ := run_term nk dk (generateGraph gen0 segs).1.arena argv
    (maxDeg (generateGraph gen0 segs).1.arena) (3 * sizeOf segs + 1) r
    (getNode_deg_le _) hE hR
    (pot (maxDeg (generateGraph gen0 segs).1.arena) argv.length
      (3 * sizeOf segs + 1) r (initState (generateGraph gen0 segs).2.1 pe).stack)
    (initState (generateGraph gen0 segs).2.1 pe)
    (by intro f hf
        rcases List.mem_singleton.mp hf with rfl
        exact Nat.zero_le _)
    (by omega)
  refine ⟨pot (maxDeg (generateGraph gen0 segs).1.arena) argv.length
      (3 * sizeOf segs + 1) r (initState (generateGraph gen0 segs).2.1 pe).stack,
    (dedupAux st'.emitted []).map (getMatch st'.marena), st', ?_⟩
  rw [processInput, hrun]
  rfl

/-- C8: the matcher always terminates and returns normally. General half: for
every scheme, every input token vector (including arbitrary garbage), every
provided-enum store and both host predicates, the traversal of the compiled
graph finishes with `some` result once given sufficient fuel — the fuel is
bounded by a potential that strictly decreases at every loop iteration, which
exists because the generated graph admits a rank function decreasing across
every non-consuming (control-node) edge. Concrete half: the garbage input
`["zzz"]` against `keyword("ban") variable("ip")` yields the empty result
list, not an error. -/
theorem C8_matcher_total :
    (∀ (nk dk : String → Bool) (segs : List Segment) (argv : List String)
        (pe : List (Nat × List String)),
      ∃ fuel results st,
        processInput nk dk (generateGraph gen0 segs).1.arena
          (generateGraph gen0 segs).2.1 argv pe fuel = some (results, st)) ∧
    processInput jsNumOk noDate (generateGraph gen0 c5segs).1.arena
        (generateGraph gen0 c5segs).2.1 ["zzz"] [] 100 = some ([], c8State) :=
  ⟨processInput_total, by rw [graph_c5segs]; decide⟩

end JustLib
